import Mathlib

/-!
Bar samplers and sorted search of the financial data preparation NIFs.

A shallow embedding of the C sources under `NIF_SOURCE_FILES/`:

* `cumulative_sum_with_reset.c`
* `symmetric_cumulative_sum_with_reset.c`
* `information_driven_bars.c` (`calculate_ewma`, `get_expected_imbalance`,
  `compute_imbalance_bars`, `compute_run_bars`)
* `searchsorted.c`

Modelling conventions.

* An inspected `ErlNifIOVec` is a list of chunks (`SysIOVec`), each chunk being the
  list of the whole 8-byte elements it holds (`iov_len / sizeof(T)` elements read
  from `iov_base`).
* `double` values are rationals: arithmetic is exact, there is no rounding, no
  infinity and no NaN.  `fmax`, `fmin`, `fabs`, `pow` are `max`, `min`, `|.|`, `^`.
* `int`, `int64_t` counters are integers, `size_t` counters are naturals; the
  conversions between them that the C code performs implicitly are explicit
  (`size_t_of_int`, `int_of_double`, `int64_wrap`).  The `double` to `int`
  conversion is bounded to 32 bits, and takes the value `INT_MIN` where C leaves
  it undefined.  Tick and bar counters are
  incremented at most once per tick and are taken not to overflow; the one
  arithmetic result that depends on the data, `data_i + offset` in `searchsorted`,
  wraps at 64 bits.
* An output array that the C code fills at consecutive indices `0, 1, 2, ...` is
  the list of the values written so far; writing the next slot appends.
* A read outside the current chunk is undefined behaviour in C; the model of
  `searchsorted` returns `none` there.
-/

namespace FinancialDataPreparation

/-- An inspected iovec: the ordered chunks, each with its whole 8-byte elements. -/
abbrev IOVec (α : Type) := List (List α)

/-- The element count `iovec->size / sizeof(T)` of an iovec of whole elements. -/
def total_num_values {α : Type} (iovec : IOVec α) : Nat :=
  (iovec.map List.length).sum

/-! ## cumulative_sum_with_reset.c -/

/-- Loop state of `cumulative_sum_with_reset`: the accumulator, the open bar and
the labels written so far (`out_index` is the length of `out_data`). -/
structure CumSumState where
  cum_value : ℚ
  bar_number : Int
  out_data : List Int
deriving DecidableEq, Repr

/-- Body of the inner `for` loop of `cumulative_sum_with_reset` (lines 62-75). -/
def cumulative_sum_tick (threshold : ℚ) (s : CumSumState) (val : ℚ) : CumSumState :=
  let out_data := s.out_data ++ [s.bar_number]
  let cum_value := s.cum_value + val
  if cum_value ≥ threshold then
    { cum_value := 0, bar_number := s.bar_number + 1, out_data := out_data }
  else
    { cum_value := cum_value, bar_number := s.bar_number, out_data := out_data }

/-- Inner loop of `cumulative_sum_with_reset`: one chunk. -/
def cumulative_sum_bin (threshold : ℚ) (s : CumSumState) (data : List ℚ) : CumSumState :=
  data.foldl (cumulative_sum_tick threshold) s

/-- Outer loop of `cumulative_sum_with_reset`: all chunks, in order. -/
def cumulative_sum_loop (threshold : ℚ) (s : CumSumState) (iovec : IOVec ℚ) : CumSumState :=
  iovec.foldl (cumulative_sum_bin threshold) s

/-- Initial values of `cumulative_sum_with_reset` (lines 42-46). -/
def cumulative_sum_init : CumSumState :=
  { cum_value := 0, bar_number := 1, out_data := [] }

/-- The NIF `cumulative_sum_with_reset`: the bar label of every tick. -/
def cumulative_sum_with_reset (iovec : IOVec ℚ) (threshold : ℚ) : List Int :=
  (cumulative_sum_loop threshold cumulative_sum_init iovec).out_data

/-! ## symmetric_cumulative_sum_with_reset.c -/

/-- Loop state of `symmetric_cumulative_sum_with_reset`; `out_index` is the length
of `out_data`. -/
structure SymCumSumState where
  cumulative_sum_positive : ℚ
  cumulative_sum_negative : ℚ
  global_index : Nat
  out_data : List Int
deriving DecidableEq, Repr

/-- Body of the inner loop of `symmetric_cumulative_sum_with_reset` (lines 65-80),
with the `++global_index` of the loop header. -/
def symmetric_cumulative_sum_tick (threshold : ℚ) (s : SymCumSumState) (val : ℚ) :
    SymCumSumState :=
  let cumulative_sum_positive := max 0 (s.cumulative_sum_positive + val)
  let cumulative_sum_negative := min 0 (s.cumulative_sum_negative + val)
  if cumulative_sum_negative < -threshold then
    { cumulative_sum_positive := cumulative_sum_positive,
      cumulative_sum_negative := 0,
      global_index := s.global_index + 1,
      out_data := s.out_data ++ [(s.global_index : Int)] }
  else if cumulative_sum_positive > threshold then
    { cumulative_sum_positive := 0,
      cumulative_sum_negative := cumulative_sum_negative,
      global_index := s.global_index + 1,
      out_data := s.out_data ++ [(s.global_index : Int)] }
  else
    { cumulative_sum_positive := cumulative_sum_positive,
      cumulative_sum_negative := cumulative_sum_negative,
      global_index := s.global_index + 1,
      out_data := s.out_data }

/-- Inner loop of `symmetric_cumulative_sum_with_reset`: one chunk. -/
def symmetric_cumulative_sum_bin (threshold : ℚ) (s : SymCumSumState) (data : List ℚ) :
    SymCumSumState :=
  data.foldl (symmetric_cumulative_sum_tick threshold) s

/-- Outer loop of `symmetric_cumulative_sum_with_reset`: all chunks, in order. -/
def symmetric_cumulative_sum_loop (threshold : ℚ) (s : SymCumSumState) (iovec : IOVec ℚ) :
    SymCumSumState :=
  iovec.foldl (symmetric_cumulative_sum_bin threshold) s

/-- Initial values of `symmetric_cumulative_sum_with_reset` (lines 42-49). -/
def symmetric_cumulative_sum_init : SymCumSumState :=
  { cumulative_sum_positive := 0, cumulative_sum_negative := 0, global_index := 0,
    out_data := [] }

/-- The NIF `symmetric_cumulative_sum_with_reset`: the binary is reallocated to
`out_index` entries, so the result is exactly the positions written. -/
def symmetric_cumulative_sum_with_reset (iovec : IOVec ℚ) (threshold : ℚ) : List Int :=
  (symmetric_cumulative_sum_loop threshold symmetric_cumulative_sum_init iovec).out_data

/-! ## information_driven_bars.c -/

/-- Conversion of a C `int` to `size_t` (64-bit, modular), as performed implicitly
when an `int` is compared with or subtracted from a `size_t`. -/
def size_t_of_int (n : Int) : Nat := (n % 2 ^ 64).toNat

/-- Conversion of a `double` to the 32-bit `int`, as in `(int)expected_imbalance_window`:
truncation toward zero when the truncated value lies in `[-2^31, 2^31)`.  Outside
that range C leaves the conversion undefined; the x86-64 conversion instruction
(`cvttsd2si`) then yields `INT_MIN = -2^31`, which is the value taken here. -/
def int_of_double (x : ℚ) : Int :=
  let truncated : Int := if 0 ≤ x then ⌊x⌋ else ⌈x⌉
  if -2 ^ 31 ≤ truncated ∧ truncated < 2 ^ 31 then truncated else -2 ^ 31

/-- Loop variables of `calculate_ewma`. -/
structure EwmaState where
  ewma_old : ℚ
  weight : ℚ
  ewma_value : ℚ
deriving DecidableEq, Repr

/-- Body of the `for` loop of `calculate_ewma` (lines 17-22) at index `i`. -/
def calculate_ewma_step (values : List ℚ) (alpha : ℚ) (s : EwmaState) (i : Nat) : EwmaState :=
  let power := (1 - alpha) ^ i
  let weight := s.weight + power
  let ewma_old := s.ewma_old * (1 - alpha) + values.getD i 0
  { ewma_old := ewma_old, weight := weight, ewma_value := ewma_old / weight }

/-- The function `calculate_ewma(values, size, alpha)`; `values` is the memory from
the slice pointer on, of which indices `0 .. size-1` are read. -/
def calculate_ewma (values : List ℚ) (size : Nat) (alpha : ℚ) : ℚ :=
  if size = 0 then 0
  else
    let ewma_old := values.getD 0 0
    let weight : ℚ := 1
    let init : EwmaState :=
      { ewma_old := ewma_old, weight := weight, ewma_value := ewma_old / weight }
    ((List.range' 1 (size - 1)).foldl (calculate_ewma_step values alpha) init).ewma_value

/-- The function `get_expected_imbalance(values, size, window)`. -/
def get_expected_imbalance (values : List ℚ) (size : Nat) (window : Int) : ℚ :=
  let actual_window := if size < size_t_of_int window then size else size_t_of_int window
  let start := if size ≥ size_t_of_int window then size - actual_window else 0
  let size := size - start
  let slice := values.drop start
  let alpha : ℚ := 2 / ((actual_window : ℚ) + 1)
  calculate_ewma slice size alpha

/-- The ticks-per-bar recalibration of `compute_imbalance_bars` (lines 150-158):
the new history, its new index and the clamped `expected_num_ticks`. -/
def imbalance_recalibrate (num_prev_bars : Int) (cmin cmax : ℚ)
    (num_ticks_per_bar : List ℚ) (num_ticks_per_bar_index : Nat) (cum_ticks : Int) :
    List ℚ × Nat × ℚ :=
  let num_prev_bars_alpha : ℚ := 2 / ((num_prev_bars : ℚ) + 1)
  let num_ticks_per_bar := num_ticks_per_bar ++ [(cum_ticks : ℚ)]
  let num_ticks_per_bar_index := num_ticks_per_bar_index + 1
  let start :=
    if num_ticks_per_bar_index > size_t_of_int num_prev_bars
    then num_ticks_per_bar_index - size_t_of_int num_prev_bars else 0
  let size := num_ticks_per_bar_index - start
  let slice := num_ticks_per_bar.drop start
  let ewma_value := calculate_ewma slice size num_prev_bars_alpha
  (num_ticks_per_bar, num_ticks_per_bar_index, min cmax (max ewma_value cmin))

/-- Loop state of `compute_imbalance_bars`.  `recent_imbalances` is written at
`global_index` and `num_ticks_per_bar` at `num_ticks_per_bar_index`, both
consecutively, so each is the list of the entries written so far. -/
structure ImbalanceState where
  expected_num_ticks : ℚ
  cum_ticks : Int
  bar_number : Int
  global_index : Nat
  cum_theta : ℚ
  expected_imbalance : ℚ
  expected_imbalance_initialized : Bool
  recent_imbalances : List ℚ
  num_ticks_per_bar : List ℚ
  num_ticks_per_bar_index : Nat
  out_data : List Int
deriving DecidableEq, Repr

/-- Body of the inner loop of `compute_imbalance_bars` (lines 129-169), with the
`++global_index` of the loop header.  `cmin`, `cmax` are the constraints pair and
`ema_bars` the adaptive-mode flag. -/
def imbalance_tick (num_prev_bars : Int) (expected_imbalance_window : ℚ) (cmin cmax : ℚ)
    (ema_bars : Bool) (s : ImbalanceState) (imbalance : ℚ) : ImbalanceState :=
  let cum_theta := s.cum_theta + imbalance
  let out_data := s.out_data ++ [s.bar_number]
  let recent_imbalances := s.recent_imbalances ++ [imbalance]
  let cum_ticks := s.cum_ticks + 1
  let warm : Bool :=
    !s.expected_imbalance_initialized && decide ((cum_ticks : ℚ) ≥ s.expected_num_ticks)
  let expected_imbalance :=
    if warm then
      get_expected_imbalance recent_imbalances (s.global_index + 1)
        (int_of_double expected_imbalance_window)
    else s.expected_imbalance
  let expected_imbalance_initialized := s.expected_imbalance_initialized || warm
  if !expected_imbalance_initialized then
    { s with
      cum_theta := cum_theta, out_data := out_data, recent_imbalances := recent_imbalances,
      cum_ticks := cum_ticks, global_index := s.global_index + 1 }
  else if |cum_theta| > s.expected_num_ticks * |expected_imbalance| then
    let r :=
      if ema_bars then
        imbalance_recalibrate num_prev_bars cmin cmax s.num_ticks_per_bar
          s.num_ticks_per_bar_index cum_ticks
      else (s.num_ticks_per_bar, s.num_ticks_per_bar_index, s.expected_num_ticks)
    { expected_num_ticks := r.2.2,
      cum_ticks := 0,
      bar_number := s.bar_number + 1,
      global_index := s.global_index + 1,
      cum_theta := 0,
      expected_imbalance :=
        get_expected_imbalance recent_imbalances (s.global_index + 1)
          (int_of_double expected_imbalance_window),
      expected_imbalance_initialized := expected_imbalance_initialized,
      recent_imbalances := recent_imbalances,
      num_ticks_per_bar := r.1,
      num_ticks_per_bar_index := r.2.1,
      out_data := out_data }
  else
    { s with
      cum_theta := cum_theta, out_data := out_data, recent_imbalances := recent_imbalances,
      cum_ticks := cum_ticks, global_index := s.global_index + 1,
      expected_imbalance := expected_imbalance,
      expected_imbalance_initialized := expected_imbalance_initialized }

/-- Inner loop of `compute_imbalance_bars`: one chunk. -/
def imbalance_bin (num_prev_bars : Int) (expected_imbalance_window : ℚ) (cmin cmax : ℚ)
    (ema_bars : Bool) (s : ImbalanceState) (data : List ℚ) : ImbalanceState :=
  data.foldl (imbalance_tick num_prev_bars expected_imbalance_window cmin cmax ema_bars) s

/-- Outer loop of `compute_imbalance_bars`: all chunks, in order. -/
def imbalance_loop (num_prev_bars : Int) (expected_imbalance_window : ℚ) (cmin cmax : ℚ)
    (ema_bars : Bool) (s : ImbalanceState) (iovec : IOVec ℚ) : ImbalanceState :=
  iovec.foldl (imbalance_bin num_prev_bars expected_imbalance_window cmin cmax ema_bars) s

/-- Initial values of `compute_imbalance_bars` (lines 92-107). -/
def imbalance_init (expected_num_ticks : ℚ) : ImbalanceState :=
  { expected_num_ticks := expected_num_ticks,
    cum_ticks := 0, bar_number := 0, global_index := 0, cum_theta := 0,
    expected_imbalance := 0, expected_imbalance_initialized := false,
    recent_imbalances := [], num_ticks_per_bar := [], num_ticks_per_bar_index := 0,
    out_data := [] }

/-- Final loop state of `compute_imbalance_bars`. -/
def imbalance_final (iovec : IOVec ℚ) (num_prev_bars : Int) (expected_imbalance_window : ℚ)
    (expected_num_ticks : ℚ) (constraints : ℚ × ℚ) (ema_bars : Bool) : ImbalanceState :=
  imbalance_loop num_prev_bars expected_imbalance_window constraints.1 constraints.2 ema_bars
    (imbalance_init expected_num_ticks) iovec

/-- The NIF `compute_imbalance_bars`: the bar label of every tick. -/
def compute_imbalance_bars (iovec : IOVec ℚ) (num_prev_bars : Int)
    (expected_imbalance_window : ℚ) (expected_num_ticks : ℚ) (constraints : ℚ × ℚ)
    (ema_bars : Bool) : List Int :=
  (imbalance_final iovec num_prev_bars expected_imbalance_window expected_num_ticks
    constraints ema_bars).out_data

/-- Loop state of `compute_run_bars`.  Every array is written consecutively at its
own index, so each is the list of the entries written so far. -/
structure RunState where
  expected_num_ticks : ℚ
  cum_ticks : Int
  bar_number : Int
  global_index : Nat
  cum_theta_buy : ℚ
  cum_theta_sell : ℚ
  buy_ticks_num : Int
  imbalance_array_buy : List ℚ
  imbalance_array_buy_index : Nat
  imbalance_array_sell : List ℚ
  imbalance_array_sell_index : Nat
  num_ticks_per_bar : List ℚ
  num_ticks_per_bar_index : Nat
  buy_ticks_proportion : List ℚ
  buy_ticks_proportion_index : Nat
  expected_buy_ticks_proportion : ℚ
  expected_imbalance_buy : ℚ
  expected_imbalance_sell : ℚ
  expected_imbalance_buy_initialized : Bool
  expected_imbalance_sell_initialized : Bool
  expected_imbalance_initialized : Bool
  out_data : List Int
deriving DecidableEq, Repr

/-- Lines 277-292 of `compute_run_bars`: label the tick, count it and add it to the
buy side (`imbalance > 0`) or the sell side (`imbalance < 0`). -/
def run_accumulate (s : RunState) (imbalance : ℚ) : RunState :=
  let s := { s with out_data := s.out_data ++ [s.bar_number], cum_ticks := s.cum_ticks + 1 }
  if imbalance > 0 then
    { s with
      cum_theta_buy := s.cum_theta_buy + imbalance,
      imbalance_array_buy := s.imbalance_array_buy ++ [imbalance],
      imbalance_array_buy_index := s.imbalance_array_buy_index + 1,
      buy_ticks_num := s.buy_ticks_num + 1 }
  else if imbalance < 0 then
    { s with
      cum_theta_sell := s.cum_theta_sell + |imbalance|,
      imbalance_array_sell := s.imbalance_array_sell ++ [|imbalance|],
      imbalance_array_sell_index := s.imbalance_array_sell_index + 1 }
  else s

/-- Lines 296-299 of `compute_run_bars`: the buy side becomes warm. -/
def run_warmup_buy (expected_imbalance_window : ℚ) (s : RunState) : RunState :=
  if (s.imbalance_array_buy_index : ℚ) ≥ s.expected_num_ticks then
    { s with
      expected_imbalance_buy :=
        get_expected_imbalance s.imbalance_array_buy s.imbalance_array_buy_index
          (int_of_double expected_imbalance_window),
      expected_imbalance_buy_initialized := true }
  else s

/-- Lines 301-304 of `compute_run_bars`: the sell side becomes warm. -/
def run_warmup_sell (expected_imbalance_window : ℚ) (s : RunState) : RunState :=
  if (s.imbalance_array_sell_index : ℚ) ≥ s.expected_num_ticks then
    { s with
      expected_imbalance_sell :=
        get_expected_imbalance s.imbalance_array_sell s.imbalance_array_sell_index
          (int_of_double expected_imbalance_window),
      expected_imbalance_sell_initialized := true }
  else s

/-- Lines 307-310 of `compute_run_bars`: both sides are warm, the sampler is warm. -/
def run_warmup_both (s : RunState) : RunState :=
  if s.expected_imbalance_buy_initialized = true ∧
      s.expected_imbalance_sell_initialized = true then
    { s with
      expected_buy_ticks_proportion := (s.buy_ticks_num : ℚ) / (s.cum_ticks : ℚ),
      expected_imbalance_initialized := true }
  else s

/-- Lines 295-311 of `compute_run_bars`: the warm-up block. -/
def run_warmup (expected_imbalance_window : ℚ) (s : RunState) : RunState :=
  if s.bar_number = 0 ∧ s.expected_imbalance_initialized = false then
    run_warmup_both
      (run_warmup_sell expected_imbalance_window
        (run_warmup_buy expected_imbalance_window s))
  else s

/-- The ticks-per-bar recalibration of `compute_run_bars` (lines 324-332). -/
def run_recalibrate (num_prev_bars : Int) (cmin cmax : ℚ)
    (num_ticks_per_bar : List ℚ) (num_ticks_per_bar_index : Nat) (cum_ticks : Int) :
    List ℚ × Nat × ℚ :=
  let num_prev_bars_alpha : ℚ := 2 / ((num_prev_bars : ℚ) + 1)
  let num_ticks_per_bar := num_ticks_per_bar ++ [(cum_ticks : ℚ)]
  let num_ticks_per_bar_index := num_ticks_per_bar_index + 1
  let start :=
    if num_ticks_per_bar_index ≥ size_t_of_int num_prev_bars
    then num_ticks_per_bar_index - size_t_of_int num_prev_bars else 0
  let size := num_ticks_per_bar_index - start
  let slice := num_ticks_per_bar.drop start
  let ewma_value := calculate_ewma slice size num_prev_bars_alpha
  (num_ticks_per_bar, num_ticks_per_bar_index, min cmax (max ewma_value cmin))

/-- Lines 313-353 of `compute_run_bars`: skip while warming up, otherwise test the
closing condition and, on a close, recalibrate and reset. -/
def run_close (num_prev_bars : Int) (expected_imbalance_window : ℚ) (cmin cmax : ℚ)
    (ema_bars : Bool) (s : RunState) : RunState :=
  if s.expected_imbalance_initialized = false then s
  else
    let max_proportion :=
      max (s.expected_imbalance_buy * s.expected_buy_ticks_proportion)
        (s.expected_imbalance_sell * (1 - s.expected_buy_ticks_proportion))
    let max_theta := max s.cum_theta_buy s.cum_theta_sell
    if max_theta > s.expected_num_ticks * max_proportion then
      let num_prev_bars_alpha : ℚ := 2 / ((num_prev_bars : ℚ) + 1)
      let r :=
        if ema_bars then
          run_recalibrate num_prev_bars cmin cmax s.num_ticks_per_bar
            s.num_ticks_per_bar_index s.cum_ticks
        else (s.num_ticks_per_bar, s.num_ticks_per_bar_index, s.expected_num_ticks)
      let buy_ticks_proportion :=
        s.buy_ticks_proportion ++ [(s.buy_ticks_num : ℚ) / (s.cum_ticks : ℚ)]
      let buy_ticks_proportion_index := s.buy_ticks_proportion_index + 1
      let start :=
        if buy_ticks_proportion_index ≥ size_t_of_int num_prev_bars
        then buy_ticks_proportion_index - size_t_of_int num_prev_bars else 0
      let size := buy_ticks_proportion_index - start
      let slice := buy_ticks_proportion.drop start
      { s with
        num_ticks_per_bar := r.1,
        num_ticks_per_bar_index := r.2.1,
        expected_num_ticks := r.2.2,
        expected_imbalance_buy :=
          get_expected_imbalance s.imbalance_array_buy s.imbalance_array_buy_index
            (int_of_double expected_imbalance_window),
        expected_imbalance_sell :=
          get_expected_imbalance s.imbalance_array_sell s.imbalance_array_sell_index
            (int_of_double expected_imbalance_window),
        buy_ticks_proportion := buy_ticks_proportion,
        buy_ticks_proportion_index := buy_ticks_proportion_index,
        expected_buy_ticks_proportion := calculate_ewma slice size num_prev_bars_alpha,
        cum_theta_buy := 0,
        cum_theta_sell := 0,
        buy_ticks_num := 0,
        cum_ticks := 0,
        bar_number := s.bar_number + 1 }
    else s

/-- Body of the inner loop of `compute_run_bars` (lines 277-353), with the
`++global_index` of the loop header. -/
def run_tick (num_prev_bars : Int) (expected_imbalance_window : ℚ) (cmin cmax : ℚ)
    (ema_bars : Bool) (s : RunState) (imbalance : ℚ) : RunState :=
  let s := run_accumulate s imbalance
  let s := run_warmup expected_imbalance_window s
  let s := run_close num_prev_bars expected_imbalance_window cmin cmax ema_bars s
  { s with global_index := s.global_index + 1 }

/-- Inner loop of `compute_run_bars`: one chunk. -/
def run_bin (num_prev_bars : Int) (expected_imbalance_window : ℚ) (cmin cmax : ℚ)
    (ema_bars : Bool) (s : RunState) (data : List ℚ) : RunState :=
  data.foldl (run_tick num_prev_bars expected_imbalance_window cmin cmax ema_bars) s

/-- Outer loop of `compute_run_bars`: all chunks, in order. -/
def run_loop (num_prev_bars : Int) (expected_imbalance_window : ℚ) (cmin cmax : ℚ)
    (ema_bars : Bool) (s : RunState) (iovec : IOVec ℚ) : RunState :=
  iovec.foldl (run_bin num_prev_bars expected_imbalance_window cmin cmax ema_bars) s

/-- Initial values of `compute_run_bars` (lines 222-264). -/
def run_init (expected_num_ticks : ℚ) : RunState :=
  { expected_num_ticks := expected_num_ticks,
    cum_ticks := 0, bar_number := 0, global_index := 0,
    cum_theta_buy := 0, cum_theta_sell := 0, buy_ticks_num := 0,
    imbalance_array_buy := [], imbalance_array_buy_index := 0,
    imbalance_array_sell := [], imbalance_array_sell_index := 0,
    num_ticks_per_bar := [], num_ticks_per_bar_index := 0,
    buy_ticks_proportion := [], buy_ticks_proportion_index := 0,
    expected_buy_ticks_proportion := 0,
    expected_imbalance_buy := 0, expected_imbalance_sell := 0,
    expected_imbalance_buy_initialized := false,
    expected_imbalance_sell_initialized := false,
    expected_imbalance_initialized := false,
    out_data := [] }

/-- Final loop state of `compute_run_bars`. -/
def run_final (iovec : IOVec ℚ) (num_prev_bars : Int) (expected_imbalance_window : ℚ)
    (expected_num_ticks : ℚ) (constraints : ℚ × ℚ) (ema_bars : Bool) : RunState :=
  run_loop num_prev_bars expected_imbalance_window constraints.1 constraints.2 ema_bars
    (run_init expected_num_ticks) iovec

/-- The NIF `compute_run_bars`: the bar label of every tick. -/
def compute_run_bars (iovec : IOVec ℚ) (num_prev_bars : Int)
    (expected_imbalance_window : ℚ) (expected_num_ticks : ℚ) (constraints : ℚ × ℚ)
    (ema_bars : Bool) : List Int :=
  (run_final iovec num_prev_bars expected_imbalance_window expected_num_ticks
    constraints ema_bars).out_data

/-! ## searchsorted.c -/

/-- Two's-complement wrap-around of an `int64_t` result. -/
def int64_wrap (x : Int) : Int := (x + 2 ^ 63) % 2 ^ 64 - 2 ^ 63

/-- The per-sequence cursor of `searchsorted`: the variables `*_bin_idx`,
`*_bin_offset`, `*_bin_size` and the chunk `*_data` points to (`[]` for `NULL`). -/
structure BinCursor where
  bin_idx : Nat
  bin_offset : Nat
  bin_size : Nat
  data : List Int
deriving DecidableEq, Repr

/-- Cursor initialisation of `searchsorted` (lines 50-77). -/
def cursor_init (iovec : IOVec Int) : BinCursor :=
  if iovec.length > 0 then
    { bin_idx := 0, bin_offset := 0, bin_size := (iovec.getD 0 []).length,
      data := iovec.getD 0 [] }
  else
    { bin_idx := 0, bin_offset := 0, bin_size := 0, data := [] }

/-- The "move to next binary" block of `searchsorted` (lines 83-94 and 104-115).
The flag is `true` when the block executes `break`. -/
def cursor_next_bin (iovec : IOVec Int) (c : BinCursor) : BinCursor × Bool :=
  if c.bin_offset ≥ c.bin_size then
    let bin_idx := c.bin_idx + 1
    if bin_idx < iovec.length then
      ({ bin_idx := bin_idx, bin_offset := 0, bin_size := (iovec.getD bin_idx []).length,
         data := iovec.getD bin_idx [] }, false)
    else
      ({ c with bin_idx := bin_idx, bin_offset := 0 }, true)
  else (c, false)

/-- The `while (j < total_num_values_B)` loop of `searchsorted` (lines 101-129).
The first argument bounds the number of iterations; the loop increments `j` on
every iteration it does not leave, so `total_num_values_B - j` iterations are
enough.  `none` is a read outside the current chunk. -/
def haystack_scan (iovec : IOVec Int) (total_num_values_B : Nat) (target : Int) :
    Nat → Nat → BinCursor → Option (Nat × BinCursor)
  | 0, j, c => some (j, c)
  | fuel + 1, j, c =>
    if j < total_num_values_B then
      let r := cursor_next_bin iovec c
      if r.2 then some (j, r.1)
      else
        match r.1.data.get? r.1.bin_offset with
        | none => none
        | some data_j =>
          if data_j ≥ target then some (j, r.1)
          else
            haystack_scan iovec total_num_values_B target fuel (j + 1)
              { r.1 with bin_offset := r.1.bin_offset + 1 }
    else some (j, c)

/-- The `for (i = 0; i < total_num_values_A; ++i)` loop of `searchsorted`
(lines 80-138); the first argument is the number of iterations left.  The result
is the list of the entries `out_data[0 .. i-1]` written; `none` is a read outside
the current chunk. -/
def needle_loop (iovec_A iovec_B : IOVec Int) (offset : Int) (total_num_values_B : Nat) :
    Nat → BinCursor → Nat → BinCursor → List Int → Option (List Int)
  | 0, _, _, _, out_data => some out_data
  | n + 1, ci, j, cj, out_data =>
    let r := cursor_next_bin iovec_A ci
    if r.2 then some out_data
    else
      match r.1.data.get? r.1.bin_offset with
      | none => none
      | some data_i =>
        let target := int64_wrap (data_i + offset)
        match haystack_scan iovec_B total_num_values_B target (total_num_values_B - j) j cj with
        | none => none
        | some (j, cj) =>
          needle_loop iovec_A iovec_B offset total_num_values_B n
            { r.1 with bin_offset := r.1.bin_offset + 1 } j cj (out_data ++ [(j : Int)])

/-- The NIF `searchsorted(needles, offset, haystack)`; `iovec_B = none` is the call
without a haystack (`two_lists = 0`). -/
def searchsorted (iovec_A : IOVec Int) (offset : Int) (iovec_B : Option (IOVec Int)) :
    Option (List Int) :=
  let haystack := match iovec_B with
    | some b => b
    | none => iovec_A
  let total_num_values_A := total_num_values iovec_A
  let total_num_values_B := match iovec_B with
    | some b => total_num_values b
    | none => total_num_values_A
  needle_loop iovec_A haystack offset total_num_values_B total_num_values_A
    (cursor_init iovec_A) 0 (cursor_init haystack) []

/-! ## Specification-side notions -/

/-- The left insertion point: `r` is the smallest index `k` with `t ≤ haystack[k]`,
or the length of `haystack` when there is no such index. -/
def IsLeftInsertionPoint (haystack : List Int) (t : Int) (r : Int) : Prop :=
  0 ≤ r ∧ r ≤ haystack.length ∧
  (∀ k : Nat, (k : Int) < r → ∀ x, haystack.get? k = some x → x < t) ∧
  (∀ x, haystack.get? r.toNat = some x → t ≤ x)

/-- A chunking the cursor of `searchsorted` walks without leaving a chunk: no chunk
after the first one is empty. -/
def NoEmptyLaterChunk (iovec : IOVec Int) : Prop := ∀ ch ∈ iovec.drop 1, ch ≠ []

/-- The left insertion point as a function: the index of the first element of
`haystack` that is at least `t`, the length of `haystack` if there is none. -/
def left_insertion_point (haystack : List Int) (t : Int) : Nat :=
  haystack.findIdx (fun x => decide (t ≤ x))

/-- The cursor `c` over `iovec` stands in front of the elements `rest`: what is left
of its chunk followed by the later chunks, none of which is empty. -/
def CursorAt (iovec : IOVec Int) (c : BinCursor) (rest : List Int) : Prop :=
  c.bin_size = c.data.length ∧
  c.data.drop c.bin_offset ++ (iovec.drop (c.bin_idx + 1)).flatten = rest ∧
  (∀ ch ∈ iovec.drop (c.bin_idx + 1), ch ≠ [])

/-- Labels written so far start at `first`, move in steps of 0 or 1, and the open
bar `bar` is the last label or its successor. -/
def LabelsOK (first : Int) (out : List Int) (bar : Int) : Prop :=
  List.Chain' (fun a b => b = a ∨ b = a + 1) out ∧
  (∀ x, out.head? = some x → x = first) ∧
  (∀ x, out.getLast? = some x → bar = x ∨ bar = x + 1) ∧
  (out = [] → bar = first)

/-- Total value of the ticks that carry the label `l`. -/
def bar_total (values : List ℚ) (labels : List Int) (l : Int) : ℚ :=
  (((values.zip labels).filter (fun p => p.2 = l)).map Prod.fst).sum

/-- Total value of the ticks up to and including tick `i` that carry tick `i`'s
label. -/
def bar_sum_upto (values : List ℚ) (labels : List Int) (i : Nat) : ℚ :=
  bar_total (values.take (i + 1)) (labels.take (i + 1)) (labels.getD i 0)

/-- The firing condition of `symmetric_cumulative_sum_with_reset` (lines 69-75) for
the tick `val` met in state `s`: one of the two branches that write a position is
taken. -/
def symmetric_fires (threshold : ℚ) (s : SymCumSumState) (val : ℚ) : Bool :=
  decide (min 0 (s.cumulative_sum_negative + val) < -threshold ∨
    max 0 (s.cumulative_sum_positive + val) > threshold)

/-- The positions at which the detector fires on the stream `values`: tick `k` is
met in the state reached after the first `k` ticks. -/
def symmetric_event_positions (threshold : ℚ) (values : List ℚ) : List Nat :=
  (List.range values.length).filter (fun k =>
    symmetric_fires threshold
      (symmetric_cumulative_sum_bin threshold symmetric_cumulative_sum_init (values.take k))
      (values.getD k 0))

/-- The run bar sampler is still warming up: no bar closed, the warm-up flag unset,
each side marked warm only if its history has reached `expected_num_ticks`, and
every label written so far is 0. -/
def RunWarming (s : RunState) : Prop :=
  s.bar_number = 0 ∧ s.expected_imbalance_initialized = false ∧
  (s.expected_imbalance_buy_initialized = true →
    s.expected_num_ticks ≤ (s.imbalance_array_buy_index : ℚ)) ∧
  (s.expected_imbalance_sell_initialized = true →
    s.expected_num_ticks ≤ (s.imbalance_array_sell_index : ℚ)) ∧
  (∀ x ∈ s.out_data, x = 0)

/-- The weighted sum `sum over i < n of v[i] * (1 - alpha)^(n - 1 - i)` of the first
`n` entries of `v`: the newest entry has weight 1. -/
def ewma_weighted_sum (v : List ℚ) (n : Nat) (alpha : ℚ) : ℚ :=
  Finset.sum (Finset.range n) (fun i => v.getD i 0 * (1 - alpha) ^ (n - 1 - i))

/-- The weight sum `sum over i < n of (1 - alpha)^i`. -/
def ewma_weight_sum (n : Nat) (alpha : ℚ) : ℚ :=
  Finset.sum (Finset.range n) (fun i => (1 - alpha) ^ i)

/-- The two-pointer sweep of `searchsorted` on the concatenated sequences: with `j`
haystack elements already passed and `rest` the haystack elements still ahead, every
needle moves the haystack position past the leading elements below its target
`int64_wrap (needle + offset)` and records the position reached. -/
def two_pointer_sweep (offset : Int) : List Int → Nat → List Int → List Int
  | [], _, _ => []
  | y :: needles, j, rest =>
    (((j + (rest.takeWhile (fun x => decide (x < int64_wrap (y + offset)))).length : Nat)) : Int)
      :: two_pointer_sweep offset needles
          (j + (rest.takeWhile (fun x => decide (x < int64_wrap (y + offset)))).length)
          (rest.dropWhile (fun x => decide (x < int64_wrap (y + offset))))

/-! ## The NIF entry points on byte-sized chunks

The entry points once their arguments have been decoded; the only `badarg` exits of
the sources are a wrong argument count, an argument that does not decode and a
failed allocation, none of which depends on the bytes of the input. -/

/-- One `SysIOVec` region of an inspected iovec: the whole 8-byte elements it holds
and the number of bytes left over after the last whole element. -/
structure SysIOVec (α : Type) where
  values : List α
  leftover : Fin 8
deriving DecidableEq, Repr

/-- The byte length `iov_len` of a region. -/
def SysIOVec.iov_len {α : Type} (c : SysIOVec α) : Nat :=
  8 * c.values.length + c.leftover.val

/-- The total byte length `iovec->size`. -/
def iovec_size {α : Type} (iovec : List (SysIOVec α)) : Nat :=
  (iovec.map SysIOVec.iov_len).sum

/-- The elements `data[0 .. iov_len / 8 - 1]` that the loops read from a region
(`num_values_in_bin = len / sizeof(double)`). -/
def SysIOVec.data {α : Type} (c : SysIOVec α) : List α :=
  c.values.take (c.iov_len / 8)

/-- The term a NIF returns: the `badarg` exception, a binary of 64-bit entries (an
entry the call never wrote is `none`), or no defined result after a read outside a
chunk. -/
inductive NifResult where
  | badarg : NifResult
  | binary : List (Option Int) → NifResult
  | undefined : NifResult
deriving DecidableEq, Repr

/-- A binary of `total_num_values` entries of which the first ones were written. -/
def output_binary (total_num_values : Nat) (written : List Int) : NifResult :=
  NifResult.binary
    (written.map some ++ List.replicate (total_num_values - written.length) none)

/-- The entry point `cumulative_sum_with_reset` (lines 34-79): the output binary has
`iovec->size / sizeof(double)` entries; the loops write one per element read. -/
def cumulative_sum_with_reset_nif (iovec : List (SysIOVec ℚ)) (threshold : ℚ) : NifResult :=
  output_binary (iovec_size iovec / 8)
    (cumulative_sum_with_reset (iovec.map SysIOVec.data) threshold)

/-- The entry point `symmetric_cumulative_sum_with_reset` (lines 34-95): the binary is
reallocated to the `out_index` entries written. -/
def symmetric_cumulative_sum_with_reset_nif (iovec : List (SysIOVec ℚ)) (threshold : ℚ) :
    NifResult :=
  NifResult.binary
    ((symmetric_cumulative_sum_with_reset (iovec.map SysIOVec.data) threshold).map some)

/-- The entry point `compute_imbalance_bars` (lines 83-178). -/
def compute_imbalance_bars_nif (iovec : List (SysIOVec ℚ)) (num_prev_bars : Int)
    (expected_imbalance_window : ℚ) (expected_num_ticks : ℚ) (constraints : ℚ × ℚ)
    (ema_bars : Bool) : NifResult :=
  output_binary (iovec_size iovec / 8)
    (compute_imbalance_bars (iovec.map SysIOVec.data) num_prev_bars
      expected_imbalance_window expected_num_ticks constraints ema_bars)

/-- The entry point `compute_run_bars` (lines 215-365). -/
def compute_run_bars_nif (iovec : List (SysIOVec ℚ)) (num_prev_bars : Int)
    (expected_imbalance_window : ℚ) (expected_num_ticks : ℚ) (constraints : ℚ × ℚ)
    (ema_bars : Bool) : NifResult :=
  output_binary (iovec_size iovec / 8)
    (compute_run_bars (iovec.map SysIOVec.data) num_prev_bars
      expected_imbalance_window expected_num_ticks constraints ema_bars)

/-- The entry point `searchsorted` (lines 41-141): the element counts are
`iovec->size / sizeof(int64_t)` and each chunk holds `iov_len / sizeof(int64_t)`
elements. -/
def searchsorted_nif (iovec_A : List (SysIOVec Int)) (offset : Int)
    (iovec_B : Option (List (SysIOVec Int))) : NifResult :=
  let chunks_A := iovec_A.map SysIOVec.data
  let haystack := match iovec_B with
    | some b => b.map SysIOVec.data
    | none => chunks_A
  let total_num_values_A := iovec_size iovec_A / 8
  let total_num_values_B := match iovec_B with
    | some b => iovec_size b / 8
    | none => total_num_values_A
  match needle_loop chunks_A haystack offset total_num_values_B total_num_values_A
      (cursor_init chunks_A) 0 (cursor_init haystack) [] with
  | none => NifResult.undefined
  | some written => output_binary total_num_values_A written

/-! ## Recalibration constants of the information-driven bars -/

/-- The start index of the ticks-per-bar slice in `compute_imbalance_bars` (line 153),
for a history of `count` entries: the test is `count > num_prev_bars`. -/
def imbalance_window_start (count : Nat) (num_prev_bars : Int) : Nat :=
  if count > size_t_of_int num_prev_bars then count - size_t_of_int num_prev_bars else 0

/-- The start index of the ticks-per-bar slice in `compute_run_bars` (line 327), for a
history of `count` entries: the test is `count >= num_prev_bars`. -/
def run_window_start (count : Nat) (num_prev_bars : Int) : Nat :=
  if count ≥ size_t_of_int num_prev_bars then count - size_t_of_int num_prev_bars else 0

/-- The denominator `num_prev_bars + 1.0` of lines 92 and 222. -/
def num_prev_bars_alpha_denominator (num_prev_bars : Int) : ℚ :=
  (num_prev_bars : ℚ) + 1

/-- The constant `num_prev_bars_alpha = 2.0 / (num_prev_bars + 1.0)` of lines 92 and
222 where the denominator is not zero. -/
def num_prev_bars_alpha (num_prev_bars : Int) : ℚ :=
  2 / num_prev_bars_alpha_denominator num_prev_bars

/-- The loop body of `symmetric_cumulative_sum_with_reset` with its two branches
tested in the opposite order (positive branch first): the comparison version for the
question whether the order of the tests matters. -/
def symmetric_cumulative_sum_tick_swapped (threshold : ℚ) (s : SymCumSumState) (val : ℚ) :
    SymCumSumState :=
  let cumulative_sum_positive := max 0 (s.cumulative_sum_positive + val)
  let cumulative_sum_negative := min 0 (s.cumulative_sum_negative + val)
  if cumulative_sum_positive > threshold then
    { cumulative_sum_positive := 0,
      cumulative_sum_negative := cumulative_sum_negative,
      global_index := s.global_index + 1,
      out_data := s.out_data ++ [(s.global_index : Int)] }
  else if cumulative_sum_negative < -threshold then
    { cumulative_sum_positive := cumulative_sum_positive,
      cumulative_sum_negative := 0,
      global_index := s.global_index + 1,
      out_data := s.out_data ++ [(s.global_index : Int)] }
  else
    { cumulative_sum_positive := cumulative_sum_positive,
      cumulative_sum_negative := cumulative_sum_negative,
      global_index := s.global_index + 1,
      out_data := s.out_data }

/-- The detector run with the swapped loop body. -/
def symmetric_cumulative_sum_with_reset_swapped (iovec : IOVec ℚ) (threshold : ℚ) :
    List Int :=
  (iovec.foldl (fun s data => data.foldl (symmetric_cumulative_sum_tick_swapped threshold) s)
    symmetric_cumulative_sum_init).out_data

/-- The two running sums are within the threshold band. -/
def SymWithinBand (threshold : ℚ) (s : SymCumSumState) : Prop :=
  0 ≤ s.cumulative_sum_positive ∧ s.cumulative_sum_positive ≤ threshold ∧
  -threshold ≤ s.cumulative_sum_negative ∧ s.cumulative_sum_negative ≤ 0

/-- The counters of the run bar sampler are consistent: the buy ticks of the open bar
are among its ticks. -/
def RunCounts (s : RunState) : Prop :=
  0 ≤ s.buy_ticks_num ∧ s.buy_ticks_num ≤ s.cum_ticks

/-- An invariant that every step preserves holds after a left fold. -/
theorem foldl_preserves {σ α : Type} (P : σ → Prop) (f : σ → α → σ)
    (hstep : ∀ s a, P s → P (f s a)) : ∀ (l : List α) (s : σ), P s → P (l.foldl f s) := by
  intro l
  induction l with
  | nil => intro s hs; simpa using hs
  | cons a l ih => intro s hs; exact ih (f s a) (hstep s a hs)

/-! ## Chunked reading is a fold over the concatenated stream -/

theorem cumulative_sum_loop_flatten (threshold : ℚ) (s : CumSumState) (iovec : IOVec ℚ) :
    cumulative_sum_loop threshold s iovec = cumulative_sum_bin threshold s iovec.flatten := by
  unfold cumulative_sum_loop cumulative_sum_bin
  rw [List.foldl_flatten]

theorem symmetric_cumulative_sum_loop_flatten (threshold : ℚ) (s : SymCumSumState)
    (iovec : IOVec ℚ) :
    symmetric_cumulative_sum_loop threshold s iovec
      = symmetric_cumulative_sum_bin threshold s iovec.flatten := by
  unfold symmetric_cumulative_sum_loop symmetric_cumulative_sum_bin
  rw [List.foldl_flatten]

theorem imbalance_loop_flatten (num_prev_bars : Int) (w cmin cmax : ℚ) (ema_bars : Bool)
    (s : ImbalanceState) (iovec : IOVec ℚ) :
    imbalance_loop num_prev_bars w cmin cmax ema_bars s iovec
      = imbalance_bin num_prev_bars w cmin cmax ema_bars s iovec.flatten := by
  unfold imbalance_loop imbalance_bin
  rw [List.foldl_flatten]

theorem run_loop_flatten (num_prev_bars : Int) (w cmin cmax : ℚ) (ema_bars : Bool)
    (s : RunState) (iovec : IOVec ℚ) :
    run_loop num_prev_bars w cmin cmax ema_bars s iovec
      = run_bin num_prev_bars w cmin cmax ema_bars s iovec.flatten := by
  unfold run_loop run_bin
  rw [List.foldl_flatten]

theorem total_num_values_eq_length {α : Type} (iovec : IOVec α) :
    total_num_values iovec = iovec.flatten.length := by
  unfold total_num_values
  rw [List.length_flatten]

/-! ## Labelling samplers: one label per tick, steps of 0 or 1 -/

theorem labelsOK_snoc (first : Int) (out : List Int) (bar bar' : Int)
    (h : LabelsOK first out bar) (hb : bar' = bar ∨ bar' = bar + 1) :
    LabelsOK first (out ++ [bar]) bar' := by
  obtain ⟨hc, hh, hl, he⟩ := h
  refine ⟨?_, ?_, ?_, ?_⟩
  · rw [List.chain'_append]
    refine ⟨hc, List.chain'_singleton _, ?_⟩
    intro x hx y hy
    simp only [List.head?_cons, Option.mem_def, Option.some.injEq] at hy
    subst hy
    exact hl x hx
  · intro x hx
    cases out with
    | nil =>
      simp only [List.nil_append, List.head?_cons, Option.some.injEq] at hx
      rw [← hx]; exact he rfl
    | cons a t =>
      simp only [List.cons_append, List.head?_cons, Option.some.injEq] at hx
      exact hh x (by simp [hx])
  · intro x hx
    simp only [List.getLast?_append, List.getLast?_singleton, Option.or,
      Option.some.injEq] at hx
    subst hx
    exact hb
  · intro hnil
    simp at hnil

/-- A fold whose step appends the open bar to the labels and keeps or increments the
open bar writes one label per element and keeps `LabelsOK`. -/
theorem labels_foldl {σ : Type} (f : σ → ℚ → σ) (out : σ → List Int) (bar : σ → Int)
    (hstep : ∀ s v, out (f s v) = out s ++ [bar s] ∧
      (bar (f s v) = bar s ∨ bar (f s v) = bar s + 1)) (first : Int) :
    ∀ (vs : List ℚ) (s : σ), LabelsOK first (out s) (bar s) →
      LabelsOK first (out (vs.foldl f s)) (bar (vs.foldl f s)) ∧
      (out (vs.foldl f s)).length = (out s).length + vs.length := by
  intro vs
  induction vs with
  | nil => intro s hs; exact ⟨by simpa using hs, by simp⟩
  | cons v vs ih =>
    intro s hs
    have h1 := hstep s v
    have h2 : LabelsOK first (out (f s v)) (bar (f s v)) := by
      rw [h1.1]; exact labelsOK_snoc first (out s) (bar s) _ hs h1.2
    obtain ⟨h3, h4⟩ := ih (f s v) h2
    refine ⟨by simpa using h3, ?_⟩
    simp only [List.foldl_cons, List.length_cons]
    rw [h4, h1.1]
    simp only [List.length_append, List.length_singleton]
    omega

/-- What `LabelsOK` says about the entries of the label list, by index. -/
theorem labelsOK_index (first : Int) (out : List Int) (bar : Int)
    (h : LabelsOK first out bar) :
    (∀ x, out.head? = some x → x = first) ∧
    (∀ i, i + 1 < out.length →
      out.getD (i + 1) 0 = out.getD i 0 ∨ out.getD (i + 1) 0 = out.getD i 0 + 1) := by
  refine ⟨h.2.1, ?_⟩
  intro i hi
  have hc := (List.chain'_iff_get.mp h.1) i (by omega)
  have e1 : out.getD (i + 1) 0 = out.get ⟨i + 1, hi⟩ := by
    simp [List.getD_eq_getElem?_getD, List.getElem?_eq_getElem hi]
  have e2 : out.getD i 0 = out.get ⟨i, by omega⟩ := by
    have hi' : i < out.length := by omega
    simp [List.getD_eq_getElem?_getD, List.getElem?_eq_getElem hi']
  rw [e1, e2]
  exact hc

theorem cumulative_sum_tick_out (threshold : ℚ) (s : CumSumState) (val : ℚ) :
    (cumulative_sum_tick threshold s val).out_data = s.out_data ++ [s.bar_number] ∧
    ((cumulative_sum_tick threshold s val).bar_number = s.bar_number ∨
      (cumulative_sum_tick threshold s val).bar_number = s.bar_number + 1) := by
  unfold cumulative_sum_tick
  dsimp only
  split_ifs <;> simp

theorem imbalance_tick_out (n : Int) (w cmin cmax : ℚ) (ema_bars : Bool)
    (s : ImbalanceState) (val : ℚ) :
    (imbalance_tick n w cmin cmax ema_bars s val).out_data = s.out_data ++ [s.bar_number] ∧
    ((imbalance_tick n w cmin cmax ema_bars s val).bar_number = s.bar_number ∨
      (imbalance_tick n w cmin cmax ema_bars s val).bar_number = s.bar_number + 1) := by
  unfold imbalance_tick
  dsimp only
  split_ifs <;> simp

theorem run_accumulate_out (s : RunState) (val : ℚ) :
    (run_accumulate s val).out_data = s.out_data ++ [s.bar_number] ∧
    (run_accumulate s val).bar_number = s.bar_number := by
  unfold run_accumulate
  dsimp only
  split_ifs <;> simp

theorem run_warmup_out (w : ℚ) (s : RunState) :
    (run_warmup w s).out_data = s.out_data ∧ (run_warmup w s).bar_number = s.bar_number := by
  unfold run_warmup run_warmup_both run_warmup_sell run_warmup_buy
  split_ifs <;> simp

theorem run_close_out (n : Int) (w cmin cmax : ℚ) (ema_bars : Bool) (s : RunState) :
    (run_close n w cmin cmax ema_bars s).out_data = s.out_data ∧
    ((run_close n w cmin cmax ema_bars s).bar_number = s.bar_number ∨
      (run_close n w cmin cmax ema_bars s).bar_number = s.bar_number + 1) := by
  unfold run_close
  dsimp only
  split_ifs <;> simp

theorem run_tick_out (n : Int) (w cmin cmax : ℚ) (ema_bars : Bool) (s : RunState) (val : ℚ) :
    (run_tick n w cmin cmax ema_bars s val).out_data = s.out_data ++ [s.bar_number] ∧
    ((run_tick n w cmin cmax ema_bars s val).bar_number = s.bar_number ∨
      (run_tick n w cmin cmax ema_bars s val).bar_number = s.bar_number + 1) := by
  have h1 := run_accumulate_out s val
  have h2 := run_warmup_out w (run_accumulate s val)
  have h3 := run_close_out n w cmin cmax ema_bars (run_warmup w (run_accumulate s val))
  unfold run_tick
  simp only
  rw [h3.1, h2.1, h1.1]
  refine ⟨rfl, ?_⟩
  rw [← h1.2, ← h2.2]
  exact h3.2

theorem labelsOK_init (first : Int) : LabelsOK first [] first :=
  ⟨List.chain'_nil, by simp, by simp, fun _ => rfl⟩

theorem cumulative_sum_labelsOK (iovec : IOVec ℚ) (threshold : ℚ) :
    LabelsOK 1 (cumulative_sum_with_reset iovec threshold)
      (cumulative_sum_loop threshold cumulative_sum_init iovec).bar_number ∧
    (cumulative_sum_with_reset iovec threshold).length = iovec.flatten.length := by
  have h := labels_foldl (cumulative_sum_tick threshold) CumSumState.out_data
    CumSumState.bar_number (cumulative_sum_tick_out threshold) 1 iovec.flatten
    cumulative_sum_init (labelsOK_init 1)
  unfold cumulative_sum_with_reset
  rw [cumulative_sum_loop_flatten]
  unfold cumulative_sum_bin
  refine ⟨h.1, ?_⟩
  rw [h.2]
  simp [cumulative_sum_init]

theorem imbalance_labelsOK (iovec : IOVec ℚ) (n : Int) (w e : ℚ) (c : ℚ × ℚ) (ema_bars : Bool) :
    LabelsOK 0 (compute_imbalance_bars iovec n w e c ema_bars)
      (imbalance_final iovec n w e c ema_bars).bar_number ∧
    (compute_imbalance_bars iovec n w e c ema_bars).length = iovec.flatten.length := by
  have h := labels_foldl (imbalance_tick n w c.1 c.2 ema_bars) ImbalanceState.out_data
    ImbalanceState.bar_number (imbalance_tick_out n w c.1 c.2 ema_bars) 0 iovec.flatten
    (imbalance_init e) (labelsOK_init 0)
  unfold compute_imbalance_bars imbalance_final
  rw [imbalance_loop_flatten]
  unfold imbalance_bin
  refine ⟨h.1, ?_⟩
  rw [h.2]
  simp [imbalance_init]

theorem run_labelsOK (iovec : IOVec ℚ) (n : Int) (w e : ℚ) (c : ℚ × ℚ) (ema_bars : Bool) :
    LabelsOK 0 (compute_run_bars iovec n w e c ema_bars)
      (run_final iovec n w e c ema_bars).bar_number ∧
    (compute_run_bars iovec n w e c ema_bars).length = iovec.flatten.length := by
  have h := labels_foldl (run_tick n w c.1 c.2 ema_bars) RunState.out_data
    RunState.bar_number (run_tick_out n w c.1 c.2 ema_bars) 0 iovec.flatten
    (run_init e) (labelsOK_init 0)
  unfold compute_run_bars run_final
  rw [run_loop_flatten]
  unfold run_bin
  refine ⟨h.1, ?_⟩
  rw [h.2]
  simp [run_init]

/-- C2: for every chunked input and every threshold, `cumulative_sum_with_reset`
returns exactly one label per input value, the first label (if any) is 1, and every
label equals its predecessor or its predecessor plus 1. -/
theorem cumulative_sum_with_reset_labels (iovec : IOVec ℚ) (threshold : ℚ) :
    (cumulative_sum_with_reset iovec threshold).length = total_num_values iovec ∧
    (∀ x, (cumulative_sum_with_reset iovec threshold).head? = some x → x = 1) ∧
    (∀ i, i + 1 < (cumulative_sum_with_reset iovec threshold).length →
      (cumulative_sum_with_reset iovec threshold).getD (i + 1) 0
          = (cumulative_sum_with_reset iovec threshold).getD i 0 ∨
      (cumulative_sum_with_reset iovec threshold).getD (i + 1) 0
          = (cumulative_sum_with_reset iovec threshold).getD i 0 + 1) := by
  have h := cumulative_sum_labelsOK iovec threshold
  have hi := labelsOK_index 1 _ _ h.1
  exact ⟨by rw [h.2, total_num_values_eq_length], hi.1, hi.2⟩

/-- C5: for every chunked input and every parameter choice, `compute_imbalance_bars`
and `compute_run_bars` each return exactly one label per input tick, the first label
(if any) is 0, and every label equals its predecessor or its predecessor plus 1. -/
theorem information_driven_bars_labels (iovec : IOVec ℚ) (num_prev_bars : Int)
    (expected_imbalance_window expected_num_ticks : ℚ) (constraints : ℚ × ℚ)
    (ema_bars : Bool) :
    ((compute_imbalance_bars iovec num_prev_bars expected_imbalance_window
        expected_num_ticks constraints ema_bars).length = total_num_values iovec ∧
      (∀ x, (compute_imbalance_bars iovec num_prev_bars expected_imbalance_window
        expected_num_ticks constraints ema_bars).head? = some x → x = 0) ∧
      (∀ i, i + 1 < (compute_imbalance_bars iovec num_prev_bars expected_imbalance_window
          expected_num_ticks constraints ema_bars).length →
        (compute_imbalance_bars iovec num_prev_bars expected_imbalance_window
            expected_num_ticks constraints ema_bars).getD (i + 1) 0
          = (compute_imbalance_bars iovec num_prev_bars expected_imbalance_window
            expected_num_ticks constraints ema_bars).getD i 0 ∨
        (compute_imbalance_bars iovec num_prev_bars expected_imbalance_window
            expected_num_ticks constraints ema_bars).getD (i + 1) 0
          = (compute_imbalance_bars iovec num_prev_bars expected_imbalance_window
            expected_num_ticks constraints ema_bars).getD i 0 + 1)) ∧
    ((compute_run_bars iovec num_prev_bars expected_imbalance_window
        expected_num_ticks constraints ema_bars).length = total_num_values iovec ∧
      (∀ x, (compute_run_bars iovec num_prev_bars expected_imbalance_window
        expected_num_ticks constraints ema_bars).head? = some x → x = 0) ∧
      (∀ i, i + 1 < (compute_run_bars iovec num_prev_bars expected_imbalance_window
          expected_num_ticks constraints ema_bars).length →
        (compute_run_bars iovec num_prev_bars expected_imbalance_window
            expected_num_ticks constraints ema_bars).getD (i + 1) 0
          = (compute_run_bars iovec num_prev_bars expected_imbalance_window
            expected_num_ticks constraints ema_bars).getD i 0 ∨
        (compute_run_bars iovec num_prev_bars expected_imbalance_window
            expected_num_ticks constraints ema_bars).getD (i + 1) 0
          = (compute_run_bars iovec num_prev_bars expected_imbalance_window
            expected_num_ticks constraints ema_bars).getD i 0 + 1)) := by
  have h1 := imbalance_labelsOK iovec num_prev_bars expected_imbalance_window
    expected_num_ticks constraints ema_bars
  have h2 := run_labelsOK iovec num_prev_bars expected_imbalance_window
    expected_num_ticks constraints ema_bars
  have i1 := labelsOK_index 0 _ _ h1.1
  have i2 := labelsOK_index 0 _ _ h2.1
  exact ⟨⟨by rw [h1.2, total_num_values_eq_length], i1.1, i1.2⟩,
    ⟨by rw [h2.2, total_num_values_eq_length], i2.1, i2.2⟩⟩

/-- C10: chunk invariance of the samplers.  For every tick stream split into any
ordered list of chunks of whole values, `cumulative_sum_with_reset`,
`symmetric_cumulative_sum_with_reset`, `compute_imbalance_bars` and
`compute_run_bars` return the same output as on the single chunk that is the
concatenation of those chunks. -/
theorem samplers_chunk_invariance (iovec : IOVec ℚ) (threshold : ℚ) (num_prev_bars : Int)
    (expected_imbalance_window expected_num_ticks : ℚ) (constraints : ℚ × ℚ)
    (ema_bars : Bool) :
    cumulative_sum_with_reset iovec threshold
      = cumulative_sum_with_reset [iovec.flatten] threshold ∧
    symmetric_cumulative_sum_with_reset iovec threshold
      = symmetric_cumulative_sum_with_reset [iovec.flatten] threshold ∧
    compute_imbalance_bars iovec num_prev_bars expected_imbalance_window expected_num_ticks
        constraints ema_bars
      = compute_imbalance_bars [iovec.flatten] num_prev_bars expected_imbalance_window
        expected_num_ticks constraints ema_bars ∧
    compute_run_bars iovec num_prev_bars expected_imbalance_window expected_num_ticks
        constraints ema_bars
      = compute_run_bars [iovec.flatten] num_prev_bars expected_imbalance_window
        expected_num_ticks constraints ema_bars := by
  refine ⟨?_, ?_, ?_, ?_⟩
  · unfold cumulative_sum_with_reset
    rw [cumulative_sum_loop_flatten, cumulative_sum_loop_flatten]
    simp
  · unfold symmetric_cumulative_sum_with_reset
    rw [symmetric_cumulative_sum_loop_flatten, symmetric_cumulative_sum_loop_flatten]
    simp
  · unfold compute_imbalance_bars imbalance_final
    rw [imbalance_loop_flatten, imbalance_loop_flatten]
    simp
  · unfold compute_run_bars run_final
    rw [run_loop_flatten, run_loop_flatten]
    simp

/-! ## Symmetric detector: the emitted positions -/

theorem symmetric_tick_out (threshold : ℚ) (s : SymCumSumState) (val : ℚ) :
    (symmetric_cumulative_sum_tick threshold s val).global_index = s.global_index + 1 ∧
    (symmetric_cumulative_sum_tick threshold s val).out_data
      = s.out_data ++
        (if symmetric_fires threshold s val = true then [(s.global_index : Int)] else []) := by
  unfold symmetric_cumulative_sum_tick symmetric_fires
  dsimp only
  split_ifs with h1 h2 h3 h3 h3
  all_goals first
    | (exfalso; simp only [decide_eq_true_eq] at *; tauto)
    | simp

theorem symmetric_bin_snoc (threshold : ℚ) (s : SymCumSumState) (vs : List ℚ) (v : ℚ) :
    symmetric_cumulative_sum_bin threshold s (vs ++ [v])
      = symmetric_cumulative_sum_tick threshold (symmetric_cumulative_sum_bin threshold s vs) v := by
  unfold symmetric_cumulative_sum_bin
  rw [List.foldl_append]
  rfl

theorem symmetric_bin_positions (threshold : ℚ) (vs : List ℚ) :
    (symmetric_cumulative_sum_bin threshold symmetric_cumulative_sum_init vs).global_index
      = vs.length ∧
    (symmetric_cumulative_sum_bin threshold symmetric_cumulative_sum_init vs).out_data
      = (symmetric_event_positions threshold vs).map (fun (k : Nat) => (k : Int)) := by
  induction vs using List.reverseRecOn with
  | nil =>
    simp [symmetric_cumulative_sum_bin, symmetric_cumulative_sum_init,
      symmetric_event_positions]
  | append_singleton vs v ih =>
    obtain ⟨ih1, ih2⟩ := ih
    have ht := symmetric_tick_out threshold
      (symmetric_cumulative_sum_bin threshold symmetric_cumulative_sum_init vs) v
    rw [symmetric_bin_snoc]
    refine ⟨by rw [ht.1, ih1]; simp, ?_⟩
    rw [ht.2, ih2, ih1]
    unfold symmetric_event_positions
    rw [List.length_append, List.length_singleton, List.range_succ, List.filter_append,
      List.map_append]
    congr 1
    · congr 1
      apply List.filter_congr
      intro k hk
      rw [List.mem_range] at hk
      rw [List.take_append_of_le_length (Nat.le_of_lt hk)]
      simp [List.getD_eq_getElem?_getD, List.getElem?_append_left hk]
    · rw [List.filter_singleton]
      have e1 : List.take vs.length (vs ++ [v]) = vs := by simp
      have e2 : (vs ++ [v]).getD vs.length 0 = v := by simp [List.getD_eq_getElem?_getD]
      rw [e1, e2]
      cases symmetric_fires threshold
        (symmetric_cumulative_sum_bin threshold symmetric_cumulative_sum_init vs) v <;> simp

theorem symmetric_with_reset_eq_positions (iovec : IOVec ℚ) (threshold : ℚ) :
    symmetric_cumulative_sum_with_reset iovec threshold
      = (symmetric_event_positions threshold iovec.flatten).map (fun (k : Nat) => (k : Int)) := by
  unfold symmetric_cumulative_sum_with_reset
  rw [symmetric_cumulative_sum_loop_flatten]
  exact (symmetric_bin_positions threshold iovec.flatten).2

theorem symmetric_event_positions_pairwise (threshold : ℚ) (vs : List ℚ) :
    List.Pairwise (fun a b => a < b) (symmetric_event_positions threshold vs) ∧
    (∀ k ∈ symmetric_event_positions threshold vs, k < vs.length) ∧
    (symmetric_event_positions threshold vs).length ≤ vs.length := by
  unfold symmetric_event_positions
  refine ⟨List.Pairwise.filter _ (List.pairwise_lt_range _), ?_, ?_⟩
  · intro k hk
    exact List.mem_range.mp (List.mem_filter.mp hk).1
  · calc (List.filter _ (List.range vs.length)).length
        ≤ (List.range vs.length).length := List.length_filter_le _ _
      _ = vs.length := List.length_range _

/-- C4: for every chunked input and every threshold, the positions returned by
`symmetric_cumulative_sum_with_reset` are strictly increasing, each is a valid tick
index, no position occurs twice, there are at most as many events as ticks, and the
returned sequence is exactly the list of the positions at which the detector fired. -/
theorem symmetric_cumulative_sum_with_reset_positions (iovec : IOVec ℚ) (threshold : ℚ) :
    List.Pairwise (fun a b => a < b) (symmetric_cumulative_sum_with_reset iovec threshold) ∧
    (∀ p ∈ symmetric_cumulative_sum_with_reset iovec threshold,
      0 ≤ p ∧ p < (total_num_values iovec : Int)) ∧
    (symmetric_cumulative_sum_with_reset iovec threshold).Nodup ∧
    (symmetric_cumulative_sum_with_reset iovec threshold).length ≤ total_num_values iovec ∧
    symmetric_cumulative_sum_with_reset iovec threshold
      = (symmetric_event_positions threshold iovec.flatten).map
          (fun (k : Nat) => (k : Int)) := by
  have he := symmetric_with_reset_eq_positions iovec threshold
  obtain ⟨hp, hm, hl⟩ := symmetric_event_positions_pairwise threshold iovec.flatten
  have hpw : List.Pairwise (fun a b => a < b)
      (symmetric_cumulative_sum_with_reset iovec threshold) := by
    rw [he]
    exact List.Pairwise.map _ (fun a b hab => by exact_mod_cast hab) hp
  refine ⟨hpw, ?_, ?_, ?_, he⟩
  · intro p hp'
    rw [he, List.mem_map] at hp'
    obtain ⟨k, hk, rfl⟩ := hp'
    have := hm k hk
    rw [total_num_values_eq_length]
    exact ⟨by positivity, by exact_mod_cast this⟩
  · exact hpw.imp (fun h => ne_of_lt h)
  · rw [he, List.length_map, total_num_values_eq_length]
    exact hl

/-! ## Imbalance and run bars: the constraints pair and `expected_num_ticks` -/

theorem imbalance_tick_nonadaptive (n : Int) (w cmin cmax cmin' cmax' : ℚ)
    (s : ImbalanceState) (val : ℚ) :
    imbalance_tick n w cmin cmax false s val = imbalance_tick n w cmin' cmax' false s val ∧
    (imbalance_tick n w cmin cmax false s val).expected_num_ticks = s.expected_num_ticks := by
  unfold imbalance_tick
  dsimp only
  refine ⟨rfl, ?_⟩
  split_ifs <;> first | contradiction | simp

theorem run_close_nonadaptive (n : Int) (w cmin cmax cmin' cmax' : ℚ) (s : RunState) :
    run_close n w cmin cmax false s = run_close n w cmin' cmax' false s ∧
    (run_close n w cmin cmax false s).expected_num_ticks = s.expected_num_ticks := by
  unfold run_close
  dsimp only
  refine ⟨rfl, ?_⟩
  split_ifs <;> first | contradiction | simp

theorem run_accumulate_expected_num_ticks (s : RunState) (val : ℚ) :
    (run_accumulate s val).expected_num_ticks = s.expected_num_ticks := by
  unfold run_accumulate
  dsimp only
  split_ifs <;> simp

theorem run_warmup_expected_num_ticks (w : ℚ) (s : RunState) :
    (run_warmup w s).expected_num_ticks = s.expected_num_ticks := by
  unfold run_warmup run_warmup_both run_warmup_sell run_warmup_buy
  split_ifs <;> simp

theorem run_tick_nonadaptive (n : Int) (w cmin cmax cmin' cmax' : ℚ)
    (s : RunState) (val : ℚ) :
    run_tick n w cmin cmax false s val = run_tick n w cmin' cmax' false s val ∧
    (run_tick n w cmin cmax false s val).expected_num_ticks = s.expected_num_ticks := by
  unfold run_tick
  dsimp only
  rw [(run_close_nonadaptive n w cmin cmax cmin' cmax' _).1]
  refine ⟨rfl, ?_⟩
  rw [(run_close_nonadaptive n w cmin' cmax' cmin' cmax' _).2,
    run_warmup_expected_num_ticks, run_accumulate_expected_num_ticks]

/-- C9: when adaptive mode is off the constraints pair is ignored.  For every chunked
input and every other parameter choice, `compute_imbalance_bars` and
`compute_run_bars` return the same labels for any two constraints pairs, and after
any number `k` of ticks `expected_num_ticks` still has its initial value. -/
theorem nonadaptive_constraints_ignored (iovec : IOVec ℚ) (num_prev_bars : Int)
    (expected_imbalance_window expected_num_ticks : ℚ) (constraints constraints' : ℚ × ℚ) :
    compute_imbalance_bars iovec num_prev_bars expected_imbalance_window expected_num_ticks
        constraints false
      = compute_imbalance_bars iovec num_prev_bars expected_imbalance_window
        expected_num_ticks constraints' false ∧
    compute_run_bars iovec num_prev_bars expected_imbalance_window expected_num_ticks
        constraints false
      = compute_run_bars iovec num_prev_bars expected_imbalance_window
        expected_num_ticks constraints' false ∧
    (∀ k : Nat,
      (imbalance_final [iovec.flatten.take k] num_prev_bars expected_imbalance_window
        expected_num_ticks constraints false).expected_num_ticks = expected_num_ticks) ∧
    (∀ k : Nat,
      (run_final [iovec.flatten.take k] num_prev_bars expected_imbalance_window
        expected_num_ticks constraints false).expected_num_ticks = expected_num_ticks) := by
  have e1 : imbalance_tick num_prev_bars expected_imbalance_window constraints.1 constraints.2
      false = imbalance_tick num_prev_bars expected_imbalance_window constraints'.1
      constraints'.2 false := by
    funext s v
    exact (imbalance_tick_nonadaptive _ _ _ _ _ _ s v).1
  have e2 : run_tick num_prev_bars expected_imbalance_window constraints.1 constraints.2
      false = run_tick num_prev_bars expected_imbalance_window constraints'.1
      constraints'.2 false := by
    funext s v
    exact (run_tick_nonadaptive _ _ _ _ _ _ s v).1
  refine ⟨?_, ?_, ?_, ?_⟩
  · unfold compute_imbalance_bars imbalance_final imbalance_loop imbalance_bin
    rw [e1]
  · unfold compute_run_bars run_final run_loop run_bin
    rw [e2]
  · intro k
    unfold imbalance_final
    rw [imbalance_loop_flatten]
    unfold imbalance_bin
    exact foldl_preserves (fun (s : ImbalanceState) => s.expected_num_ticks = expected_num_ticks)
      (imbalance_tick num_prev_bars expected_imbalance_window constraints.1 constraints.2 false)
      (fun s v hs => by
        show (imbalance_tick _ _ _ _ false s v).expected_num_ticks = expected_num_ticks
        rw [(imbalance_tick_nonadaptive _ _ _ _ constraints.1 constraints.2 s v).2]
        exact hs) _ _ rfl
  · intro k
    unfold run_final
    rw [run_loop_flatten]
    unfold run_bin
    exact foldl_preserves (fun (s : RunState) => s.expected_num_ticks = expected_num_ticks)
      (run_tick num_prev_bars expected_imbalance_window constraints.1 constraints.2 false)
      (fun s v hs => by
        show (run_tick _ _ _ _ false s v).expected_num_ticks = expected_num_ticks
        rw [(run_tick_nonadaptive _ _ _ _ constraints.1 constraints.2 s v).2]
        exact hs) _ _ rfl

theorem clamp_bounds (cmin cmax x : ℚ) (h : cmin ≤ cmax) :
    cmin ≤ min cmax (max x cmin) ∧ min cmax (max x cmin) ≤ cmax :=
  ⟨le_min h (le_max_right x cmin), min_le_left cmax (max x cmin)⟩

theorem imbalance_tick_adaptive (n : Int) (w cmin cmax : ℚ) (h : cmin ≤ cmax)
    (s : ImbalanceState) (val : ℚ) :
    ((imbalance_tick n w cmin cmax true s val).bar_number = s.bar_number ∧
      (imbalance_tick n w cmin cmax true s val).expected_num_ticks = s.expected_num_ticks) ∨
    ((imbalance_tick n w cmin cmax true s val).bar_number = s.bar_number + 1 ∧
      cmin ≤ (imbalance_tick n w cmin cmax true s val).expected_num_ticks ∧
      (imbalance_tick n w cmin cmax true s val).expected_num_ticks ≤ cmax) := by
  unfold imbalance_tick
  dsimp only
  split_ifs
  all_goals first
    | contradiction
    | (left; exact ⟨rfl, rfl⟩)
    | (right; exact ⟨rfl, clamp_bounds cmin cmax _ h⟩)

theorem run_close_adaptive (n : Int) (w cmin cmax : ℚ) (h : cmin ≤ cmax) (s : RunState) :
    ((run_close n w cmin cmax true s).bar_number = s.bar_number ∧
      (run_close n w cmin cmax true s).expected_num_ticks = s.expected_num_ticks) ∨
    ((run_close n w cmin cmax true s).bar_number = s.bar_number + 1 ∧
      cmin ≤ (run_close n w cmin cmax true s).expected_num_ticks ∧
      (run_close n w cmin cmax true s).expected_num_ticks ≤ cmax) := by
  unfold run_close
  dsimp only
  split_ifs
  all_goals first
    | contradiction
    | (left; exact ⟨rfl, rfl⟩)
    | (right; exact ⟨rfl, clamp_bounds cmin cmax _ h⟩)

theorem run_tick_adaptive (n : Int) (w cmin cmax : ℚ) (h : cmin ≤ cmax)
    (s : RunState) (val : ℚ) :
    ((run_tick n w cmin cmax true s val).bar_number = s.bar_number ∧
      (run_tick n w cmin cmax true s val).expected_num_ticks = s.expected_num_ticks) ∨
    ((run_tick n w cmin cmax true s val).bar_number = s.bar_number + 1 ∧
      cmin ≤ (run_tick n w cmin cmax true s val).expected_num_ticks ∧
      (run_tick n w cmin cmax true s val).expected_num_ticks ≤ cmax) := by
  have h1 := run_accumulate_out s val
  have h2 := run_warmup_out w (run_accumulate s val)
  have e1 := run_accumulate_expected_num_ticks s val
  have e2 := run_warmup_expected_num_ticks w (run_accumulate s val)
  have h3 := run_close_adaptive n w cmin cmax h (run_warmup w (run_accumulate s val))
  rw [h2.2, h1.2, e2, e1] at h3
  exact h3

/-- The invariant behind C8: the bar counter is non-negative and, once a bar has been
closed, `expected_num_ticks` lies within the constraints. -/
theorem clamped_foldl {σ : Type} (f : σ → ℚ → σ) (bar : σ → Int) (ent : σ → ℚ)
    (cmin cmax : ℚ)
    (hstep : ∀ s v, (bar (f s v) = bar s ∧ ent (f s v) = ent s) ∨
      (bar (f s v) = bar s + 1 ∧ cmin ≤ ent (f s v) ∧ ent (f s v) ≤ cmax))
    (vs : List ℚ) (s : σ) (h0 : bar s = 0) :
    0 ≤ bar (vs.foldl f s) ∧
    (0 < bar (vs.foldl f s) → cmin ≤ ent (vs.foldl f s) ∧ ent (vs.foldl f s) ≤ cmax) := by
  refine foldl_preserves
    (fun t => 0 ≤ bar t ∧ (0 < bar t → cmin ≤ ent t ∧ ent t ≤ cmax)) f ?_ vs s ?_
  · intro t v ht
    show 0 ≤ bar (f t v) ∧ (0 < bar (f t v) → cmin ≤ ent (f t v) ∧ ent (f t v) ≤ cmax)
    rcases hstep t v with ⟨hb, he⟩ | ⟨hb, he⟩
    · rw [hb, he]; exact ht
    · rw [hb]; exact ⟨by omega, fun _ => he⟩
  · show 0 ≤ bar s ∧ (0 < bar s → cmin ≤ ent s ∧ ent s ≤ cmax)
    rw [h0]; exact ⟨le_refl 0, fun h => absurd h (lt_irrefl 0)⟩

/-- C8: in adaptive mode, for every chunked input and every constraints pair with
`min ≤ max`: a tick that closes a bar leaves `expected_num_ticks` within
`[min, max]`, and so after any number `k` of ticks, once at least one bar has been
closed, `expected_num_ticks` lies within `[min, max]`; this holds in
`compute_imbalance_bars` and in `compute_run_bars`. -/
theorem adaptive_expected_num_ticks_clamped (iovec : IOVec ℚ) (num_prev_bars : Int)
    (expected_imbalance_window expected_num_ticks : ℚ) (constraints : ℚ × ℚ)
    (h : constraints.1 ≤ constraints.2) :
    (∀ (s : ImbalanceState) (v : ℚ),
      (imbalance_tick num_prev_bars expected_imbalance_window constraints.1 constraints.2
        true s v).bar_number = s.bar_number + 1 →
      constraints.1 ≤ (imbalance_tick num_prev_bars expected_imbalance_window constraints.1
        constraints.2 true s v).expected_num_ticks ∧
      (imbalance_tick num_prev_bars expected_imbalance_window constraints.1
        constraints.2 true s v).expected_num_ticks ≤ constraints.2) ∧
    (∀ k : Nat,
      0 < (imbalance_final [iovec.flatten.take k] num_prev_bars expected_imbalance_window
        expected_num_ticks constraints true).bar_number →
      constraints.1 ≤ (imbalance_final [iovec.flatten.take k] num_prev_bars
        expected_imbalance_window expected_num_ticks constraints true).expected_num_ticks ∧
      (imbalance_final [iovec.flatten.take k] num_prev_bars
        expected_imbalance_window expected_num_ticks constraints true).expected_num_ticks
        ≤ constraints.2) ∧
    (∀ (s : RunState) (v : ℚ),
      (run_tick num_prev_bars expected_imbalance_window constraints.1 constraints.2
        true s v).bar_number = s.bar_number + 1 →
      constraints.1 ≤ (run_tick num_prev_bars expected_imbalance_window constraints.1
        constraints.2 true s v).expected_num_ticks ∧
      (run_tick num_prev_bars expected_imbalance_window constraints.1
        constraints.2 true s v).expected_num_ticks ≤ constraints.2) ∧
    (∀ k : Nat,
      0 < (run_final [iovec.flatten.take k] num_prev_bars expected_imbalance_window
        expected_num_ticks constraints true).bar_number →
      constraints.1 ≤ (run_final [iovec.flatten.take k] num_prev_bars
        expected_imbalance_window expected_num_ticks constraints true).expected_num_ticks ∧
      (run_final [iovec.flatten.take k] num_prev_bars
        expected_imbalance_window expected_num_ticks constraints true).expected_num_ticks
        ≤ constraints.2) := by
  refine ⟨?_, ?_, ?_, ?_⟩
  · intro s v hb
    rcases imbalance_tick_adaptive num_prev_bars expected_imbalance_window _ _ h s v with
      ⟨hb', _⟩ | ⟨_, he⟩
    · omega
    · exact he
  · intro k
    unfold imbalance_final
    rw [imbalance_loop_flatten]
    exact (clamped_foldl _ ImbalanceState.bar_number ImbalanceState.expected_num_ticks
      constraints.1 constraints.2
      (imbalance_tick_adaptive num_prev_bars expected_imbalance_window _ _ h)
      _ (imbalance_init expected_num_ticks) rfl).2
  · intro s v hb
    rcases run_tick_adaptive num_prev_bars expected_imbalance_window _ _ h s v with
      ⟨hb', _⟩ | ⟨_, he⟩
    · omega
    · exact he
  · intro k
    unfold run_final
    rw [run_loop_flatten]
    exact (clamped_foldl _ RunState.bar_number RunState.expected_num_ticks
      constraints.1 constraints.2
      (run_tick_adaptive num_prev_bars expected_imbalance_window _ _ h)
      _ (run_init expected_num_ticks) rfl).2

/-- Witness for C8: on the stream `1, -2, 3, 1, -1, 1 | 4, 1, -1, 1, 1, 1` with the
constraints `(1, 10)` a bar has been closed after 12 ticks, and the recalibrated
`expected_num_ticks` of `compute_imbalance_bars` lies in `[1, 10]`. -/
theorem adaptive_expected_num_ticks_clamped_witness :
    ((1 : ℚ), (10 : ℚ)).1 ≤ ((1 : ℚ), (10 : ℚ)).2 ∧
    0 < (imbalance_final [([[1, -2, 3, 1, -1, 1], [4, 1, -1, 1, 1, 1]] : IOVec ℚ).flatten.take 12]
      3 5 3 (1, 10) true).bar_number ∧
    (1 : ℚ) ≤ (imbalance_final
      [([[1, -2, 3, 1, -1, 1], [4, 1, -1, 1, 1, 1]] : IOVec ℚ).flatten.take 12]
      3 5 3 (1, 10) true).expected_num_ticks ∧
    (imbalance_final [([[1, -2, 3, 1, -1, 1], [4, 1, -1, 1, 1, 1]] : IOVec ℚ).flatten.take 12]
      3 5 3 (1, 10) true).expected_num_ticks ≤ (10 : ℚ) :=
  ⟨by norm_num, by decide!,
    (adaptive_expected_num_ticks_clamped [[1, -2, 3, 1, -1, 1], [4, 1, -1, 1, 1, 1]] 3 5 3
      (1, 10) (by norm_num)).2.1 12 (by decide!)⟩

/-! ## The label of tick `i` is the bar open after `i` ticks -/

theorem out_foldl_append {σ : Type} (f : σ → ℚ → σ) (out : σ → List Int) (bar : σ → Int)
    (hout : ∀ s v, out (f s v) = out s ++ [bar s]) :
    ∀ (vs : List ℚ) (s : σ),
      ∃ u, out (vs.foldl f s) = out s ++ u ∧ u.length = vs.length := by
  intro vs
  induction vs with
  | nil => intro s; exact ⟨[], by simp, rfl⟩
  | cons v vs ih =>
    intro s
    obtain ⟨u, hu, hl⟩ := ih (f s v)
    refine ⟨bar s :: u, ?_, by simp [hl]⟩
    rw [List.foldl_cons, hu, hout]
    simp

theorem label_at {σ : Type} (f : σ → ℚ → σ) (out : σ → List Int) (bar : σ → Int)
    (hout : ∀ s v, out (f s v) = out s ++ [bar s]) (s0 : σ) (h0 : out s0 = [])
    (vs : List ℚ) (i : Nat) (hi : i < vs.length) :
    (out (vs.foldl f s0)).getD i 0 = bar ((vs.take i).foldl f s0) := by
  obtain ⟨u, hu, hul⟩ := out_foldl_append f out bar hout (vs.take i) s0
  rw [h0, List.nil_append] at hu
  have hlen : (out ((vs.take i).foldl f s0)).length = i := by
    rw [hu, hul, List.length_take]; omega
  have hsplit : vs = vs.take i ++ vs.drop i := (List.take_append_drop i vs).symm
  obtain ⟨v, rest, hd⟩ : ∃ v rest, vs.drop i = v :: rest := by
    cases hdr : vs.drop i with
    | nil =>
      have := congrArg List.length hdr
      rw [List.length_drop] at this
      simp at this
      omega
    | cons v rest => exact ⟨v, rest, rfl⟩
  obtain ⟨u2, hu2, _⟩ := out_foldl_append f out bar hout rest (f ((vs.take i).foldl f s0) v)
  have hfin : out (vs.foldl f s0)
      = out ((vs.take i).foldl f s0) ++ bar ((vs.take i).foldl f s0) :: u2 := by
    conv_lhs => rw [hsplit, hd, List.foldl_append, List.foldl_cons, hu2, hout]
    simp
  rw [hfin, List.getD_eq_getElem?_getD, List.getElem?_append_right (by omega), hlen]
  simp

theorem out_take_succ {σ : Type} (f : σ → ℚ → σ) (out : σ → List Int) (bar : σ → Int)
    (hout : ∀ s v, out (f s v) = out s ++ [bar s]) (s0 : σ) (h0 : out s0 = [])
    (vs : List ℚ) (k : Nat) :
    (out (vs.foldl f s0)).take k = out ((vs.take k).foldl f s0) := by
  obtain ⟨u, hu, hul⟩ := out_foldl_append f out bar hout (vs.take k) s0
  rw [h0, List.nil_append] at hu
  obtain ⟨u2, hu2, hul2⟩ := out_foldl_append f out bar hout (vs.drop k) ((vs.take k).foldl f s0)
  have hfin : out (vs.foldl f s0) = out ((vs.take k).foldl f s0) ++ u2 := by
    conv_lhs => rw [← List.take_append_drop k vs, List.foldl_append, hu2]
  rw [hfin]
  by_cases hk : k ≤ vs.length
  · have hlen : (out ((vs.take k).foldl f s0)).length = k := by
      rw [hu, hul, List.length_take]; omega
    rw [List.take_append_of_le_length (by omega), List.take_of_length_le (by omega)]
  · have h2 : u2 = [] := by
      apply List.eq_nil_of_length_eq_zero
      rw [hul2, List.length_drop]; omega
    rw [h2, List.append_nil]
    apply List.take_of_length_le
    rw [hu, hul, List.length_take]; omega

/-! ## Imbalance bars: the warm-up span -/

theorem imbalance_tick_warming (n : Int) (w cmin cmax : ℚ) (ema_bars : Bool)
    (s : ImbalanceState) (val : ℚ) (hinit : s.expected_imbalance_initialized = false)
    (hlt : ((s.cum_ticks + 1 : Int) : ℚ) < s.expected_num_ticks) :
    (imbalance_tick n w cmin cmax ema_bars s val).bar_number = s.bar_number ∧
    (imbalance_tick n w cmin cmax ema_bars s val).expected_imbalance_initialized = false ∧
    (imbalance_tick n w cmin cmax ema_bars s val).cum_ticks = s.cum_ticks + 1 ∧
    (imbalance_tick n w cmin cmax ema_bars s val).expected_num_ticks = s.expected_num_ticks := by
  have hw : decide (((s.cum_ticks + 1 : Int) : ℚ) ≥ s.expected_num_ticks) = false := by
    rw [decide_eq_false_iff_not]
    exact not_le.mpr hlt
  unfold imbalance_tick
  dsimp only
  rw [hinit, hw]
  simp [hinit]

theorem imbalance_warming (n : Int) (w cmin cmax : ℚ) (ema_bars : Bool) (e : ℚ) :
    ∀ p : List ℚ, (p = [] ∨ (p.length : ℚ) < e) →
      (p.foldl (imbalance_tick n w cmin cmax ema_bars) (imbalance_init e)).bar_number = 0 ∧
      (p.foldl (imbalance_tick n w cmin cmax ema_bars)
        (imbalance_init e)).expected_imbalance_initialized = false ∧
      (p.foldl (imbalance_tick n w cmin cmax ema_bars) (imbalance_init e)).cum_ticks
        = (p.length : Int) ∧
      (p.foldl (imbalance_tick n w cmin cmax ema_bars) (imbalance_init e)).expected_num_ticks
        = e := by
  intro p
  induction p using List.reverseRecOn with
  | nil => intro _; simp [imbalance_init]
  | append_singleton p v ih =>
    intro h
    have hlen : ((p.length : ℚ) + 1) < e := by
      rcases h with h | h
      · simp at h
      · simpa using h
    have hp : p = [] ∨ (p.length : ℚ) < e := Or.inr (by linarith)
    obtain ⟨h1, h2, h3, h4⟩ := ih hp
    rw [List.foldl_append, List.foldl_cons, List.foldl_nil]
    have ht := imbalance_tick_warming n w cmin cmax ema_bars _ v h2 (by
      rw [h3, h4]; push_cast; exact hlen)
    refine ⟨by rw [ht.1, h1], ht.2.1, ?_, by rw [ht.2.2.2, h4]⟩
    rw [ht.2.2.1, h3]
    simp

/-- C6: in `compute_imbalance_bars`, for every chunked input and every parameter
choice, the tick at index `i` (0-based) is labelled 0 whenever `i = 0` or
`i + 1 ≤ ⌈expected_num_ticks⌉`: no bar closes before the tick at which the tick
count first reaches `expected_num_ticks`, and that tick is itself labelled 0. -/
theorem imbalance_bars_warmup_labels (iovec : IOVec ℚ) (num_prev_bars : Int)
    (expected_imbalance_window expected_num_ticks : ℚ) (constraints : ℚ × ℚ)
    (ema_bars : Bool) (i : Nat) (hi : i < total_num_values iovec)
    (h : i = 0 ∨ (i : Int) + 1 ≤ ⌈expected_num_ticks⌉) :
    (compute_imbalance_bars iovec num_prev_bars expected_imbalance_window expected_num_ticks
      constraints ema_bars).getD i 0 = 0 := by
  rw [total_num_values_eq_length] at hi
  unfold compute_imbalance_bars imbalance_final
  rw [imbalance_loop_flatten]
  unfold imbalance_bin
  rw [label_at _ ImbalanceState.out_data ImbalanceState.bar_number
    (fun s v => (imbalance_tick_out _ _ _ _ _ s v).1) _ rfl _ i hi]
  apply (imbalance_warming _ _ _ _ _ _ _ _).1
  rcases h with h | h
  · left; rw [h]; simp
  · right
    have h' : (i : Int) < ⌈expected_num_ticks⌉ := by omega
    have := Int.lt_ceil.mp h'
    rw [List.length_take, min_eq_left (Nat.le_of_lt hi)]
    exact_mod_cast this

/-- Witness for C6: with `expected_num_ticks = 3` the tick at index 2 of a five-tick
stream in two chunks is labelled 0. -/
theorem imbalance_bars_warmup_labels_witness :
    2 < total_num_values ([[1, 1], [1, 1, 1]] : IOVec ℚ) ∧
    ((2 : Nat) = 0 ∨ ((2 : Nat) : Int) + 1 ≤ ⌈(3 : ℚ)⌉) ∧
    (compute_imbalance_bars [[1, 1], [1, 1, 1]] 3 5 3 (1, 10) true).getD 2 0 = 0 :=
  ⟨by decide, Or.inr (by decide!),
    imbalance_bars_warmup_labels [[1, 1], [1, 1, 1]] 3 5 3 (1, 10) true 2 (by decide)
      (Or.inr (by decide!))⟩

/-! ## Run bars: the warm-up needs both sides -/

theorem run_accumulate_fields (s : RunState) (val : ℚ) :
    (run_accumulate s val).expected_imbalance_initialized = s.expected_imbalance_initialized ∧
    (run_accumulate s val).expected_imbalance_buy_initialized
      = s.expected_imbalance_buy_initialized ∧
    (run_accumulate s val).expected_imbalance_sell_initialized
      = s.expected_imbalance_sell_initialized ∧
    (run_accumulate s val).imbalance_array_buy_index
      = s.imbalance_array_buy_index + (if 0 < val then 1 else 0) ∧
    (run_accumulate s val).imbalance_array_sell_index
      = s.imbalance_array_sell_index + (if val < 0 then 1 else 0) := by
  unfold run_accumulate
  dsimp only
  by_cases h1 : 0 < val
  · have h2 : ¬ val < 0 := not_lt.mpr (le_of_lt h1)
    simp [h1, h2]
  · by_cases h2 : val < 0
    · simp [h1, h2]
    · simp [h1, h2]

theorem run_warmup_buy_fields (w : ℚ) (s : RunState) :
    (run_warmup_buy w s).imbalance_array_buy_index = s.imbalance_array_buy_index ∧
    (run_warmup_buy w s).imbalance_array_sell_index = s.imbalance_array_sell_index ∧
    (run_warmup_buy w s).expected_num_ticks = s.expected_num_ticks ∧
    (run_warmup_buy w s).expected_imbalance_sell_initialized
      = s.expected_imbalance_sell_initialized ∧
    ((run_warmup_buy w s).expected_imbalance_buy_initialized = true →
      s.expected_imbalance_buy_initialized = true ∨
      s.expected_num_ticks ≤ (s.imbalance_array_buy_index : ℚ)) := by
  unfold run_warmup_buy
  by_cases h1 : (s.imbalance_array_buy_index : ℚ) ≥ s.expected_num_ticks
  · rw [if_pos h1]
    exact ⟨rfl, rfl, rfl, rfl, fun _ => Or.inr h1⟩
  · rw [if_neg h1]
    exact ⟨rfl, rfl, rfl, rfl, fun h => Or.inl h⟩

theorem run_warmup_sell_fields (w : ℚ) (s : RunState) :
    (run_warmup_sell w s).imbalance_array_buy_index = s.imbalance_array_buy_index ∧
    (run_warmup_sell w s).imbalance_array_sell_index = s.imbalance_array_sell_index ∧
    (run_warmup_sell w s).expected_num_ticks = s.expected_num_ticks ∧
    (run_warmup_sell w s).expected_imbalance_buy_initialized
      = s.expected_imbalance_buy_initialized ∧
    ((run_warmup_sell w s).expected_imbalance_sell_initialized = true →
      s.expected_imbalance_sell_initialized = true ∨
      s.expected_num_ticks ≤ (s.imbalance_array_sell_index : ℚ)) := by
  unfold run_warmup_sell
  by_cases h1 : (s.imbalance_array_sell_index : ℚ) ≥ s.expected_num_ticks
  · rw [if_pos h1]
    exact ⟨rfl, rfl, rfl, rfl, fun _ => Or.inr h1⟩
  · rw [if_neg h1]
    exact ⟨rfl, rfl, rfl, rfl, fun h => Or.inl h⟩

theorem run_warmup_both_fields (s : RunState) (hi : s.expected_imbalance_initialized = false) :
    (run_warmup_both s).imbalance_array_buy_index = s.imbalance_array_buy_index ∧
    (run_warmup_both s).imbalance_array_sell_index = s.imbalance_array_sell_index ∧
    (run_warmup_both s).expected_imbalance_buy_initialized
      = s.expected_imbalance_buy_initialized ∧
    (run_warmup_both s).expected_imbalance_sell_initialized
      = s.expected_imbalance_sell_initialized ∧
    ((run_warmup_both s).expected_imbalance_initialized = true →
      s.expected_imbalance_buy_initialized = true ∧
      s.expected_imbalance_sell_initialized = true) := by
  unfold run_warmup_both
  by_cases h1 : s.expected_imbalance_buy_initialized = true ∧
      s.expected_imbalance_sell_initialized = true
  · rw [if_pos h1]
    exact ⟨rfl, rfl, rfl, rfl, fun _ => h1⟩
  · rw [if_neg h1]
    refine ⟨rfl, rfl, rfl, rfl, fun h => ?_⟩
    rw [hi] at h
    exact absurd h (by decide)

theorem run_warmup_fields (w : ℚ) (s : RunState) (hb : s.bar_number = 0)
    (hi : s.expected_imbalance_initialized = false) :
    (run_warmup w s).imbalance_array_buy_index = s.imbalance_array_buy_index ∧
    (run_warmup w s).imbalance_array_sell_index = s.imbalance_array_sell_index ∧
    ((run_warmup w s).expected_imbalance_buy_initialized = true →
      s.expected_imbalance_buy_initialized = true ∨
      s.expected_num_ticks ≤ (s.imbalance_array_buy_index : ℚ)) ∧
    ((run_warmup w s).expected_imbalance_sell_initialized = true →
      s.expected_imbalance_sell_initialized = true ∨
      s.expected_num_ticks ≤ (s.imbalance_array_sell_index : ℚ)) ∧
    ((run_warmup w s).expected_imbalance_initialized = true →
      (run_warmup w s).expected_imbalance_buy_initialized = true ∧
      (run_warmup w s).expected_imbalance_sell_initialized = true) := by
  have b := run_warmup_buy_fields w s
  have c := run_warmup_sell_fields w (run_warmup_buy w s)
  have hi2 : (run_warmup_sell w (run_warmup_buy w s)).expected_imbalance_initialized
      = false := by
    unfold run_warmup_sell run_warmup_buy
    split_ifs <;> simp [hi]
  have d := run_warmup_both_fields (run_warmup_sell w (run_warmup_buy w s)) hi2
  unfold run_warmup
  rw [if_pos ⟨hb, hi⟩]
  refine ⟨?_, ?_, ?_, ?_, ?_⟩
  · rw [d.1, c.1, b.1]
  · rw [d.2.1, c.2.1, b.2.1]
  · intro h
    rw [d.2.2.1, c.2.2.2.1] at h
    exact b.2.2.2.2 h
  · intro h
    rw [d.2.2.2.1] at h
    rcases c.2.2.2.2 h with h' | h'
    · left; rw [← b.2.2.2.1]; exact h'
    · right; rw [← b.2.2.1, ← b.2.1]; exact h'
  · intro h
    rw [d.2.2.1, d.2.2.2.1]
    exact d.2.2.2.2 h

theorem run_close_warming (n : Int) (w cmin cmax : ℚ) (ema_bars : Bool) (s : RunState)
    (hi : s.expected_imbalance_initialized = false) :
    run_close n w cmin cmax ema_bars s = s := by
  unfold run_close
  rw [if_pos hi]

theorem run_tick_warming (n : Int) (w cmin cmax : ℚ) (ema_bars : Bool) (s : RunState)
    (val : ℚ) (hW : RunWarming s)
    (h : ((s.imbalance_array_buy_index + (if 0 < val then 1 else 0) : Nat) : ℚ)
          < s.expected_num_ticks ∨
        ((s.imbalance_array_sell_index + (if val < 0 then 1 else 0) : Nat) : ℚ)
          < s.expected_num_ticks) :
    RunWarming (run_tick n w cmin cmax ema_bars s val) ∧
    (run_tick n w cmin cmax ema_bars s val).imbalance_array_buy_index
      = s.imbalance_array_buy_index + (if 0 < val then 1 else 0) ∧
    (run_tick n w cmin cmax ema_bars s val).imbalance_array_sell_index
      = s.imbalance_array_sell_index + (if val < 0 then 1 else 0) ∧
    (run_tick n w cmin cmax ema_bars s val).expected_num_ticks = s.expected_num_ticks := by
  obtain ⟨hb, hinit, hbuy, hsell, hout⟩ := hW
  have a1 := run_accumulate_out s val
  have a2 := run_accumulate_fields s val
  have a3 := run_accumulate_expected_num_ticks s val
  have w1 := run_warmup_out w (run_accumulate s val)
  have w2 := run_warmup_fields w (run_accumulate s val) (by rw [a1.2, hb])
    (by rw [a2.1, hinit])
  have w3 := run_warmup_expected_num_ticks w (run_accumulate s val)
  have hle1 : (s.imbalance_array_buy_index : ℚ)
      ≤ ((s.imbalance_array_buy_index + (if 0 < val then 1 else 0) : Nat) : ℚ) := by
    exact_mod_cast Nat.le_add_right _ _
  have hle2 : (s.imbalance_array_sell_index : ℚ)
      ≤ ((s.imbalance_array_sell_index + (if val < 0 then 1 else 0) : Nat) : ℚ) := by
    exact_mod_cast Nat.le_add_right _ _
  -- each side is marked warm only once its own history has reached the target
  have hB : (run_warmup w (run_accumulate s val)).expected_imbalance_buy_initialized = true →
      s.expected_num_ticks
        ≤ ((s.imbalance_array_buy_index + (if 0 < val then 1 else 0) : Nat) : ℚ) := by
    intro hw
    rcases w2.2.2.1 hw with h' | h'
    · rw [a2.2.1] at h'
      exact le_trans (hbuy h') hle1
    · rw [a3, a2.2.2.2.1] at h'
      exact h'
  have hS : (run_warmup w (run_accumulate s val)).expected_imbalance_sell_initialized = true →
      s.expected_num_ticks
        ≤ ((s.imbalance_array_sell_index + (if val < 0 then 1 else 0) : Nat) : ℚ) := by
    intro hw
    rcases w2.2.2.2.1 hw with h' | h'
    · rw [a2.2.2.1] at h'
      exact le_trans (hsell h') hle2
    · rw [a3, a2.2.2.2.2] at h'
      exact h'
  have hI : (run_warmup w (run_accumulate s val)).expected_imbalance_initialized = false := by
    by_contra hc
    have hc' : (run_warmup w (run_accumulate s val)).expected_imbalance_initialized = true := by
      simpa using hc
    obtain ⟨hb', hs'⟩ := w2.2.2.2.2 hc'
    rcases h with h | h
    · exact absurd (hB hb') (not_le.mpr h)
    · exact absurd (hS hs') (not_le.mpr h)
  have hc := run_close_warming n w cmin cmax ema_bars _ hI
  unfold run_tick
  dsimp only
  rw [hc]
  refine ⟨⟨?_, hI, ?_, ?_, ?_⟩, ?_, ?_, ?_⟩
  · show (run_warmup w (run_accumulate s val)).bar_number = 0
    rw [w1.2, a1.2, hb]
  · intro hw
    show (run_warmup w (run_accumulate s val)).expected_num_ticks
      ≤ ((run_warmup w (run_accumulate s val)).imbalance_array_buy_index : ℚ)
    rw [w3, a3, w2.1, a2.2.2.2.1]
    exact hB hw
  · intro hw
    show (run_warmup w (run_accumulate s val)).expected_num_ticks
      ≤ ((run_warmup w (run_accumulate s val)).imbalance_array_sell_index : ℚ)
    rw [w3, a3, w2.2.1, a2.2.2.2.2]
    exact hS hw
  · intro x hx
    have hx' : x ∈ (run_warmup w (run_accumulate s val)).out_data := hx
    rw [w1.1, a1.1, List.mem_append, List.mem_singleton] at hx'
    rcases hx' with hx' | hx'
    · exact hout x hx'
    · rw [hx', hb]
  · show (run_warmup w (run_accumulate s val)).imbalance_array_buy_index = _
    rw [w2.1, a2.2.2.2.1]
  · show (run_warmup w (run_accumulate s val)).imbalance_array_sell_index = _
    rw [w2.2.1, a2.2.2.2.2]
  · show (run_warmup w (run_accumulate s val)).expected_num_ticks = _
    rw [w3, a3]

theorem run_warming_foldl (n : Int) (w cmin cmax : ℚ) (ema_bars : Bool) :
    ∀ (vs : List ℚ) (s : RunState), RunWarming s →
      (((s.imbalance_array_buy_index + vs.countP (fun v => decide (0 < v)) : Nat) : ℚ)
          < s.expected_num_ticks ∨
        ((s.imbalance_array_sell_index + vs.countP (fun v => decide (v < 0)) : Nat) : ℚ)
          < s.expected_num_ticks) →
      RunWarming (vs.foldl (run_tick n w cmin cmax ema_bars) s) := by
  intro vs
  induction vs with
  | nil => intro s hs _; exact hs
  | cons v vs ih =>
    intro s hs h
    have e1 : s.imbalance_array_buy_index + (v :: vs).countP (fun v => decide (0 < v))
        = (s.imbalance_array_buy_index + (if 0 < v then 1 else 0))
          + vs.countP (fun v => decide (0 < v)) := by
      rw [List.countP_cons]
      simp only [decide_eq_true_eq]
      omega
    have e2 : s.imbalance_array_sell_index + (v :: vs).countP (fun v => decide (v < 0))
        = (s.imbalance_array_sell_index + (if v < 0 then 1 else 0))
          + vs.countP (fun v => decide (v < 0)) := by
      rw [List.countP_cons]
      simp only [decide_eq_true_eq]
      omega
    rw [e1, e2] at h
    have ht := run_tick_warming n w cmin cmax ema_bars s v hs (by
      rcases h with h | h
      · left
        refine lt_of_le_of_lt ?_ h
        exact_mod_cast Nat.le_add_right _ _
      · right
        refine lt_of_le_of_lt ?_ h
        exact_mod_cast Nat.le_add_right _ _)
    rw [List.foldl_cons]
    apply ih _ ht.1
    rw [ht.2.1, ht.2.2.1, ht.2.2.2]
    exact h

theorem run_init_warming (e : ℚ) : RunWarming (run_init e) := by
  unfold RunWarming run_init
  simp

theorem run_tick_zero_indices (n : Int) (w cmin cmax : ℚ) (ema_bars : Bool) (s : RunState) :
    (run_tick n w cmin cmax ema_bars s 0).imbalance_array_buy_index
      = s.imbalance_array_buy_index ∧
    (run_tick n w cmin cmax ema_bars s 0).imbalance_array_sell_index
      = s.imbalance_array_sell_index := by
  have a : (run_accumulate s 0).imbalance_array_buy_index = s.imbalance_array_buy_index ∧
      (run_accumulate s 0).imbalance_array_sell_index = s.imbalance_array_sell_index := by
    have := run_accumulate_fields s 0
    simpa using this.2.2.2
  have b : ∀ t : RunState,
      (run_warmup w t).imbalance_array_buy_index = t.imbalance_array_buy_index ∧
      (run_warmup w t).imbalance_array_sell_index = t.imbalance_array_sell_index := by
    intro t
    unfold run_warmup run_warmup_both run_warmup_sell run_warmup_buy
    split_ifs <;> simp
  have c : ∀ t : RunState,
      (run_close n w cmin cmax ema_bars t).imbalance_array_buy_index
        = t.imbalance_array_buy_index ∧
      (run_close n w cmin cmax ema_bars t).imbalance_array_sell_index
        = t.imbalance_array_sell_index := by
    intro t
    unfold run_close
    dsimp only
    split_ifs <;> simp
  unfold run_tick
  dsimp only
  rw [(c _).1, (c _).2, (b _).1, (b _).2]
  exact a

/-- C7: in `compute_run_bars`, if the input holds fewer than `expected_num_ticks`
strictly positive values, or fewer than `expected_num_ticks` strictly negative
values, then the warm-up never completes and every label is 0; and a zero-valued tick
advances neither side's history. -/
theorem run_bars_warmup_needs_both_sides (iovec : IOVec ℚ) (num_prev_bars : Int)
    (expected_imbalance_window expected_num_ticks : ℚ) (constraints : ℚ × ℚ)
    (ema_bars : Bool)
    (h : ((iovec.flatten.countP (fun v => decide (0 < v)) : Nat) : ℚ) < expected_num_ticks ∨
      ((iovec.flatten.countP (fun v => decide (v < 0)) : Nat) : ℚ) < expected_num_ticks) :
    (run_final iovec num_prev_bars expected_imbalance_window expected_num_ticks constraints
      ema_bars).expected_imbalance_initialized = false ∧
    (∀ x ∈ compute_run_bars iovec num_prev_bars expected_imbalance_window expected_num_ticks
      constraints ema_bars, x = 0) ∧
    (∀ s : RunState,
      (run_tick num_prev_bars expected_imbalance_window constraints.1 constraints.2 ema_bars
        s 0).imbalance_array_buy_index = s.imbalance_array_buy_index ∧
      (run_tick num_prev_bars expected_imbalance_window constraints.1 constraints.2 ema_bars
        s 0).imbalance_array_sell_index = s.imbalance_array_sell_index) := by
  have hw : RunWarming (run_final iovec num_prev_bars expected_imbalance_window
      expected_num_ticks constraints ema_bars) := by
    unfold run_final
    rw [run_loop_flatten]
    unfold run_bin
    apply run_warming_foldl _ _ _ _ _ _ _ (run_init_warming expected_num_ticks)
    simpa [run_init] using h
  exact ⟨hw.2.1, hw.2.2.2.2, run_tick_zero_indices _ _ _ _ _⟩

/-- Witness for C7: a stream with three positive values, two zeros and no negative
value never warms up with `expected_num_ticks = 2`. -/
theorem run_bars_warmup_needs_both_sides_witness :
    ((((([[1, 0, 2], [0, 1]] : IOVec ℚ).flatten.countP (fun v => decide (0 < v)) : Nat) : ℚ)
        < 2) ∨
      (((([[1, 0, 2], [0, 1]] : IOVec ℚ).flatten.countP (fun v => decide (v < 0)) : Nat) : ℚ)
        < 2)) ∧
    (∀ x ∈ compute_run_bars [[1, 0, 2], [0, 1]] 3 5 2 (1, 10) true, x = 0) :=
  ⟨Or.inr (by decide!),
    (run_bars_warmup_needs_both_sides [[1, 0, 2], [0, 1]] 3 5 2 (1, 10) true
      (Or.inr (by decide!))).2.1⟩

/-! ## Cumulative-sum bars: where a bar closes -/

theorem take_succ_getD (vs : List ℚ) (i : Nat) (hi : i < vs.length) :
    vs.take (i + 1) = vs.take i ++ [vs.getD i 0] := by
  rw [List.take_succ, List.getD_eq_getElem?_getD, List.getElem?_eq_getElem hi]
  simp

theorem bar_total_snoc (p : List ℚ) (out : List Int) (v : ℚ) (b l : Int)
    (hlen : p.length = out.length) :
    bar_total (p ++ [v]) (out ++ [b]) l = bar_total p out l + (if b = l then v else 0) := by
  unfold bar_total
  rw [List.zip_append hlen, List.filter_append, List.map_append, List.sum_append]
  congr 1
  by_cases hb : b = l
  · simp [hb]
  · simp [hb]

theorem bar_total_absent (p : List ℚ) (out : List Int) (l : Int) (h : ∀ x ∈ out, x ≠ l) :
    bar_total p out l = 0 := by
  unfold bar_total
  have : (p.zip out).filter (fun q => decide (q.2 = l)) = [] := by
    rw [List.filter_eq_nil_iff]
    intro q hq
    have hq2 : q.2 ∈ out := (List.of_mem_zip (a := q.1) (b := q.2) hq).2
    simpa using h q.2 hq2
  rw [this]
  simp

theorem cumulative_sum_tick_cases (threshold : ℚ) (s : CumSumState) (val : ℚ) :
    (threshold ≤ s.cum_value + val →
      (cumulative_sum_tick threshold s val).bar_number = s.bar_number + 1 ∧
      (cumulative_sum_tick threshold s val).cum_value = 0) ∧
    (¬ threshold ≤ s.cum_value + val →
      (cumulative_sum_tick threshold s val).bar_number = s.bar_number ∧
      (cumulative_sum_tick threshold s val).cum_value = s.cum_value + val) := by
  unfold cumulative_sum_tick
  dsimp only
  constructor
  · intro h
    rw [if_pos h]
    exact ⟨rfl, rfl⟩
  · intro h
    rw [if_neg h]
    exact ⟨rfl, rfl⟩

/-- Invariant of the cumulative-sum sampler after the ticks `p`: the accumulator is
the total of the open bar, and every bar below the open one reached the threshold. -/
theorem cumulative_sum_inv (threshold : ℚ) :
    ∀ p : List ℚ,
      (p.foldl (cumulative_sum_tick threshold) cumulative_sum_init).out_data.length
        = p.length ∧
      1 ≤ (p.foldl (cumulative_sum_tick threshold) cumulative_sum_init).bar_number ∧
      (∀ x ∈ (p.foldl (cumulative_sum_tick threshold) cumulative_sum_init).out_data,
        1 ≤ x ∧ x ≤ (p.foldl (cumulative_sum_tick threshold) cumulative_sum_init).bar_number) ∧
      (p.foldl (cumulative_sum_tick threshold) cumulative_sum_init).cum_value
        = bar_total p (p.foldl (cumulative_sum_tick threshold) cumulative_sum_init).out_data
            (p.foldl (cumulative_sum_tick threshold) cumulative_sum_init).bar_number ∧
      (∀ l : Int, 1 ≤ l →
        l < (p.foldl (cumulative_sum_tick threshold) cumulative_sum_init).bar_number →
        threshold ≤ bar_total p
          (p.foldl (cumulative_sum_tick threshold) cumulative_sum_init).out_data l) := by
  intro p
  induction p using List.reverseRecOn with
  | nil =>
    refine ⟨rfl, by simp [cumulative_sum_init], by simp [cumulative_sum_init],
      by simp [cumulative_sum_init, bar_total], ?_⟩
    intro l h1 h2
    simp [cumulative_sum_init] at h2
    omega
  | append_singleton p v ih =>
    obtain ⟨hlen, hbar, hmem, hcum, hclosed⟩ := ih
    rw [List.foldl_append, List.foldl_cons, List.foldl_nil]
    generalize p.foldl (cumulative_sum_tick threshold) cumulative_sum_init = s at *
    have hout := (cumulative_sum_tick_out threshold s v).1
    have hc := cumulative_sum_tick_cases threshold s v
    rw [hout]
    have hne : ∀ l : Int, s.bar_number < l → bar_total p s.out_data l = 0 := by
      intro l hl
      apply bar_total_absent
      intro x hx
      have := (hmem x hx).2
      omega
    by_cases h : threshold ≤ s.cum_value + v
    · obtain ⟨hb, hz⟩ := hc.1 h
      rw [hb, hz]
      refine ⟨by simp [hlen], by omega, ?_, ?_, ?_⟩
      · intro x hx
        rw [List.mem_append, List.mem_singleton] at hx
        rcases hx with hx | hx
        · have := hmem x hx; omega
        · omega
      · rw [bar_total_snoc p s.out_data v _ _ hlen.symm, hne _ (by omega)]
        simp
      · intro l h1 h2
        rw [bar_total_snoc p s.out_data v _ _ hlen.symm]
        by_cases hl : s.bar_number = l
        · rw [if_pos hl, ← hl, ← hcum]
          exact h
        · rw [if_neg hl, add_zero]
          exact hclosed l h1 (by omega)
    · obtain ⟨hb, hz⟩ := hc.2 h
      rw [hb, hz]
      refine ⟨by simp [hlen], hbar, ?_, ?_, ?_⟩
      · intro x hx
        rw [List.mem_append, List.mem_singleton] at hx
        rcases hx with hx | hx
        · exact hmem x hx
        · omega
      · rw [bar_total_snoc p s.out_data v _ _ hlen.symm, if_pos rfl, hcum]
      · intro l h1 h2
        rw [bar_total_snoc p s.out_data v _ _ hlen.symm, if_neg (by omega), add_zero]
        exact hclosed l h1 h2

theorem cumulative_sum_with_reset_flat (iovec : IOVec ℚ) (threshold : ℚ) :
    cumulative_sum_with_reset iovec threshold
      = (iovec.flatten.foldl (cumulative_sum_tick threshold) cumulative_sum_init).out_data := by
  unfold cumulative_sum_with_reset
  rw [cumulative_sum_loop_flatten]
  rfl

/-- What tick `i` of the cumulative-sum sampler sees and does, in terms of the state
reached after the first `i` ticks. -/
theorem cumulative_sum_step_at (threshold : ℚ) (vs : List ℚ) (i : Nat) (hi : i < vs.length) :
    (vs.foldl (cumulative_sum_tick threshold) cumulative_sum_init).out_data.getD i 0
      = ((vs.take i).foldl (cumulative_sum_tick threshold) cumulative_sum_init).bar_number ∧
    bar_sum_upto vs (vs.foldl (cumulative_sum_tick threshold) cumulative_sum_init).out_data i
      = ((vs.take i).foldl (cumulative_sum_tick threshold) cumulative_sum_init).cum_value
        + vs.getD i 0 ∧
    (i + 1 < vs.length →
      (vs.foldl (cumulative_sum_tick threshold) cumulative_sum_init).out_data.getD (i + 1) 0
        = (cumulative_sum_tick threshold
            ((vs.take i).foldl (cumulative_sum_tick threshold) cumulative_sum_init)
            (vs.getD i 0)).bar_number) := by
  have hout : ∀ (s : CumSumState) (v : ℚ),
      (cumulative_sum_tick threshold s v).out_data = s.out_data ++ [s.bar_number] :=
    fun s v => (cumulative_sum_tick_out threshold s v).1
  have hl := label_at (cumulative_sum_tick threshold) CumSumState.out_data
    CumSumState.bar_number hout cumulative_sum_init rfl vs i hi
  have hsucc : (vs.take (i + 1)).foldl (cumulative_sum_tick threshold) cumulative_sum_init
      = cumulative_sum_tick threshold
          ((vs.take i).foldl (cumulative_sum_tick threshold) cumulative_sum_init)
          (vs.getD i 0) := by
    rw [take_succ_getD vs i hi, List.foldl_append, List.foldl_cons, List.foldl_nil]
  refine ⟨hl, ?_, ?_⟩
  · unfold bar_sum_upto
    have ht := out_take_succ (cumulative_sum_tick threshold) CumSumState.out_data
      CumSumState.bar_number hout cumulative_sum_init rfl vs (i + 1)
    rw [ht, hsucc, hout, hl, take_succ_getD vs i hi]
    have inv := cumulative_sum_inv threshold (vs.take i)
    rw [bar_total_snoc _ _ _ _ _ inv.1.symm, if_pos rfl, ← inv.2.2.2.1]
  · intro hi1
    rw [label_at (cumulative_sum_tick threshold) CumSumState.out_data
      CumSumState.bar_number hout cumulative_sum_init rfl vs (i + 1) hi1, hsucc]

/-- C3: in `cumulative_sum_with_reset` (exact arithmetic), the label changes from tick
`i` to tick `i + 1` if and only if the total of the ticks carrying tick `i`'s label, up
to and including tick `i`, is at least the threshold.  Consequently a bar whose label
is followed by a larger one has total value at least the threshold, every prefix of a
bar that the bar continues beyond has total below the threshold, and the tick that
reaches the threshold carries the label of the bar it closes (the next tick carries
the next label). -/
theorem cumulative_sum_with_reset_closes (iovec : IOVec ℚ) (threshold : ℚ) :
    (∀ i, i + 1 < (cumulative_sum_with_reset iovec threshold).length →
      ((cumulative_sum_with_reset iovec threshold).getD (i + 1) 0
          ≠ (cumulative_sum_with_reset iovec threshold).getD i 0 ↔
        threshold ≤ bar_sum_upto iovec.flatten (cumulative_sum_with_reset iovec threshold) i)) ∧
    (∀ i j, i < j → j < (cumulative_sum_with_reset iovec threshold).length →
      (cumulative_sum_with_reset iovec threshold).getD i 0
        < (cumulative_sum_with_reset iovec threshold).getD j 0 →
      threshold ≤ bar_total iovec.flatten (cumulative_sum_with_reset iovec threshold)
        ((cumulative_sum_with_reset iovec threshold).getD i 0)) ∧
    (∀ i, i + 1 < (cumulative_sum_with_reset iovec threshold).length →
      (cumulative_sum_with_reset iovec threshold).getD (i + 1) 0
        = (cumulative_sum_with_reset iovec threshold).getD i 0 →
      bar_sum_upto iovec.flatten (cumulative_sum_with_reset iovec threshold) i < threshold) ∧
    (∀ i, i + 1 < (cumulative_sum_with_reset iovec threshold).length →
      threshold ≤ bar_sum_upto iovec.flatten (cumulative_sum_with_reset iovec threshold) i →
      (cumulative_sum_with_reset iovec threshold).getD (i + 1) 0
        = (cumulative_sum_with_reset iovec threshold).getD i 0 + 1) := by
  have hlen : (cumulative_sum_with_reset iovec threshold).length = iovec.flatten.length :=
    (cumulative_sum_labelsOK iovec threshold).2
  rw [cumulative_sum_with_reset_flat] at hlen ⊢
  -- the label step at tick `i`, read off the tick function
  have key : ∀ i, i + 1 < iovec.flatten.length →
      (threshold ≤ bar_sum_upto iovec.flatten
          (iovec.flatten.foldl (cumulative_sum_tick threshold) cumulative_sum_init).out_data i →
        (iovec.flatten.foldl (cumulative_sum_tick threshold)
            cumulative_sum_init).out_data.getD (i + 1) 0
          = (iovec.flatten.foldl (cumulative_sum_tick threshold)
            cumulative_sum_init).out_data.getD i 0 + 1) ∧
      (¬ threshold ≤ bar_sum_upto iovec.flatten
          (iovec.flatten.foldl (cumulative_sum_tick threshold) cumulative_sum_init).out_data i →
        (iovec.flatten.foldl (cumulative_sum_tick threshold)
            cumulative_sum_init).out_data.getD (i + 1) 0
          = (iovec.flatten.foldl (cumulative_sum_tick threshold)
            cumulative_sum_init).out_data.getD i 0) := by
    intro i hi
    obtain ⟨h1, h2, h3⟩ := cumulative_sum_step_at threshold iovec.flatten i (by omega)
    have hc := cumulative_sum_tick_cases threshold
      ((iovec.flatten.take i).foldl (cumulative_sum_tick threshold) cumulative_sum_init)
      (iovec.flatten.getD i 0)
    rw [h2, h3 hi, h1]
    exact ⟨fun h => (hc.1 h).1, fun h => (hc.2 h).1⟩
  rw [hlen]
  refine ⟨?_, ?_, ?_, ?_⟩
  · intro i hi
    constructor
    · intro hne
      by_contra hnot
      exact hne ((key i hi).2 hnot)
    · intro hge
      rw [(key i hi).1 hge]
      omega
  · intro i j hij hj hlt
    have inv := cumulative_sum_inv threshold iovec.flatten
    have hmem : ∀ k, k < iovec.flatten.length →
        (iovec.flatten.foldl (cumulative_sum_tick threshold) cumulative_sum_init).out_data.getD
          k 0 ∈ (iovec.flatten.foldl (cumulative_sum_tick threshold)
            cumulative_sum_init).out_data := by
      intro k hk
      have hk' : k < (iovec.flatten.foldl (cumulative_sum_tick threshold)
          cumulative_sum_init).out_data.length := by rw [hlen]; exact hk
      rw [List.getD_eq_getElem?_getD, List.getElem?_eq_getElem hk']
      exact List.getElem_mem hk'
    have hi1 := (inv.2.2.1 _ (hmem i (by omega))).1
    have hj2 := (inv.2.2.1 _ (hmem j hj)).2
    exact inv.2.2.2.2 _ hi1 (by omega)
  · intro i hi heq
    by_contra hnot
    have := (key i hi).1 (not_lt.mp hnot)
    omega
  · intro i hi hge
    exact (key i hi).1 hge

/-! ## searchsorted: the two cursors -/

theorem cursor_init_at (iovec : IOVec Int) (h : NoEmptyLaterChunk iovec) :
    CursorAt iovec (cursor_init iovec) iovec.flatten := by
  unfold cursor_init CursorAt
  cases iovec with
  | nil => simp
  | cons ch tl =>
    unfold NoEmptyLaterChunk at h
    simp only [List.length_cons, gt_iff_lt, Nat.zero_lt_succ, if_true]
    refine ⟨by simp, by simp, ?_⟩
    simpa using h

/-- Reading at a cursor that stands in front of `x :: rest`: the "next binary" block
does not leave the loop, the read is inside the chunk and yields `x`, and after
`++bin_offset` the cursor stands in front of `rest`. -/
theorem cursor_next_bin_at (iovec : IOVec Int) (c : BinCursor) (x : Int) (rest : List Int)
    (h : CursorAt iovec c (x :: rest)) :
    (cursor_next_bin iovec c).2 = false ∧
    (cursor_next_bin iovec c).1.data.get? (cursor_next_bin iovec c).1.bin_offset = some x ∧
    CursorAt iovec (cursor_next_bin iovec c).1 (x :: rest) ∧
    CursorAt iovec
      { (cursor_next_bin iovec c).1 with
        bin_offset := (cursor_next_bin iovec c).1.bin_offset + 1 } rest := by
  obtain ⟨hsize, hrest, hne⟩ := h
  unfold cursor_next_bin
  by_cases hoff : c.bin_offset ≥ c.bin_size
  · rw [if_pos hoff]
    have hdrop : c.data.drop c.bin_offset = [] := by
      apply List.drop_eq_nil_of_le
      omega
    rw [hdrop, List.nil_append] at hrest
    cases hd : iovec.drop (c.bin_idx + 1) with
    | nil => rw [hd] at hrest; simp at hrest
    | cons ch tl =>
      rw [hd] at hrest hne
      have hlt : c.bin_idx + 1 < iovec.length := by
        by_contra hc
        rw [List.drop_eq_nil_of_le (by omega)] at hd
        exact List.noConfusion hd
      have hget : iovec.getD (c.bin_idx + 1) [] = ch := by
        have h1 : (iovec.drop (c.bin_idx + 1))[0]? = some ch := by rw [hd]; simp
        rw [List.getElem?_drop] at h1
        rw [List.getD_eq_getElem?_getD]
        simp only [Nat.add_zero] at h1
        rw [h1]; rfl
      have htl : iovec.drop (c.bin_idx + 1 + 1) = tl := by
        have := congrArg List.tail hd
        simpa [List.tail_drop] using this
      have hch : ch ≠ [] := hne ch (List.mem_cons_self _ _)
      dsimp only
      rw [if_pos hlt, hget]
      rw [List.flatten_cons] at hrest
      obtain ⟨y, ch', rfl⟩ := List.exists_cons_of_ne_nil hch
      have hy : y = x ∧ ch' ++ tl.flatten = rest := by
        simpa using hrest
      obtain ⟨rfl, hrest'⟩ := hy
      refine ⟨rfl, rfl, ⟨rfl, ?_, ?_⟩, ⟨rfl, ?_, ?_⟩⟩
      · simp [htl, hrest']
      · rw [htl]; intro c' hc'; exact hne c' (List.mem_cons_of_mem _ hc')
      · simp [htl, hrest']
      · rw [htl]; intro c' hc'; exact hne c' (List.mem_cons_of_mem _ hc')
  · rw [if_neg hoff]
    have hlt : c.bin_offset < c.data.length := by omega
    rw [List.drop_eq_getElem_cons hlt, List.cons_append] at hrest
    have hx : c.data[c.bin_offset] = x ∧
        c.data.drop (c.bin_offset + 1) ++ (iovec.drop (c.bin_idx + 1)).flatten = rest :=
      List.cons.inj hrest
    refine ⟨rfl, ?_, ⟨hsize, ?_, hne⟩, ⟨hsize, hx.2, hne⟩⟩
    · dsimp only
      rw [List.get?_eq_getElem?, List.getElem?_eq_getElem hlt, hx.1]
    · dsimp only
      rw [List.drop_eq_getElem_cons hlt, hx.1, List.cons_append, hx.2]

theorem int64_wrap_of_range (z : Int) (h1 : -2 ^ 63 ≤ z) (h2 : z < 2 ^ 63) :
    int64_wrap z = z := by
  unfold int64_wrap
  omega

theorem findIdx_append_boundary (p : Int → Bool) (a b : List Int)
    (ha : ∀ x ∈ a, p x = false) (hb : ∀ x, b.head? = some x → p x = true) :
    (a ++ b).findIdx p = a.length := by
  induction a with
  | nil =>
    cases b with
    | nil => rfl
    | cons x t =>
      rw [List.nil_append, List.findIdx_cons, hb x rfl]
      rfl
  | cons y a ih =>
    rw [List.cons_append, List.findIdx_cons, ha y (List.mem_cons_self _ _),
      ih (fun x hx => ha x (List.mem_cons_of_mem _ hx))]
    rfl

/-- The `while` loop of `searchsorted` started at a cursor in front of `rest`, with
`j` the number of haystack elements before `rest`: it returns, having skipped exactly
the leading elements of `rest` that are below the target. -/
theorem haystack_scan_spec (iovec : IOVec Int) (total : Nat) (target : Int) :
    ∀ (fuel j : Nat) (c : BinCursor) (rest : List Int),
      CursorAt iovec c rest → j + rest.length = total → total - j ≤ fuel →
      ∃ (j' : Nat) (c' : BinCursor) (pre rest' : List Int),
        haystack_scan iovec total target fuel j c = some (j', c') ∧
        rest = pre ++ rest' ∧ j' = j + pre.length ∧
        (∀ x ∈ pre, x < target) ∧ (∀ x, rest'.head? = some x → target ≤ x) ∧
        CursorAt iovec c' rest' := by
  intro fuel
  induction fuel with
  | zero =>
    intro j c rest hc hj hf
    have hr : rest = [] := List.eq_nil_of_length_eq_zero (by omega)
    subst hr
    exact ⟨j, c, [], [], rfl, rfl, rfl, by simp, by simp, hc⟩
  | succ fuel ih =>
    intro j c rest hc hj hf
    unfold haystack_scan
    by_cases hlt : j < total
    · rw [if_pos hlt]
      cases rest with
      | nil => simp at hj; omega
      | cons x rest =>
        obtain ⟨h1, h2, h3, h4⟩ := cursor_next_bin_at iovec c x rest hc
        dsimp only
        rw [h1, h2]
        simp only [Bool.false_eq_true, if_false]
        by_cases hx : x ≥ target
        · rw [if_pos hx]
          refine ⟨j, _, [], x :: rest, rfl, rfl, rfl, by simp, ?_, h3⟩
          intro y hy
          simp only [List.head?_cons, Option.some.injEq] at hy
          rw [← hy]; exact hx
        · rw [if_neg hx]
          obtain ⟨j', c', pre, rest', e1, e2, e3, e4, e5, e6⟩ :=
            ih (j + 1) _ rest h4 (by simp at hj; omega) (by omega)
          refine ⟨j', c', x :: pre, rest', e1, by rw [e2]; rfl, by simp [e3]; omega, ?_, e5, e6⟩
          intro y hy
          rw [List.mem_cons] at hy
          rcases hy with hy | hy
          · rw [hy]; exact not_le.mp hx
          · exact e4 y hy
    · rw [if_neg hlt]
      have hr : rest = [] := List.eq_nil_of_length_eq_zero (by omega)
      subst hr
      exact ⟨j, c, [], [], rfl, rfl, rfl, by simp, by simp, hc⟩

theorem left_insertion_point_spec (haystack : List Int) (t : Int) :
    IsLeftInsertionPoint haystack t (left_insertion_point haystack t : Nat) := by
  unfold IsLeftInsertionPoint left_insertion_point
  refine ⟨by positivity, by exact_mod_cast List.findIdx_le_length _, ?_, ?_⟩
  · intro k hk x hx
    have hk' : k < haystack.findIdx (fun x => decide (t ≤ x)) := by exact_mod_cast hk
    have hn := List.not_of_lt_findIdx hk'
    rw [List.get?_eq_getElem?] at hx
    have hlen : k < haystack.length :=
      lt_of_lt_of_le hk' (List.findIdx_le_length _)
    rw [List.getElem?_eq_getElem hlen, Option.some.injEq] at hx
    rw [hx] at hn
    simpa using hn
  · intro x hx
    rw [Int.toNat_ofNat, List.get?_eq_getElem?] at hx
    have hlen : haystack.findIdx (fun x => decide (t ≤ x)) < haystack.length := by
      by_contra hc
      rw [List.getElem?_eq_none (by omega)] at hx
      exact Option.noConfusion hx
    have hp := List.findIdx_getElem (p := fun x => decide (t ≤ x)) (w := hlen)
    rw [List.getElem?_eq_getElem hlen, Option.some.injEq] at hx
    rw [hx] at hp
    simpa using hp

/-- The `for` loop of `searchsorted` with `needles` still to search and `hay_pre` the
haystack elements already passed, all of them below every target to come: it returns
and appends the left insertion point of every remaining target. -/
theorem needle_loop_spec (iovec_A iovec_B : IOVec Int) (offset : Int) :
    ∀ (n : Nat) (needles : List Int) (ci : BinCursor) (j : Nat) (cj : BinCursor)
      (out_data : List Int) (hay_pre hay_rest : List Int),
      CursorAt iovec_A ci needles → needles.length = n →
      CursorAt iovec_B cj hay_rest → iovec_B.flatten = hay_pre ++ hay_rest →
      j = hay_pre.length → List.Pairwise (fun a b => a ≤ b) needles →
      (∀ x ∈ hay_pre, ∀ y ∈ needles, x < y + offset) →
      (∀ y ∈ needles, int64_wrap (y + offset) = y + offset) →
      needle_loop iovec_A iovec_B offset (total_num_values iovec_B) n ci j cj out_data
        = some (out_data ++ needles.map
            (fun y => ((left_insertion_point iovec_B.flatten (y + offset) : Nat) : Int))) := by
  intro n
  induction n with
  | zero =>
    intro needles ci j cj out_data hay_pre hay_rest _ hn _ _ _ _ _ _
    have : needles = [] := List.eq_nil_of_length_eq_zero hn
    subst this
    simp [needle_loop]
  | succ n ih =>
    intro needles ci j cj out_data hay_pre hay_rest hci hn hcj hhay hj hsorted hlow hwrap
    cases needles with
    | nil => simp at hn
    | cons y needles =>
      obtain ⟨h1, h2, _, h4⟩ := cursor_next_bin_at iovec_A ci y needles hci
      have htotal : j + hay_rest.length = total_num_values iovec_B := by
        rw [total_num_values_eq_length, hhay, List.length_append, hj]
      obtain ⟨j', cj', pre, rest', e1, e2, e3, e4, e5, e6⟩ :=
        haystack_scan_spec iovec_B (total_num_values iovec_B) (y + offset)
          (total_num_values iovec_B - j) j cj hay_rest hcj htotal (le_refl _)
      unfold needle_loop
      dsimp only
      rw [h1, h2]
      simp only [Bool.false_eq_true, if_false]
      rw [hwrap y (List.mem_cons_self _ _), e1]
      dsimp only
      have hlow' : ∀ x ∈ hay_pre ++ pre, x < y + offset := by
        intro x hx
        rw [List.mem_append] at hx
        rcases hx with hx | hx
        · exact hlow x hx y (List.mem_cons_self _ _)
        · exact e4 x hx
      have hidx : left_insertion_point iovec_B.flatten (y + offset) = j' := by
        unfold left_insertion_point
        rw [hhay, e2, ← List.append_assoc,
          findIdx_append_boundary _ (hay_pre ++ pre) rest'
            (fun x hx => by simpa using hlow' x hx)
            (fun x hx => by simpa using e5 x hx),
          List.length_append, e3, hj]
      rw [List.pairwise_cons] at hsorted
      rw [ih needles _ j' cj' _ (hay_pre ++ pre) rest' h4 (by simpa using hn) e6
        (by rw [hhay, e2, List.append_assoc]) (by rw [e3, hj, List.length_append])
        hsorted.2
        (fun x hx y' hy' => lt_of_lt_of_le (hlow' x hx)
          (by have := hsorted.1 y' hy'; omega))
        (fun y' hy' => hwrap y' (List.mem_cons_of_mem _ hy'))]
      rw [List.map_cons, hidx]
      simp

/-- The result of `searchsorted` for needles ascending and targets in range, whatever
the haystack: the left insertion point of every target, for a call with a haystack
and for a call without one. -/
theorem searchsorted_eq_map (iovec_A haystack : IOVec Int) (offset : Int)
    (iovec_B : Option (IOVec Int))
    (hB : (iovec_B = some haystack) ∨ (iovec_B = none ∧ haystack = iovec_A))
    (hA : NoEmptyLaterChunk iovec_A) (hH : NoEmptyLaterChunk haystack)
    (hsorted : List.Pairwise (fun a b => a ≤ b) iovec_A.flatten)
    (hrange : ∀ y ∈ iovec_A.flatten, -2 ^ 63 ≤ y + offset ∧ y + offset < 2 ^ 63) :
    searchsorted iovec_A offset iovec_B
      = some (iovec_A.flatten.map
          (fun y => ((left_insertion_point haystack.flatten (y + offset) : Nat) : Int))) := by
  have hspec := needle_loop_spec iovec_A haystack offset (total_num_values iovec_A)
    iovec_A.flatten (cursor_init iovec_A) 0 (cursor_init haystack) [] [] haystack.flatten
    (cursor_init_at iovec_A hA) (total_num_values_eq_length iovec_A).symm
    (cursor_init_at haystack hH) rfl rfl hsorted (by simp)
    (fun y hy => int64_wrap_of_range _ (hrange y hy).1 (hrange y hy).2)
  rw [List.nil_append] at hspec
  unfold searchsorted
  rcases hB with hB | ⟨hB, hH'⟩
  · subst hB
    exact hspec
  · subst hB
    subst hH'
    exact hspec

/-- C1: `searchsorted` returns the left insertion point.  For every ascending needles
sequence, every ascending haystack and every offset with `needle + offset` inside the
64-bit range, delivered in chunks of which none after the first is empty, the call
returns one entry per needle, and entry `i` is the smallest index `k` with
`haystack[k] ≥ needles[i] + offset`, or the haystack's length when there is none. -/
theorem searchsorted_left_insertion_point (iovec_A iovec_B : IOVec Int) (offset : Int)
    (hA : NoEmptyLaterChunk iovec_A) (hB : NoEmptyLaterChunk iovec_B)
    (hneedles : List.Pairwise (fun a b => a ≤ b) iovec_A.flatten)
    (_hhaystack : List.Pairwise (fun a b => a ≤ b) iovec_B.flatten)
    (hrange : ∀ y ∈ iovec_A.flatten, -2 ^ 63 ≤ y + offset ∧ y + offset < 2 ^ 63) :
    ∃ out_data, searchsorted iovec_A offset (some iovec_B) = some out_data ∧
      out_data.length = total_num_values iovec_A ∧
      ∀ i, i < total_num_values iovec_A →
        IsLeftInsertionPoint iovec_B.flatten (iovec_A.flatten.getD i 0 + offset)
          (out_data.getD i 0) := by
  refine ⟨_, searchsorted_eq_map iovec_A iovec_B offset (some iovec_B) (Or.inl rfl) hA hB
    hneedles hrange, ?_, ?_⟩
  · rw [List.length_map, total_num_values_eq_length]
  · intro i hi
    rw [total_num_values_eq_length] at hi
    have e1 : iovec_A.flatten.getD i 0 = iovec_A.flatten[i] := by
      rw [List.getD_eq_getElem?_getD, List.getElem?_eq_getElem hi]; rfl
    have e2 : (iovec_A.flatten.map (fun y =>
        ((left_insertion_point iovec_B.flatten (y + offset) : Nat) : Int))).getD i 0
        = ((left_insertion_point iovec_B.flatten (iovec_A.flatten[i] + offset) : Nat) : Int) := by
      rw [List.getD_eq_getElem?_getD, List.getElem?_map, List.getElem?_eq_getElem hi]; rfl
    rw [e1, e2]
    exact left_insertion_point_spec _ _

/-- Witness for C1: needles `5 | 10` against the haystack `1, 3 | 7, 10, 15` with
offset 0 give the insertion points 2 and 3. -/
theorem searchsorted_left_insertion_point_witness :
    NoEmptyLaterChunk [[5], [10]] ∧ NoEmptyLaterChunk [[1, 3], [7, 10, 15]] ∧
    List.Pairwise (fun a b => a ≤ b) ([[5], [10]] : IOVec Int).flatten ∧
    List.Pairwise (fun a b => a ≤ b) ([[1, 3], [7, 10, 15]] : IOVec Int).flatten ∧
    (∀ y ∈ ([[5], [10]] : IOVec Int).flatten, -2 ^ 63 ≤ y + 0 ∧ y + 0 < 2 ^ 63) ∧
    searchsorted [[5], [10]] 0 (some [[1, 3], [7, 10, 15]]) = some [2, 3] ∧
    ∃ out_data, searchsorted [[5], [10]] 0 (some [[1, 3], [7, 10, 15]]) = some out_data ∧
      out_data.length = total_num_values ([[5], [10]] : IOVec Int) ∧
      ∀ i, i < total_num_values ([[5], [10]] : IOVec Int) →
        IsLeftInsertionPoint ([[1, 3], [7, 10, 15]] : IOVec Int).flatten
          (([[5], [10]] : IOVec Int).flatten.getD i 0 + 0) (out_data.getD i 0) :=
  ⟨by simp [NoEmptyLaterChunk], by simp [NoEmptyLaterChunk], by decide, by decide,
    by decide, by decide,
    searchsorted_left_insertion_point [[5], [10]] [[1, 3], [7, 10, 15]] 0
      (by simp [NoEmptyLaterChunk]) (by simp [NoEmptyLaterChunk]) (by decide) (by decide)
      (by decide)⟩

/-! ## The examples of the specification -/

/-- C15: `searchsorted` on the examples of the specification: needles `5, 10` against
the haystack `1, 3, 7, 10, 15` with offset 0 give `2, 3`, and needles `0, 5` with
offset 5 against the same haystack give `2, 3`. -/
theorem searchsorted_examples :
    searchsorted [[5, 10]] 0 (some [[1, 3, 7, 10, 15]]) = some [2, 3] ∧
    searchsorted [[0, 5]] 5 (some [[1, 3, 7, 10, 15]]) = some [2, 3] := by
  constructor <;> decide

/-- C16: `cumulative_sum_with_reset` on the values `1, 1, 1` with threshold 2 returns
the labels `1, 1, 2`. -/
theorem cumulative_sum_with_reset_example :
    cumulative_sum_with_reset [[1, 1, 1]] 2 = [1, 1, 2] := by
  decide!

/-- C17: `symmetric_cumulative_sum_with_reset` on the values `3, -3, 3` with threshold
2 returns the event positions `0, 1, 2`. -/
theorem symmetric_cumulative_sum_with_reset_example :
    symmetric_cumulative_sum_with_reset [[3, -3, 3]] 2 = [0, 1, 2] := by
  decide!

/-- C18: the step rule of the symmetric detector.  With `csp' = max 0 (csp + v)` and
`csn' = min 0 (csn + v)`, the tick's position is appended to the output if and only
if `csn' < -threshold` or `csp' > threshold`; when `csn' < -threshold` only `csn` is
reset to 0 and `csp'` is kept (whether or not `csp' > threshold`); otherwise, when
`csp' > threshold`, only `csp` is reset to 0 and `csn'` is kept; and the position
counter advances by one in every case. -/
theorem symmetric_cumulative_sum_step_rule (threshold : ℚ) (s : SymCumSumState) (v : ℚ) :
    ((min 0 (s.cumulative_sum_negative + v) < -threshold ∨
        max 0 (s.cumulative_sum_positive + v) > threshold) →
      (symmetric_cumulative_sum_tick threshold s v).out_data
        = s.out_data ++ [(s.global_index : Int)]) ∧
    (¬ (min 0 (s.cumulative_sum_negative + v) < -threshold ∨
        max 0 (s.cumulative_sum_positive + v) > threshold) →
      (symmetric_cumulative_sum_tick threshold s v).out_data = s.out_data ∧
      (symmetric_cumulative_sum_tick threshold s v).cumulative_sum_positive
        = max 0 (s.cumulative_sum_positive + v) ∧
      (symmetric_cumulative_sum_tick threshold s v).cumulative_sum_negative
        = min 0 (s.cumulative_sum_negative + v)) ∧
    (min 0 (s.cumulative_sum_negative + v) < -threshold →
      (symmetric_cumulative_sum_tick threshold s v).cumulative_sum_negative = 0 ∧
      (symmetric_cumulative_sum_tick threshold s v).cumulative_sum_positive
        = max 0 (s.cumulative_sum_positive + v)) ∧
    (¬ min 0 (s.cumulative_sum_negative + v) < -threshold →
      max 0 (s.cumulative_sum_positive + v) > threshold →
      (symmetric_cumulative_sum_tick threshold s v).cumulative_sum_positive = 0 ∧
      (symmetric_cumulative_sum_tick threshold s v).cumulative_sum_negative
        = min 0 (s.cumulative_sum_negative + v)) ∧
    (symmetric_cumulative_sum_tick threshold s v).global_index = s.global_index + 1 := by
  unfold symmetric_cumulative_sum_tick
  dsimp only
  by_cases h1 : min 0 (s.cumulative_sum_negative + v) < -threshold
  · rw [if_pos h1]
    exact ⟨fun _ => rfl, fun h => absurd (Or.inl h1) h, fun _ => ⟨rfl, rfl⟩,
      fun h => absurd h1 h, rfl⟩
  · rw [if_neg h1]
    by_cases h2 : max 0 (s.cumulative_sum_positive + v) > threshold
    · rw [if_pos h2]
      exact ⟨fun _ => rfl, fun h => absurd (Or.inr h2) h, fun h => absurd h h1,
        fun _ _ => ⟨rfl, rfl⟩, rfl⟩
    · rw [if_neg h2]
      refine ⟨fun h => ?_, fun _ => ⟨rfl, rfl, rfl⟩, fun h => absurd h h1,
        fun _ h => absurd h h2, rfl⟩
      rcases h with h | h
      · exact absurd h h1
      · exact absurd h h2

/-! ## The EWMA estimator -/

theorem ewma_weighted_sum_succ (v : List ℚ) (k : Nat) (alpha : ℚ) :
    ewma_weighted_sum v (k + 2) alpha
      = ewma_weighted_sum v (k + 1) alpha * (1 - alpha) + v.getD (k + 1) 0 := by
  unfold ewma_weighted_sum
  rw [Finset.sum_range_succ _ (k + 1), Finset.sum_mul]
  congr 1
  · apply Finset.sum_congr rfl
    intro i hi
    rw [Finset.mem_range] at hi
    have e : k + 2 - 1 - i = (k + 1 - 1 - i) + 1 := by omega
    rw [e, pow_succ, mul_assoc]
  · have e : k + 2 - 1 - (k + 1) = 0 := by omega
    rw [e, pow_zero, mul_one]

/-- The loop of `calculate_ewma` after the indices `1 .. k`: the numerator is the
weighted sum of the first `k + 1` entries and the weight is their weight sum. -/
theorem calculate_ewma_loop (values : List ℚ) (alpha : ℚ) :
    ∀ k : Nat,
      (List.range' 1 k).foldl (calculate_ewma_step values alpha)
          { ewma_old := values.getD 0 0, weight := 1, ewma_value := values.getD 0 0 / 1 }
        = { ewma_old := ewma_weighted_sum values (k + 1) alpha,
            weight := ewma_weight_sum (k + 1) alpha,
            ewma_value := ewma_weighted_sum values (k + 1) alpha
              / ewma_weight_sum (k + 1) alpha } := by
  intro k
  induction k with
  | zero =>
    simp [ewma_weighted_sum, ewma_weight_sum]
  | succ k ih =>
    rw [List.range'_1_concat, List.foldl_append, ih, List.foldl_cons, List.foldl_nil]
    unfold calculate_ewma_step
    dsimp only
    have hw : ewma_weight_sum (k + 1) alpha + (1 - alpha) ^ (1 + k)
        = ewma_weight_sum (k + 1 + 1) alpha := by
      unfold ewma_weight_sum
      rw [Finset.sum_range_succ _ (k + 1), Nat.add_comm 1 k]
    have hn : ewma_weighted_sum values (k + 1) alpha * (1 - alpha) + values.getD (1 + k) 0
        = ewma_weighted_sum values (k + 1 + 1) alpha := by
      rw [ewma_weighted_sum_succ, Nat.add_comm 1 k]
    rw [hw, hn]

theorem calculate_ewma_eq (values : List ℚ) (size : Nat) (alpha : ℚ) (h : 0 < size) :
    calculate_ewma values size alpha
      = ewma_weighted_sum values size alpha / ewma_weight_sum size alpha := by
  unfold calculate_ewma
  rw [if_neg (by omega)]
  dsimp only
  rw [calculate_ewma_loop values alpha (size - 1)]
  have e : size - 1 + 1 = size := by omega
  rw [e]

/-- C19: the EWMA estimator in exact arithmetic.  `calculate_ewma` returns 0 for an
empty slice; for every non-empty slice `v[0..n-1]` and every `alpha` whose weight sum
is non-zero it returns `(sum of v[i] * (1-alpha)^(n-1-i)) / (sum over i < n of
(1-alpha)^i)`; and one step of its loop is the recurrence
`numerator := numerator * (1-alpha) + element`, `weight := weight + (1-alpha)^i`,
estimate `numerator / weight`. -/
theorem calculate_ewma_closed_form (values : List ℚ) (alpha : ℚ) (hne : values ≠ [])
    (hw : ewma_weight_sum values.length alpha ≠ 0) :
    (∀ memory : List ℚ, calculate_ewma memory 0 alpha = 0) ∧
    calculate_ewma values values.length alpha
      = ewma_weighted_sum values values.length alpha / ewma_weight_sum values.length alpha ∧
    calculate_ewma values values.length alpha * ewma_weight_sum values.length alpha
      = ewma_weighted_sum values values.length alpha ∧
    (∀ (s : EwmaState) (i : Nat),
      (calculate_ewma_step values alpha s i).ewma_old
        = s.ewma_old * (1 - alpha) + values.getD i 0 ∧
      (calculate_ewma_step values alpha s i).weight = s.weight + (1 - alpha) ^ i ∧
      (calculate_ewma_step values alpha s i).ewma_value
        = (calculate_ewma_step values alpha s i).ewma_old
          / (calculate_ewma_step values alpha s i).weight) := by
  have hpos : 0 < values.length := List.length_pos.mpr hne
  have heq := calculate_ewma_eq values values.length alpha hpos
  refine ⟨fun memory => by simp [calculate_ewma], heq, ?_, fun s i => ⟨rfl, rfl, rfl⟩⟩
  rw [heq, div_mul_cancel₀ _ hw]

/-- Witness for C19: the slice `1, 2, 3` with `alpha = 1/2` has weight sum `7/4`. -/
theorem calculate_ewma_closed_form_witness :
    ([1, 2, 3] : List ℚ) ≠ [] ∧
    ewma_weight_sum ([1, 2, 3] : List ℚ).length (1 / 2) ≠ 0 ∧
    calculate_ewma [1, 2, 3] ([1, 2, 3] : List ℚ).length (1 / 2)
      = ewma_weighted_sum [1, 2, 3] ([1, 2, 3] : List ℚ).length (1 / 2)
        / ewma_weight_sum ([1, 2, 3] : List ℚ).length (1 / 2) ∧
    calculate_ewma [1, 2, 3] 3 (1 / 2) = 17 / 7 :=
  ⟨by simp, by norm_num [ewma_weight_sum, Finset.sum_range_succ],
    (calculate_ewma_closed_form [1, 2, 3] (1 / 2) (by simp)
      (by norm_num [ewma_weight_sum, Finset.sum_range_succ])).2.1,
    by decide!⟩

/-! ## The expected-value window estimator -/

theorem size_t_of_int_of_nonneg (n : Int) (h0 : 0 ≤ n) (h1 : n < 2 ^ 64) :
    size_t_of_int n = n.toNat := by
  unfold size_t_of_int
  rw [Int.emod_eq_of_lt h0 h1]

/-- C20: the expected-value window estimator.  For every history and every window
`0 ≤ window` (a C `int`), `get_expected_imbalance` is `calculate_ewma` applied to
exactly the last `min(size, window)` entries of the history with
`alpha = 2 / (min(size, window) + 1)`; when `size < window` that is the whole
history, and when `min(size, window) = 0` the result is 0. -/
theorem get_expected_imbalance_window (history : List ℚ) (window : Int) (h0 : 0 ≤ window)
    (h1 : window < 2 ^ 64) :
    get_expected_imbalance history history.length window
      = calculate_ewma (history.drop (history.length - min history.length window.toNat))
          (min history.length window.toNat)
          (2 / (((min history.length window.toNat : Nat) : ℚ) + 1)) ∧
    (history.drop (history.length - min history.length window.toNat)).length
      = min history.length window.toNat ∧
    (history.length < window.toNat →
      get_expected_imbalance history history.length window
        = calculate_ewma history history.length (2 / ((history.length : ℚ) + 1))) ∧
    (min history.length window.toNat = 0 →
      get_expected_imbalance history history.length window = 0) := by
  have hmain : get_expected_imbalance history history.length window
      = calculate_ewma (history.drop (history.length - min history.length window.toNat))
          (min history.length window.toNat)
          (2 / (((min history.length window.toNat : Nat) : ℚ) + 1)) := by
    unfold get_expected_imbalance
    rw [size_t_of_int_of_nonneg window h0 h1]
    dsimp only
    by_cases hlt : history.length < window.toNat
    · rw [if_pos hlt, if_neg (by omega), min_eq_left (le_of_lt hlt)]
      simp
    · rw [if_neg hlt, if_pos (by omega), min_eq_right (by omega)]
      have e : history.length - (history.length - window.toNat) = window.toNat := by omega
      rw [e]
  refine ⟨hmain, ?_, ?_, ?_⟩
  · rw [List.length_drop]
    omega
  · intro hlt
    rw [hmain, min_eq_left (le_of_lt hlt)]
    simp
  · intro hz
    rw [hmain, hz]
    simp [calculate_ewma]

/-- Witness for C20: a history of five entries and a window of 3. -/
theorem get_expected_imbalance_window_witness :
    (0 : Int) ≤ 3 ∧ (3 : Int) < 2 ^ 64 ∧
    get_expected_imbalance [1, 2, 3, 4, 5] ([1, 2, 3, 4, 5] : List ℚ).length 3
      = calculate_ewma
          (([1, 2, 3, 4, 5] : List ℚ).drop
            (([1, 2, 3, 4, 5] : List ℚ).length
              - min ([1, 2, 3, 4, 5] : List ℚ).length (3 : Int).toNat))
          (min ([1, 2, 3, 4, 5] : List ℚ).length (3 : Int).toNat)
          (2 / (((min ([1, 2, 3, 4, 5] : List ℚ).length (3 : Int).toNat : Nat) : ℚ) + 1)) ∧
    get_expected_imbalance [1, 2, 3, 4, 5] 5 3 = calculate_ewma [3, 4, 5] 3 (1 / 2) :=
  ⟨by decide, by decide,
    (get_expected_imbalance_window [1, 2, 3, 4, 5] 3 (by decide) (by decide)).1,
    by decide!⟩

/-! ## searchsorted as a sweep over the concatenated sequences -/

theorem takeWhile_dropWhile_boundary (p : Int → Bool) (pre rest : List Int)
    (hpre : ∀ x ∈ pre, p x = true) (hrest : ∀ x, rest.head? = some x → p x = false) :
    (pre ++ rest).takeWhile p = pre ∧ (pre ++ rest).dropWhile p = rest := by
  induction pre with
  | nil =>
    cases rest with
    | nil => exact ⟨rfl, rfl⟩
    | cons x t =>
      have hx := hrest x rfl
      simp [List.takeWhile_cons, List.dropWhile_cons, hx]
  | cons y pre ih =>
    have hy := hpre y (List.mem_cons_self _ _)
    obtain ⟨h1, h2⟩ := ih (fun x hx => hpre x (List.mem_cons_of_mem _ hx))
    simp [List.takeWhile_cons, List.dropWhile_cons, hy, h1, h2]

/-- The `for` loop of `searchsorted` over chunkings it can walk is the two-pointer
sweep over the concatenated sequences, whatever the order of the elements. -/
theorem needle_loop_sweep (iovec_A iovec_B : IOVec Int) (offset : Int) (total_B : Nat) :
    ∀ (n : Nat) (needles : List Int) (ci : BinCursor) (j : Nat) (cj : BinCursor)
      (out_data : List Int) (hay_rest : List Int),
      CursorAt iovec_A ci needles → needles.length = n →
      CursorAt iovec_B cj hay_rest → j + hay_rest.length = total_B →
      needle_loop iovec_A iovec_B offset total_B n ci j cj out_data
        = some (out_data ++ two_pointer_sweep offset needles j hay_rest) := by
  intro n
  induction n with
  | zero =>
    intro needles ci j cj out_data hay_rest _ hn _ _
    have : needles = [] := List.eq_nil_of_length_eq_zero hn
    subst this
    simp [needle_loop, two_pointer_sweep]
  | succ n ih =>
    intro needles ci j cj out_data hay_rest hci hn hcj htotal
    cases needles with
    | nil => simp at hn
    | cons y needles =>
      obtain ⟨h1, h2, _, h4⟩ := cursor_next_bin_at iovec_A ci y needles hci
      obtain ⟨j', cj', pre, rest', e1, e2, e3, e4, e5, e6⟩ :=
        haystack_scan_spec iovec_B total_B (int64_wrap (y + offset))
          (total_B - j) j cj hay_rest hcj htotal (le_refl _)
      obtain ⟨t1, t2⟩ := takeWhile_dropWhile_boundary
        (fun x => decide (x < int64_wrap (y + offset))) pre rest'
        (fun x hx => by simpa using e4 x hx)
        (fun x hx => by simpa using e5 x hx)
      unfold needle_loop
      dsimp only
      rw [h1, h2]
      simp only [Bool.false_eq_true, if_false]
      rw [e1]
      dsimp only
      rw [ih needles _ j' cj' _ rest' h4 (by simpa using hn) e6
        (by rw [e2, List.length_append] at htotal; omega)]
      subst e2
      simp only [two_pointer_sweep, t1, t2, ← e3]
      simp

theorem noEmptyLaterChunk_single (l : List Int) : NoEmptyLaterChunk [l] := by
  unfold NoEmptyLaterChunk
  simp

/-- A call of `searchsorted` whose chunkings have no empty chunk after the first
returns, and returns the sweep over the concatenated sequences. -/
theorem searchsorted_eq_sweep (iovec_A iovec_B : IOVec Int) (offset : Int)
    (hA : NoEmptyLaterChunk iovec_A) (hB : NoEmptyLaterChunk iovec_B) :
    searchsorted iovec_A offset (some iovec_B)
      = some (two_pointer_sweep offset iovec_A.flatten 0 iovec_B.flatten) := by
  have h := needle_loop_sweep iovec_A iovec_B offset (total_num_values iovec_B)
    (total_num_values iovec_A) iovec_A.flatten (cursor_init iovec_A) 0 (cursor_init iovec_B)
    [] iovec_B.flatten (cursor_init_at iovec_A hA) (total_num_values_eq_length iovec_A).symm
    (cursor_init_at iovec_B hB) (by rw [total_num_values_eq_length]; simp)
  rw [List.nil_append] at h
  unfold searchsorted
  exact h

/-- Chunk invariance of `searchsorted` for chunkings with no empty chunk after the
first: the result is the one on the two concatenated single-chunk sequences. -/
theorem searchsorted_chunk_invariance_nonempty (iovec_A iovec_B : IOVec Int) (offset : Int)
    (hA : NoEmptyLaterChunk iovec_A) (hB : NoEmptyLaterChunk iovec_B) :
    searchsorted iovec_A offset (some iovec_B)
      = searchsorted [iovec_A.flatten] offset (some [iovec_B.flatten]) := by
  rw [searchsorted_eq_sweep iovec_A iovec_B offset hA hB,
    searchsorted_eq_sweep [iovec_A.flatten] [iovec_B.flatten] offset
      (noEmptyLaterChunk_single _) (noEmptyLaterChunk_single _)]
  simp

/-- The positions recorded by the sweep never decrease and stay between the starting
position and the end of the haystack. -/
theorem two_pointer_sweep_monotone (offset : Int) :
    ∀ (needles : List Int) (j : Nat) (rest : List Int),
      (∀ r ∈ two_pointer_sweep offset needles j rest,
        (j : Int) ≤ r ∧ r ≤ ((j + rest.length : Nat) : Int)) ∧
      List.Pairwise (fun a b => a ≤ b) (two_pointer_sweep offset needles j rest) ∧
      (two_pointer_sweep offset needles j rest).length = needles.length := by
  intro needles
  induction needles with
  | nil => intro j rest; simp [two_pointer_sweep]
  | cons y needles ih =>
    intro j rest
    have hlen : (rest.takeWhile (fun x => decide (x < int64_wrap (y + offset)))).length
        + (rest.dropWhile (fun x => decide (x < int64_wrap (y + offset)))).length
        = rest.length := by
      rw [← List.length_append, List.takeWhile_append_dropWhile]
    obtain ⟨ih1, ih2, ih3⟩ :=
      ih (j + (rest.takeWhile (fun x => decide (x < int64_wrap (y + offset)))).length)
        (rest.dropWhile (fun x => decide (x < int64_wrap (y + offset))))
    simp only [two_pointer_sweep]
    refine ⟨?_, ?_, by simp [ih3]⟩
    · intro r hr
      rw [List.mem_cons] at hr
      rcases hr with hr | hr
      · rw [hr]
        constructor
        · exact_mod_cast Nat.le_add_right _ _
        · exact_mod_cast (by omega : j + (rest.takeWhile
            (fun x => decide (x < int64_wrap (y + offset)))).length ≤ j + rest.length)
      · have := ih1 r hr
        constructor
        · refine le_trans ?_ this.1
          exact_mod_cast Nat.le_add_right _ _
        · refine le_trans this.2 ?_
          exact_mod_cast (by omega : j + (rest.takeWhile
            (fun x => decide (x < int64_wrap (y + offset)))).length
            + (rest.dropWhile (fun x => decide (x < int64_wrap (y + offset)))).length
            ≤ j + rest.length)
    · rw [List.pairwise_cons]
      exact ⟨fun r hr => (ih1 r hr).1, ih2⟩

/-- C13: for every ascending needles sequence, every ascending haystack and every
offset, delivered in chunks of which none after the first is empty, the result of
`searchsorted` has one entry per needle, is non-decreasing in needle order, and every
entry lies between 0 and the haystack's length inclusive. -/
theorem searchsorted_monotone_bounded (iovec_A iovec_B : IOVec Int) (offset : Int)
    (hA : NoEmptyLaterChunk iovec_A) (hB : NoEmptyLaterChunk iovec_B)
    (_hneedles : List.Pairwise (fun a b => a ≤ b) iovec_A.flatten)
    (_hhaystack : List.Pairwise (fun a b => a ≤ b) iovec_B.flatten) :
    ∃ out_data, searchsorted iovec_A offset (some iovec_B) = some out_data ∧
      out_data.length = total_num_values iovec_A ∧
      List.Pairwise (fun a b => a ≤ b) out_data ∧
      ∀ r ∈ out_data, 0 ≤ r ∧ r ≤ (total_num_values iovec_B : Int) := by
  obtain ⟨h1, h2, h3⟩ := two_pointer_sweep_monotone offset iovec_A.flatten 0 iovec_B.flatten
  refine ⟨_, searchsorted_eq_sweep iovec_A iovec_B offset hA hB, ?_, h2, ?_⟩
  · rw [h3, total_num_values_eq_length]
  · intro r hr
    have := h1 r hr
    rw [total_num_values_eq_length]
    simpa using this

/-- Witness for C13: needles `0 | 5, 20` with offset 5 against the haystack
`1, 3 | 7, 10, 15` give the non-decreasing positions `2, 3, 5`. -/
theorem searchsorted_monotone_bounded_witness :
    NoEmptyLaterChunk [[0], [5, 20]] ∧ NoEmptyLaterChunk [[1, 3], [7, 10, 15]] ∧
    List.Pairwise (fun a b => a ≤ b) ([[0], [5, 20]] : IOVec Int).flatten ∧
    List.Pairwise (fun a b => a ≤ b) ([[1, 3], [7, 10, 15]] : IOVec Int).flatten ∧
    searchsorted [[0], [5, 20]] 5 (some [[1, 3], [7, 10, 15]]) = some [2, 3, 5] ∧
    ∃ out_data, searchsorted [[0], [5, 20]] 5 (some [[1, 3], [7, 10, 15]]) = some out_data ∧
      out_data.length = total_num_values ([[0], [5, 20]] : IOVec Int) ∧
      List.Pairwise (fun a b => a ≤ b) out_data ∧
      ∀ r ∈ out_data, 0 ≤ r ∧ r ≤ (total_num_values ([[1, 3], [7, 10, 15]] : IOVec Int) : Int) :=
  ⟨by simp [NoEmptyLaterChunk], by simp [NoEmptyLaterChunk], by decide, by decide, by decide,
    searchsorted_monotone_bounded [[0], [5, 20]] [[1, 3], [7, 10, 15]] 5
      (by simp [NoEmptyLaterChunk]) (by simp [NoEmptyLaterChunk]) (by decide) (by decide)⟩

/-- In a strictly ascending list the left insertion point of the entry at index `i`
is `i`. -/
theorem left_insertion_point_self (l : List Int) (hl : List.Pairwise (fun a b => a < b) l)
    (i : Nat) (hi : i < l.length) :
    left_insertion_point l l[i] = i := by
  unfold left_insertion_point
  have hlen : (l.take i).length = i := by rw [List.length_take]; omega
  have hb := findIdx_append_boundary (fun x => decide (l[i] ≤ x)) (l.take i) (l.drop i)
    (by
      intro x hx
      rw [List.mem_take_iff_getElem] at hx
      obtain ⟨k, hk, rfl⟩ := hx
      have hki : k < i := by omega
      have := (List.pairwise_iff_getElem.mp hl) k i (by omega) hi hki
      simpa using this)
    (by
      intro x hx
      rw [List.head?_drop, List.getElem?_eq_getElem hi, Option.some.injEq] at hx
      simp [hx])
  rw [List.take_append_drop, hlen] at hb
  exact hb

/-- C14: self-search.  For every needles sequence and offset, `searchsorted` called
without a haystack returns the same output as `searchsorted` called with the needles
sequence itself as the haystack; for the needles `1, 2, 3` and offset 0 this is
`0, 1, 2`; and for strictly ascending needles (64-bit values, in chunks of which none
after the first is empty) with offset 0 it is `0, 1, ..., n - 1`. -/
theorem searchsorted_self_search (iovec_A : IOVec Int) (offset : Int) :
    searchsorted iovec_A offset none = searchsorted iovec_A offset (some iovec_A) ∧
    searchsorted [[1, 2, 3]] 0 none = some [0, 1, 2] ∧
    (NoEmptyLaterChunk iovec_A → List.Pairwise (fun a b => a < b) iovec_A.flatten →
      (∀ y ∈ iovec_A.flatten, -2 ^ 63 ≤ y ∧ y < 2 ^ 63) →
      searchsorted iovec_A 0 none
        = some ((List.range (total_num_values iovec_A)).map (fun (k : Nat) => (k : Int)))) := by
  refine ⟨rfl, by decide, ?_⟩
  intro hA hstrict hrange
  rw [searchsorted_eq_map iovec_A iovec_A 0 none (Or.inr ⟨rfl, rfl⟩) hA hA
    (hstrict.imp (fun h => le_of_lt h))
    (fun y hy => by simpa using hrange y hy)]
  congr 1
  apply List.ext_getElem
  · rw [List.length_map, List.length_map, List.length_range, total_num_values_eq_length]
  · intro n h1 h2
    have hn : n < iovec_A.flatten.length := by rw [List.length_map] at h1; exact h1
    rw [List.getElem_map, List.getElem_map, List.getElem_range, add_zero,
      left_insertion_point_self _ hstrict n hn]

/-! ## Chunk byte lengths -/

/-- C11 (failure): with an empty chunk between two non-empty chunks `searchsorted`
does not return the result of the concatenated call.  After the needle `1` of the
chunk `[1]` the "move to next binary" block steps to the empty chunk (`bin_size = 0`,
`bin_offset = 0`, no `break`), and the read `i_data[0]` that follows lies outside that
chunk; the call on the concatenated single chunk returns `0, 1, 2`.  The same happens
when the haystack is the sequence delivered with the empty chunk. -/
theorem searchsorted_empty_chunk_reads_outside :
    cursor_next_bin [[1], [], [2, 3]]
        { bin_idx := 0, bin_offset := 1, bin_size := 1, data := [1] }
      = ({ bin_idx := 1, bin_offset := 0, bin_size := 0, data := [] }, false) ∧
    searchsorted [[1], [], [2, 3]] 0 (some [[1, 2, 3]]) = none ∧
    searchsorted [[1, 2, 3]] 0 (some [[1], [], [2, 3]]) = none ∧
    searchsorted [([[1], [], [2, 3]] : IOVec Int).flatten] 0
        (some [([[1, 2, 3]] : IOVec Int).flatten]) = some [0, 1, 2] := by
  refine ⟨by decide, by decide, by decide, by decide⟩

theorem sysIOVec_data_eq_values {α : Type} (c : SysIOVec α) : c.data = c.values := by
  unfold SysIOVec.data SysIOVec.iov_len
  apply List.take_of_length_le
  have := c.leftover.isLt
  omega

theorem map_data_eq_map_values {α : Type} (iovec : List (SysIOVec α)) :
    iovec.map SysIOVec.data = iovec.map SysIOVec.values :=
  List.map_congr_left (fun c _ => sysIOVec_data_eq_values c)

/-- The whole elements of all chunks fit into `iovec->size / 8` entries. -/
theorem whole_elements_le_size {α : Type} (iovec : List (SysIOVec α)) :
    total_num_values (iovec.map SysIOVec.values) ≤ iovec_size iovec / 8 := by
  rw [Nat.le_div_iff_mul_le (by decide)]
  unfold total_num_values iovec_size
  induction iovec with
  | nil => simp
  | cons c t ih =>
    simp only [List.map_cons, List.sum_cons]
    have hc : c.iov_len = 8 * c.values.length + c.leftover.val := rfl
    omega

/-- Counterexample to C12: two chunks of 12 bytes each (one whole value and four
leftover bytes) are not rejected.  Every sampler returns a binary, the labelling
samplers and `searchsorted` one of `24 / 8 = 3` entries of which the third was never
written; no call returns `badarg`. -/
theorem malformed_chunks_not_rejected :
    (∃ c ∈ ([⟨[1], 4⟩, ⟨[1], 4⟩] : List (SysIOVec ℚ)), c.iov_len % 8 ≠ 0) ∧
    (∃ c ∈ ([⟨[1], 4⟩, ⟨[2], 4⟩] : List (SysIOVec Int)), c.iov_len % 8 ≠ 0) ∧
    cumulative_sum_with_reset_nif [⟨[1], 4⟩, ⟨[1], 4⟩] 2
      = NifResult.binary [some 1, some 1, none] ∧
    symmetric_cumulative_sum_with_reset_nif [⟨[1], 4⟩, ⟨[1], 4⟩] 0
      = NifResult.binary [some 0, some 1] ∧
    compute_imbalance_bars_nif [⟨[1], 4⟩, ⟨[1], 4⟩] 3 5 3 (1, 10) true
      = NifResult.binary [some 0, some 0, none] ∧
    compute_run_bars_nif [⟨[1], 4⟩, ⟨[1], 4⟩] 3 5 3 (1, 10) true
      = NifResult.binary [some 0, some 0, none] ∧
    searchsorted_nif [⟨[1], 4⟩, ⟨[2], 4⟩] 0 none
      = NifResult.binary [some 0, some 1, none] := by
  refine ⟨by decide, by decide, by decide!, by decide!, by decide!, by decide!, by decide⟩

/-- C12 (amended): chunk byte lengths are not validated.  For every decoded call,
whatever the byte lengths of the chunks, none of the five operations returns
`badarg`.  Each chunk contributes its `iov_len / 8` whole elements and its leftover
bytes are ignored: `cumulative_sum_with_reset`, `compute_imbalance_bars` and
`compute_run_bars` return a binary of `iovec->size / 8` entries that starts with the
labels of the whole elements, one per element, which never exceed the binary;
`symmetric_cumulative_sum_with_reset` returns exactly the events of the whole
elements. -/
theorem leftover_bytes_ignored (iovec : List (SysIOVec ℚ)) (threshold : ℚ)
    (num_prev_bars : Int) (expected_imbalance_window expected_num_ticks : ℚ)
    (constraints : ℚ × ℚ) (ema_bars : Bool) (iovec_A : List (SysIOVec Int)) (offset : Int)
    (iovec_B : Option (List (SysIOVec Int))) :
    total_num_values (iovec.map SysIOVec.values) ≤ iovec_size iovec / 8 ∧
    (cumulative_sum_with_reset_nif iovec threshold
        = output_binary (iovec_size iovec / 8)
            (cumulative_sum_with_reset (iovec.map SysIOVec.values) threshold) ∧
      (cumulative_sum_with_reset (iovec.map SysIOVec.values) threshold).length
        = total_num_values (iovec.map SysIOVec.values)) ∧
    symmetric_cumulative_sum_with_reset_nif iovec threshold
      = NifResult.binary
          ((symmetric_cumulative_sum_with_reset (iovec.map SysIOVec.values) threshold).map
            some) ∧
    (compute_imbalance_bars_nif iovec num_prev_bars expected_imbalance_window
          expected_num_ticks constraints ema_bars
        = output_binary (iovec_size iovec / 8)
            (compute_imbalance_bars (iovec.map SysIOVec.values) num_prev_bars
              expected_imbalance_window expected_num_ticks constraints ema_bars) ∧
      (compute_imbalance_bars (iovec.map SysIOVec.values) num_prev_bars
          expected_imbalance_window expected_num_ticks constraints ema_bars).length
        = total_num_values (iovec.map SysIOVec.values)) ∧
    (compute_run_bars_nif iovec num_prev_bars expected_imbalance_window
          expected_num_ticks constraints ema_bars
        = output_binary (iovec_size iovec / 8)
            (compute_run_bars (iovec.map SysIOVec.values) num_prev_bars
              expected_imbalance_window expected_num_ticks constraints ema_bars) ∧
      (compute_run_bars (iovec.map SysIOVec.values) num_prev_bars
          expected_imbalance_window expected_num_ticks constraints ema_bars).length
        = total_num_values (iovec.map SysIOVec.values)) ∧
    (cumulative_sum_with_reset_nif iovec threshold ≠ NifResult.badarg ∧
      symmetric_cumulative_sum_with_reset_nif iovec threshold ≠ NifResult.badarg ∧
      compute_imbalance_bars_nif iovec num_prev_bars expected_imbalance_window
        expected_num_ticks constraints ema_bars ≠ NifResult.badarg ∧
      compute_run_bars_nif iovec num_prev_bars expected_imbalance_window
        expected_num_ticks constraints ema_bars ≠ NifResult.badarg ∧
      searchsorted_nif iovec_A offset iovec_B ≠ NifResult.badarg) := by
  have hd := map_data_eq_map_values iovec
  have hl1 := (cumulative_sum_labelsOK (iovec.map SysIOVec.values) threshold).2
  have hl2 := (imbalance_labelsOK (iovec.map SysIOVec.values) num_prev_bars
    expected_imbalance_window expected_num_ticks constraints ema_bars).2
  have hl3 := (run_labelsOK (iovec.map SysIOVec.values) num_prev_bars
    expected_imbalance_window expected_num_ticks constraints ema_bars).2
  rw [← total_num_values_eq_length] at hl1 hl2 hl3
  have hs : searchsorted_nif iovec_A offset iovec_B ≠ NifResult.badarg := by
    unfold searchsorted_nif
    dsimp only
    split
    · exact fun h => NifResult.noConfusion h
    · unfold output_binary
      exact fun h => NifResult.noConfusion h
  unfold cumulative_sum_with_reset_nif symmetric_cumulative_sum_with_reset_nif
    compute_imbalance_bars_nif compute_run_bars_nif
  rw [hd]
  refine ⟨whole_elements_le_size iovec, ⟨rfl, hl1⟩, rfl, ⟨rfl, hl2⟩, ⟨rfl, hl3⟩, ?_, ?_, ?_, ?_, hs⟩
  all_goals
    first
      | (unfold output_binary; exact fun h => NifResult.noConfusion h)
      | exact fun h => NifResult.noConfusion h

/-! ## The EWMA estimator as a convex combination -/

theorem ewma_weight_sum_ge_one (n : Nat) (alpha : ℚ) (hn : 0 < n) (h1 : alpha ≤ 1) :
    1 ≤ ewma_weight_sum n alpha := by
  unfold ewma_weight_sum
  obtain ⟨m, rfl⟩ : ∃ m, n = m + 1 := ⟨n - 1, by omega⟩
  rw [Finset.sum_range_succ', pow_zero]
  have hb : (0 : ℚ) ≤ 1 - alpha := by linarith
  have : 0 ≤ Finset.sum (Finset.range m) (fun i => (1 - alpha) ^ (i + 1)) :=
    Finset.sum_nonneg (fun i _ => pow_nonneg hb _)
  linarith

theorem ewma_weight_sum_reflect (n : Nat) (alpha : ℚ) :
    Finset.sum (Finset.range n) (fun i => (1 - alpha) ^ (n - 1 - i)) = ewma_weight_sum n alpha := by
  unfold ewma_weight_sum
  exact Finset.sum_range_reflect (fun i => (1 - alpha) ^ i) n

theorem ewma_weighted_sum_ge (v : List ℚ) (n : Nat) (alpha lo : ℚ) (h1 : alpha ≤ 1)
    (hlo : ∀ i, i < n → lo ≤ v.getD i 0) :
    lo * ewma_weight_sum n alpha ≤ ewma_weighted_sum v n alpha := by
  have hb : (0 : ℚ) ≤ 1 - alpha := by linarith
  rw [← ewma_weight_sum_reflect, Finset.mul_sum]
  unfold ewma_weighted_sum
  apply Finset.sum_le_sum
  intro i hi
  rw [Finset.mem_range] at hi
  exact mul_le_mul_of_nonneg_right (hlo i hi) (pow_nonneg hb _)

theorem ewma_weighted_sum_le (v : List ℚ) (n : Nat) (alpha hi : ℚ) (h1 : alpha ≤ 1)
    (hhi : ∀ i, i < n → v.getD i 0 ≤ hi) :
    ewma_weighted_sum v n alpha ≤ hi * ewma_weight_sum n alpha := by
  have hb : (0 : ℚ) ≤ 1 - alpha := by linarith
  rw [← ewma_weight_sum_reflect, Finset.mul_sum]
  unfold ewma_weighted_sum
  apply Finset.sum_le_sum
  intro i hi'
  rw [Finset.mem_range] at hi'
  exact mul_le_mul_of_nonneg_right (hhi i hi') (pow_nonneg hb _)

/-- With `alpha ≤ 1` the estimate over `size ≥ 1` entries lies between any lower and
upper bound of those entries. -/
theorem calculate_ewma_between (values : List ℚ) (size : Nat) (alpha lo hi : ℚ)
    (hsize : 0 < size) (h1 : alpha ≤ 1)
    (hb : ∀ i, i < size → lo ≤ values.getD i 0 ∧ values.getD i 0 ≤ hi) :
    lo ≤ calculate_ewma values size alpha ∧ calculate_ewma values size alpha ≤ hi := by
  have hw : 0 < ewma_weight_sum size alpha :=
    lt_of_lt_of_le one_pos (ewma_weight_sum_ge_one size alpha hsize h1)
  rw [calculate_ewma_eq values size alpha hsize]
  constructor
  · rw [le_div_iff₀ hw]
    exact ewma_weighted_sum_ge values size alpha lo h1 (fun i hi' => (hb i hi').1)
  · rw [div_le_iff₀ hw]
    exact ewma_weighted_sum_le values size alpha hi h1 (fun i hi' => (hb i hi').2)

theorem getD_mem_of_lt (values : List ℚ) (i : Nat) (hi : i < values.length) :
    values.getD i 0 ∈ values := by
  rw [List.getD_eq_getElem?_getD, List.getElem?_eq_getElem hi]
  exact List.getElem_mem hi

/-- C28: the EWMA is a convex combination (exact arithmetic).  For every non-empty
slice and every `alpha` with `0 < alpha ≤ 1`, the weight accumulator of
`calculate_ewma` is at least 1 after any number of loop iterations (so no division is
by zero), and the value returned lies between the minimum and the maximum of the
slice; in particular a slice whose entries all equal `c` yields `c`. -/
theorem calculate_ewma_convex (values : List ℚ) (alpha : ℚ) (hne : values ≠ [])
    (_h0 : 0 < alpha) (h1 : alpha ≤ 1) :
    (∀ k : Nat,
      1 ≤ ((List.range' 1 k).foldl (calculate_ewma_step values alpha)
        { ewma_old := values.getD 0 0, weight := 1,
          ewma_value := values.getD 0 0 / 1 }).weight) ∧
    values.minimum_of_length_pos (List.length_pos.mpr hne)
      ≤ calculate_ewma values values.length alpha ∧
    calculate_ewma values values.length alpha
      ≤ values.maximum_of_length_pos (List.length_pos.mpr hne) ∧
    (∀ c : ℚ, (∀ v ∈ values, v = c) → calculate_ewma values values.length alpha = c) := by
  have hpos : 0 < values.length := List.length_pos.mpr hne
  refine ⟨?_, ?_, ?_, ?_⟩
  · intro k
    rw [calculate_ewma_loop values alpha k]
    exact ewma_weight_sum_ge_one (k + 1) alpha (Nat.succ_pos k) h1
  · exact (calculate_ewma_between values values.length alpha _ _ hpos h1 (fun i hi =>
      ⟨List.minimum_of_length_pos_le_of_mem (getD_mem_of_lt values i hi) hpos,
        List.le_maximum_of_length_pos_of_mem (getD_mem_of_lt values i hi) hpos⟩)).1
  · exact (calculate_ewma_between values values.length alpha _ _ hpos h1 (fun i hi =>
      ⟨List.minimum_of_length_pos_le_of_mem (getD_mem_of_lt values i hi) hpos,
        List.le_maximum_of_length_pos_of_mem (getD_mem_of_lt values i hi) hpos⟩)).2
  · intro c hc
    have := calculate_ewma_between values values.length alpha c c hpos h1 (fun i hi => by
      rw [hc _ (getD_mem_of_lt values i hi)]
      exact ⟨le_refl c, le_refl c⟩)
    exact le_antisymm this.2 this.1

/-- Witness for C28: the slice `1, 2, 3` with `alpha = 1/2` gives `17/7`, between 1
and 3. -/
theorem calculate_ewma_convex_witness :
    ([1, 2, 3] : List ℚ) ≠ [] ∧ (0 : ℚ) < 1 / 2 ∧ (1 / 2 : ℚ) ≤ 1 ∧
    calculate_ewma [1, 2, 3] 3 (1 / 2) = 17 / 7 ∧
    ([1, 2, 3] : List ℚ).minimum_of_length_pos (List.length_pos.mpr (by simp))
      ≤ calculate_ewma [1, 2, 3] ([1, 2, 3] : List ℚ).length (1 / 2) ∧
    calculate_ewma [1, 2, 3] ([1, 2, 3] : List ℚ).length (1 / 2)
      ≤ ([1, 2, 3] : List ℚ).maximum_of_length_pos (List.length_pos.mpr (by simp)) :=
  ⟨by simp, by norm_num, by norm_num, by decide!,
    (calculate_ewma_convex [1, 2, 3] (1 / 2) (by simp) (by norm_num) (by norm_num)).2.1,
    (calculate_ewma_convex [1, 2, 3] (1 / 2) (by simp) (by norm_num) (by norm_num)).2.2.1⟩

/-! ## The recalibration slice and the recalibration alpha -/

theorem imbalance_recalibrate_start (n : Int) (cmin cmax : ℚ) (history : List ℚ)
    (index : Nat) (cum_ticks : Int) :
    imbalance_recalibrate n cmin cmax history index cum_ticks
      = (history ++ [(cum_ticks : ℚ)], index + 1,
          min cmax (max (calculate_ewma
            ((history ++ [(cum_ticks : ℚ)]).drop (imbalance_window_start (index + 1) n))
            (index + 1 - imbalance_window_start (index + 1) n)
            (num_prev_bars_alpha n)) cmin)) := rfl

theorem run_recalibrate_start (n : Int) (cmin cmax : ℚ) (history : List ℚ)
    (index : Nat) (cum_ticks : Int) :
    run_recalibrate n cmin cmax history index cum_ticks
      = (history ++ [(cum_ticks : ℚ)], index + 1,
          min cmax (max (calculate_ewma
            ((history ++ [(cum_ticks : ℚ)]).drop (run_window_start (index + 1) n))
            (index + 1 - run_window_start (index + 1) n)
            (num_prev_bars_alpha n)) cmin)) := rfl

theorem window_start_eq (count : Nat) (n : Int) :
    run_window_start count n = imbalance_window_start count n := by
  unfold run_window_start imbalance_window_start
  split_ifs <;> omega

/-- Counterexample to C21: there is no history count and no `num_prev_bars` for which
the start index of the run bar sampler differs from the start index of the imbalance
bar sampler. -/
theorem window_starts_never_differ :
    ¬ ∃ (count : Nat) (num_prev_bars : Int),
      run_window_start count num_prev_bars ≠ imbalance_window_start count num_prev_bars := by
  rintro ⟨count, n, h⟩
  exact h (window_start_eq count n)

/-- C21 (amended): the two samplers test `count >= num_prev_bars` and
`count > num_prev_bars`, but for every history count and every `num_prev_bars` the
two start indices are equal (at `count = num_prev_bars` both are 0), also when the
comparison and the subtraction are read over the integers, and the two samplers
recalibrate `expected_num_ticks` over the same slice, to the same value. -/
theorem window_starts_agree (count : Nat) (num_prev_bars : Int) :
    run_window_start count num_prev_bars = imbalance_window_start count num_prev_bars ∧
    (∀ c n : Int, (if c ≥ n then c - n else 0) = (if c > n then c - n else 0)) ∧
    (∀ (cmin cmax : ℚ) (history : List ℚ) (cum_ticks : Int),
      run_recalibrate num_prev_bars cmin cmax history count cum_ticks
        = imbalance_recalibrate num_prev_bars cmin cmax history count cum_ticks) := by
  refine ⟨window_start_eq count num_prev_bars, ?_, ?_⟩
  · intro c n
    split_ifs <;> omega
  · intro cmin cmax history cum_ticks
    rw [run_recalibrate_start, imbalance_recalibrate_start, window_start_eq]

/-- Counterexample to C22: for `num_prev_bars = -2`, which is `≤ -1`, the denominator
`num_prev_bars + 1` is `-1`, not 0, and the alpha is the finite number `-2`. -/
theorem alpha_denominator_nonzero_at_minus_two :
    (-2 : Int) ≤ -1 ∧ num_prev_bars_alpha_denominator (-2) = -1 ∧
    num_prev_bars_alpha_denominator (-2) ≠ 0 ∧ num_prev_bars_alpha (-2) = -2 := by
  refine ⟨by decide, ?_, ?_, ?_⟩ <;>
    norm_num [num_prev_bars_alpha, num_prev_bars_alpha_denominator]

/-- C22 (amended): the denominator `num_prev_bars + 1` of the recalibration alpha is 0
exactly for `num_prev_bars = -1`; for every `num_prev_bars ≤ -2` it is negative and
the alpha `2 / (num_prev_bars + 1)` is a finite number with `-2 ≤ alpha < 0`.  Both
samplers use this alpha in their recalibration. -/
theorem alpha_denominator_zero_iff (num_prev_bars : Int) :
    (num_prev_bars_alpha_denominator num_prev_bars = 0 ↔ num_prev_bars = -1) ∧
    (num_prev_bars ≤ -2 →
      num_prev_bars_alpha_denominator num_prev_bars < 0 ∧
      num_prev_bars_alpha num_prev_bars * num_prev_bars_alpha_denominator num_prev_bars = 2 ∧
      -2 ≤ num_prev_bars_alpha num_prev_bars ∧ num_prev_bars_alpha num_prev_bars < 0) ∧
    (∀ (cmin cmax : ℚ) (history : List ℚ) (index : Nat) (cum_ticks : Int),
      (imbalance_recalibrate num_prev_bars cmin cmax history index cum_ticks).2.2
        = min cmax (max (calculate_ewma
            ((history ++ [(cum_ticks : ℚ)]).drop (imbalance_window_start (index + 1)
              num_prev_bars))
            (index + 1 - imbalance_window_start (index + 1) num_prev_bars)
            (num_prev_bars_alpha num_prev_bars)) cmin) ∧
      (run_recalibrate num_prev_bars cmin cmax history index cum_ticks).2.2
        = min cmax (max (calculate_ewma
            ((history ++ [(cum_ticks : ℚ)]).drop (run_window_start (index + 1)
              num_prev_bars))
            (index + 1 - run_window_start (index + 1) num_prev_bars)
            (num_prev_bars_alpha num_prev_bars)) cmin)) := by
  refine ⟨?_, ?_, fun cmin cmax history index cum_ticks => ⟨rfl, rfl⟩⟩
  · unfold num_prev_bars_alpha_denominator
    constructor
    · intro h
      have h' : ((num_prev_bars + 1 : Int) : ℚ) = 0 := by push_cast; exact h
      have := Int.cast_eq_zero.mp h'
      omega
    · intro h
      rw [h]
      norm_num
  · intro h
    have hd : num_prev_bars_alpha_denominator num_prev_bars ≤ -1 := by
      unfold num_prev_bars_alpha_denominator
      have : (num_prev_bars : ℚ) ≤ -2 := by exact_mod_cast h
      linarith
    have hneg : num_prev_bars_alpha_denominator num_prev_bars < 0 := by linarith
    refine ⟨hneg, ?_, ?_, ?_⟩
    · unfold num_prev_bars_alpha
      rw [div_mul_cancel₀ _ (ne_of_lt hneg)]
    · unfold num_prev_bars_alpha
      rw [le_div_iff_of_neg hneg]
      linarith
    · unfold num_prev_bars_alpha
      exact div_neg_of_pos_of_neg (by norm_num) hneg

/-! ## searchsorted: shifting the needles by the offset -/

theorem two_pointer_sweep_shift (offset : Int) :
    ∀ (needles : List Int) (j : Nat) (rest : List Int),
      (∀ y ∈ needles, -2 ^ 63 ≤ y + offset ∧ y + offset < 2 ^ 63) →
      two_pointer_sweep offset needles j rest
        = two_pointer_sweep 0 (needles.map (fun y => y + offset)) j rest := by
  intro needles
  induction needles with
  | nil => intro j rest _; rfl
  | cons y needles ih =>
    intro j rest h
    have hy := h y (List.mem_cons_self _ _)
    have e1 : int64_wrap (y + offset) = y + offset := int64_wrap_of_range _ hy.1 hy.2
    have e2 : int64_wrap (y + offset + 0) = y + offset := by
      rw [add_zero]; exact e1
    simp only [List.map_cons, two_pointer_sweep, e1, e2]
    rw [ih _ _ (fun y' hy' => h y' (List.mem_cons_of_mem _ hy'))]

/-- C23: offset shift.  For every needles sequence, haystack and offset with
`needle + offset` inside the 64-bit range (sequences delivered in chunks of which none
after the first is empty), `searchsorted(needles, offset, haystack)` equals
`searchsorted(needles', 0, haystack)` for the needles `needles'[i] = needles[i] + offset`;
for example the needles `0, 5` with offset 5 give the same result as the needles
`5, 10` with offset 0. -/
theorem searchsorted_offset_shift (iovec_A iovec_A' iovec_B : IOVec Int) (offset : Int)
    (hA : NoEmptyLaterChunk iovec_A) (hA' : NoEmptyLaterChunk iovec_A')
    (hB : NoEmptyLaterChunk iovec_B)
    (hshift : iovec_A'.flatten = iovec_A.flatten.map (fun y => y + offset))
    (hrange : ∀ y ∈ iovec_A.flatten, -2 ^ 63 ≤ y + offset ∧ y + offset < 2 ^ 63) :
    searchsorted iovec_A offset (some iovec_B) = searchsorted iovec_A' 0 (some iovec_B) ∧
    searchsorted [[0, 5]] 5 (some [[1, 3, 7, 10, 15]])
      = searchsorted [[5, 10]] 0 (some [[1, 3, 7, 10, 15]]) := by
  refine ⟨?_, by decide⟩
  rw [searchsorted_eq_sweep iovec_A iovec_B offset hA hB,
    searchsorted_eq_sweep iovec_A' iovec_B 0 hA' hB, hshift,
    two_pointer_sweep_shift offset _ _ _ hrange]

/-- Witness for C23: the needles `0 | 5` with offset 5 and the needles `5, 10` with
offset 0 against the haystack `1, 3 | 7, 10, 15`. -/
theorem searchsorted_offset_shift_witness :
    NoEmptyLaterChunk [[0], [5]] ∧ NoEmptyLaterChunk [[5, 10]] ∧
    NoEmptyLaterChunk [[1, 3], [7, 10, 15]] ∧
    ([[5, 10]] : IOVec Int).flatten
      = ([[0], [5]] : IOVec Int).flatten.map (fun y => y + 5) ∧
    (∀ y ∈ ([[0], [5]] : IOVec Int).flatten, -2 ^ 63 ≤ y + 5 ∧ y + 5 < 2 ^ 63) ∧
    searchsorted [[0], [5]] 5 (some [[1, 3], [7, 10, 15]])
      = searchsorted [[5, 10]] 0 (some [[1, 3], [7, 10, 15]]) :=
  ⟨by simp [NoEmptyLaterChunk], by simp [NoEmptyLaterChunk], by simp [NoEmptyLaterChunk],
    by decide, by decide,
    (searchsorted_offset_shift [[0], [5]] [[5, 10]] [[1, 3], [7, 10, 15]] 5
      (by simp [NoEmptyLaterChunk]) (by simp [NoEmptyLaterChunk])
      (by simp [NoEmptyLaterChunk]) (by decide) (by decide)).1⟩

/-! ## searchsorted over an unsorted haystack -/

/-- Counterexample to C25: the ascending needles `3, 2^63 - 1` with offset 1 against
the haystack `0, 5`.  The second target `2^63 - 1 + 1` leaves the 64-bit range and
wraps to `-2^63`; the call returns `1, 1`, but 1 is not the smallest index with
`haystack[k] ≥ 2^63` (there is none, so that is the length 2), nor the smallest index
with `haystack[k] ≥ -2^63` (that is 0). -/
theorem searchsorted_overflowing_target :
    List.Pairwise (fun a b => a ≤ b) ([[3, 9223372036854775807]] : IOVec Int).flatten ∧
    searchsorted [[3, 9223372036854775807]] 1 (some [[0, 5]]) = some [1, 1] ∧
    ¬ IsLeftInsertionPoint ([[0, 5]] : IOVec Int).flatten (9223372036854775807 + 1) 1 ∧
    ¬ IsLeftInsertionPoint ([[0, 5]] : IOVec Int).flatten
        (int64_wrap (9223372036854775807 + 1)) 1 := by
  refine ⟨by decide, by decide, ?_, ?_⟩
  · intro h
    have := h.2.2.2 5 (by decide)
    omega
  · intro h
    have := h.2.2.1 0 (by decide) 0 (by decide)
    have e : int64_wrap (9223372036854775807 + 1) = -9223372036854775808 := by decide
    rw [e] at this
    omega

/-- C25 (amended): `searchsorted` needs only the needles to be ascending.  For every
ascending needles sequence, every offset with `needle + offset` inside the 64-bit
range and every haystack, sorted or not (sequences delivered in chunks of which none
after the first is empty), the call returns one entry per needle and entry `i` is the
smallest index `k` with `haystack[k] ≥ needles[i] + offset`, or the haystack's length
if there is none. -/
theorem searchsorted_unsorted_haystack (iovec_A iovec_B : IOVec Int) (offset : Int)
    (hA : NoEmptyLaterChunk iovec_A) (hB : NoEmptyLaterChunk iovec_B)
    (hneedles : List.Pairwise (fun a b => a ≤ b) iovec_A.flatten)
    (hrange : ∀ y ∈ iovec_A.flatten, -2 ^ 63 ≤ y + offset ∧ y + offset < 2 ^ 63) :
    ∃ out_data, searchsorted iovec_A offset (some iovec_B) = some out_data ∧
      out_data.length = total_num_values iovec_A ∧
      ∀ i, i < total_num_values iovec_A →
        IsLeftInsertionPoint iovec_B.flatten (iovec_A.flatten.getD i 0 + offset)
          (out_data.getD i 0) := by
  refine ⟨_, searchsorted_eq_map iovec_A iovec_B offset (some iovec_B) (Or.inl rfl) hA hB
    hneedles hrange, ?_, ?_⟩
  · rw [List.length_map, total_num_values_eq_length]
  · intro i hi
    rw [total_num_values_eq_length] at hi
    have e1 : iovec_A.flatten.getD i 0 = iovec_A.flatten[i] := by
      rw [List.getD_eq_getElem?_getD, List.getElem?_eq_getElem hi]; rfl
    have e2 : (iovec_A.flatten.map (fun y =>
        ((left_insertion_point iovec_B.flatten (y + offset) : Nat) : Int))).getD i 0
        = ((left_insertion_point iovec_B.flatten (iovec_A.flatten[i] + offset) : Nat) : Int) := by
      rw [List.getD_eq_getElem?_getD, List.getElem?_map, List.getElem?_eq_getElem hi]; rfl
    rw [e1, e2]
    exact left_insertion_point_spec _ _

/-- Witness for C25: the needles `2 | 6` against the unsorted haystack `5, 1 | 7` give
the positions `0, 2`. -/
theorem searchsorted_unsorted_haystack_witness :
    NoEmptyLaterChunk [[2], [6]] ∧ NoEmptyLaterChunk [[5, 1], [7]] ∧
    List.Pairwise (fun a b => a ≤ b) ([[2], [6]] : IOVec Int).flatten ∧
    (∀ y ∈ ([[2], [6]] : IOVec Int).flatten, -2 ^ 63 ≤ y + 0 ∧ y + 0 < 2 ^ 63) ∧
    ¬ List.Pairwise (fun a b => a ≤ b) ([[5, 1], [7]] : IOVec Int).flatten ∧
    searchsorted [[2], [6]] 0 (some [[5, 1], [7]]) = some [0, 2] ∧
    ∃ out_data, searchsorted [[2], [6]] 0 (some [[5, 1], [7]]) = some out_data ∧
      out_data.length = total_num_values ([[2], [6]] : IOVec Int) ∧
      ∀ i, i < total_num_values ([[2], [6]] : IOVec Int) →
        IsLeftInsertionPoint ([[5, 1], [7]] : IOVec Int).flatten
          (([[2], [6]] : IOVec Int).flatten.getD i 0 + 0) (out_data.getD i 0) :=
  ⟨by simp [NoEmptyLaterChunk], by simp [NoEmptyLaterChunk], by decide, by decide,
    by decide, by decide,
    searchsorted_unsorted_haystack [[2], [6]] [[5, 1], [7]] 0
      (by simp [NoEmptyLaterChunk]) (by simp [NoEmptyLaterChunk]) (by decide) (by decide)⟩

/-! ## Symmetric detector: the threshold band -/

/-- In the band, a tick that fires the negative branch cannot fire the positive one. -/
theorem symmetric_not_both (threshold : ℚ) (s : SymCumSumState) (v : ℚ)
    (hs : SymWithinBand threshold s) (h0 : 0 ≤ threshold) :
    ¬ (min 0 (s.cumulative_sum_negative + v) < -threshold ∧
      max 0 (s.cumulative_sum_positive + v) > threshold) := by
  obtain ⟨h1, h2, h3, h4⟩ := hs
  rintro ⟨hn, hp⟩
  have hv : s.cumulative_sum_negative + v < -threshold := by
    rcases min_lt_iff.mp hn with h | h
    · linarith
    · exact h
  have hp' : threshold < s.cumulative_sum_positive + v := by
    rcases lt_max_iff.mp hp with h | h
    · linarith
    · exact h
  linarith

theorem symmetric_tick_band (threshold : ℚ) (s : SymCumSumState) (v : ℚ)
    (hs : SymWithinBand threshold s) (h0 : 0 ≤ threshold) :
    SymWithinBand threshold (symmetric_cumulative_sum_tick threshold s v) := by
  have hnb := symmetric_not_both threshold s v hs h0
  unfold symmetric_cumulative_sum_tick SymWithinBand
  dsimp only
  by_cases hn : min 0 (s.cumulative_sum_negative + v) < -threshold
  · rw [if_pos hn]
    have hp : ¬ max 0 (s.cumulative_sum_positive + v) > threshold := fun hp => hnb ⟨hn, hp⟩
    exact ⟨le_max_left _ _, not_lt.mp hp, neg_nonpos.mpr h0, le_refl 0⟩
  · rw [if_neg hn]
    by_cases hp : max 0 (s.cumulative_sum_positive + v) > threshold
    · rw [if_pos hp]
      exact ⟨le_refl 0, h0, not_lt.mp hn, min_le_left _ _⟩
    · rw [if_neg hp]
      exact ⟨le_max_left _ _, not_lt.mp hp, not_lt.mp hn, min_le_left _ _⟩

theorem symmetric_tick_swapped_eq (threshold : ℚ) (s : SymCumSumState) (v : ℚ)
    (hs : SymWithinBand threshold s) (h0 : 0 ≤ threshold) :
    symmetric_cumulative_sum_tick_swapped threshold s v
      = symmetric_cumulative_sum_tick threshold s v := by
  have hnb := symmetric_not_both threshold s v hs h0
  unfold symmetric_cumulative_sum_tick symmetric_cumulative_sum_tick_swapped
  dsimp only
  by_cases hn : min 0 (s.cumulative_sum_negative + v) < -threshold
  · have hp : ¬ max 0 (s.cumulative_sum_positive + v) > threshold := fun hp => hnb ⟨hn, hp⟩
    simp only [hn, hp, if_true, if_false]
  · by_cases hp : max 0 (s.cumulative_sum_positive + v) > threshold
    · simp only [hn, hp, if_true, if_false]
    · simp only [hn, hp, if_true, if_false]

theorem symmetric_init_band (threshold : ℚ) (h0 : 0 ≤ threshold) :
    SymWithinBand threshold symmetric_cumulative_sum_init := by
  unfold SymWithinBand symmetric_cumulative_sum_init
  exact ⟨le_refl 0, h0, neg_nonpos.mpr h0, le_refl 0⟩

theorem symmetric_foldl_swapped_eq (threshold : ℚ) (h0 : 0 ≤ threshold) :
    ∀ (vs : List ℚ) (s : SymCumSumState), SymWithinBand threshold s →
      vs.foldl (symmetric_cumulative_sum_tick_swapped threshold) s
        = vs.foldl (symmetric_cumulative_sum_tick threshold) s := by
  intro vs
  induction vs with
  | nil => intro s _; rfl
  | cons v vs ih =>
    intro s hs
    rw [List.foldl_cons, List.foldl_cons, symmetric_tick_swapped_eq threshold s v hs h0]
    exact ih _ (symmetric_tick_band threshold s v hs h0)

/-- C24: the symmetric detector with `threshold ≥ 0` (exact arithmetic).  After any
number `k` of ticks `0 ≤ csp ≤ threshold` and `-threshold ≤ csn ≤ 0`; for no next tick
value do both firing conditions, taken after the update, hold together; and testing
the two branches in the opposite order gives the same output. -/
theorem symmetric_cumulative_sum_band (iovec : IOVec ℚ) (threshold : ℚ)
    (h0 : 0 ≤ threshold) :
    (∀ k : Nat,
      0 ≤ (symmetric_cumulative_sum_loop threshold symmetric_cumulative_sum_init
        [iovec.flatten.take k]).cumulative_sum_positive ∧
      (symmetric_cumulative_sum_loop threshold symmetric_cumulative_sum_init
        [iovec.flatten.take k]).cumulative_sum_positive ≤ threshold ∧
      -threshold ≤ (symmetric_cumulative_sum_loop threshold symmetric_cumulative_sum_init
        [iovec.flatten.take k]).cumulative_sum_negative ∧
      (symmetric_cumulative_sum_loop threshold symmetric_cumulative_sum_init
        [iovec.flatten.take k]).cumulative_sum_negative ≤ 0) ∧
    (∀ (k : Nat) (v : ℚ),
      ¬ (min 0 ((symmetric_cumulative_sum_loop threshold symmetric_cumulative_sum_init
            [iovec.flatten.take k]).cumulative_sum_negative + v) < -threshold ∧
        max 0 ((symmetric_cumulative_sum_loop threshold symmetric_cumulative_sum_init
            [iovec.flatten.take k]).cumulative_sum_positive + v) > threshold)) ∧
    symmetric_cumulative_sum_with_reset_swapped iovec threshold
      = symmetric_cumulative_sum_with_reset iovec threshold := by
  have hband : ∀ k : Nat, SymWithinBand threshold
      (symmetric_cumulative_sum_loop threshold symmetric_cumulative_sum_init
        [iovec.flatten.take k]) := by
    intro k
    rw [symmetric_cumulative_sum_loop_flatten]
    unfold symmetric_cumulative_sum_bin
    exact foldl_preserves (SymWithinBand threshold) _
      (fun s v hs => symmetric_tick_band threshold s v hs h0) _ _
      (symmetric_init_band threshold h0)
  refine ⟨hband, fun k v => symmetric_not_both threshold _ v (hband k) h0, ?_⟩
  unfold symmetric_cumulative_sum_with_reset_swapped symmetric_cumulative_sum_with_reset
  rw [symmetric_cumulative_sum_loop_flatten, ← List.foldl_flatten]
  unfold symmetric_cumulative_sum_bin
  rw [symmetric_foldl_swapped_eq threshold h0 _ _ (symmetric_init_band threshold h0)]

/-- Witness for C24: the stream `3, -3 | 3` with threshold 2. -/
theorem symmetric_cumulative_sum_band_witness :
    (0 : ℚ) ≤ 2 ∧
    symmetric_cumulative_sum_with_reset_swapped [[3, -3], [3]] 2
      = symmetric_cumulative_sum_with_reset [[3, -3], [3]] 2 ∧
    symmetric_cumulative_sum_with_reset [[3, -3], [3]] 2 = [0, 1, 2] :=
  ⟨by norm_num,
    (symmetric_cumulative_sum_band [[3, -3], [3]] 2 (by norm_num)).2.2,
    by decide!⟩

/-! ## Run bars: the divisions by `cum_ticks` -/

theorem run_accumulate_counts (s : RunState) (val : ℚ) :
    (run_accumulate s val).cum_ticks = s.cum_ticks + 1 ∧
    ((run_accumulate s val).buy_ticks_num = s.buy_ticks_num ∨
      (run_accumulate s val).buy_ticks_num = s.buy_ticks_num + 1) := by
  unfold run_accumulate
  dsimp only
  split_ifs <;> simp

theorem run_warmup_steps_counts (w : ℚ) (s : RunState) :
    (run_warmup_sell w (run_warmup_buy w s)).cum_ticks = s.cum_ticks ∧
    (run_warmup_sell w (run_warmup_buy w s)).buy_ticks_num = s.buy_ticks_num ∧
    (run_warmup w s).cum_ticks = s.cum_ticks ∧
    (run_warmup w s).buy_ticks_num = s.buy_ticks_num := by
  unfold run_warmup run_warmup_both run_warmup_sell run_warmup_buy
  split_ifs <;> simp

theorem run_close_counts (n : Int) (w cmin cmax : ℚ) (ema_bars : Bool) (s : RunState) :
    ((run_close n w cmin cmax ema_bars s).cum_ticks = s.cum_ticks ∧
      (run_close n w cmin cmax ema_bars s).buy_ticks_num = s.buy_ticks_num) ∨
    ((run_close n w cmin cmax ema_bars s).cum_ticks = 0 ∧
      (run_close n w cmin cmax ema_bars s).buy_ticks_num = 0) := by
  unfold run_close
  dsimp only
  split_ifs <;> simp

theorem run_accumulate_safe (s : RunState) (val : ℚ) (hs : RunCounts s) :
    1 ≤ (run_accumulate s val).cum_ticks ∧ 0 ≤ (run_accumulate s val).buy_ticks_num ∧
    (run_accumulate s val).buy_ticks_num ≤ (run_accumulate s val).cum_ticks := by
  obtain ⟨h1, h2⟩ := hs
  obtain ⟨a1, a2⟩ := run_accumulate_counts s val
  rw [a1]
  rcases a2 with a2 | a2 <;> rw [a2] <;> omega

theorem run_tick_counts (n : Int) (w cmin cmax : ℚ) (ema_bars : Bool) (s : RunState)
    (val : ℚ) (hs : RunCounts s) :
    RunCounts (run_tick n w cmin cmax ema_bars s val) := by
  have ha := run_accumulate_safe s val hs
  have hw := run_warmup_steps_counts w (run_accumulate s val)
  have hc := run_close_counts n w cmin cmax ema_bars (run_warmup w (run_accumulate s val))
  unfold run_tick RunCounts
  dsimp only
  rcases hc with ⟨c1, c2⟩ | ⟨c1, c2⟩
  · rw [c1, c2, hw.2.2.1, hw.2.2.2]
    exact ⟨ha.2.1, ha.2.2⟩
  · rw [c1, c2]
    exact ⟨le_refl 0, le_refl 0⟩

theorem run_init_counts (e : ℚ) : RunCounts (run_init e) := by
  unfold RunCounts run_init
  exact ⟨le_refl 0, le_refl 0⟩

/-- C27: division safety of the run bar sampler.  In every state reached after any
number `k` of ticks and for every next tick value, once the tick has been counted
(lines 279-292) `1 ≤ cum_ticks` and `0 ≤ buy_ticks_num ≤ cum_ticks` hold, so the
quotient `buy_ticks_num / cum_ticks` lies in `[0, 1]`; the warm-up block evaluates its
division (line 308) and the closing block its division (line 340) with exactly these
counters. -/
theorem run_bars_division_safe (iovec : IOVec ℚ) (num_prev_bars : Int)
    (expected_imbalance_window expected_num_ticks : ℚ) (constraints : ℚ × ℚ)
    (ema_bars : Bool) (k : Nat) (v : ℚ) :
    (1 ≤ (run_accumulate (run_final [iovec.flatten.take k] num_prev_bars
        expected_imbalance_window expected_num_ticks constraints ema_bars) v).cum_ticks ∧
      0 ≤ (run_accumulate (run_final [iovec.flatten.take k] num_prev_bars
        expected_imbalance_window expected_num_ticks constraints ema_bars) v).buy_ticks_num ∧
      (run_accumulate (run_final [iovec.flatten.take k] num_prev_bars
        expected_imbalance_window expected_num_ticks constraints ema_bars) v).buy_ticks_num
        ≤ (run_accumulate (run_final [iovec.flatten.take k] num_prev_bars
          expected_imbalance_window expected_num_ticks constraints ema_bars) v).cum_ticks) ∧
    (0 ≤ ((run_accumulate (run_final [iovec.flatten.take k] num_prev_bars
          expected_imbalance_window expected_num_ticks constraints ema_bars) v).buy_ticks_num
          : ℚ)
        / ((run_accumulate (run_final [iovec.flatten.take k] num_prev_bars
          expected_imbalance_window expected_num_ticks constraints ema_bars) v).cum_ticks : ℚ) ∧
      ((run_accumulate (run_final [iovec.flatten.take k] num_prev_bars
          expected_imbalance_window expected_num_ticks constraints ema_bars) v).buy_ticks_num
          : ℚ)
        / ((run_accumulate (run_final [iovec.flatten.take k] num_prev_bars
          expected_imbalance_window expected_num_ticks constraints ema_bars) v).cum_ticks : ℚ)
        ≤ 1) ∧
    (∀ a : RunState,
      (run_warmup_sell expected_imbalance_window
          (run_warmup_buy expected_imbalance_window a)).cum_ticks = a.cum_ticks ∧
      (run_warmup_sell expected_imbalance_window
          (run_warmup_buy expected_imbalance_window a)).buy_ticks_num = a.buy_ticks_num ∧
      (run_warmup expected_imbalance_window a).cum_ticks = a.cum_ticks ∧
      (run_warmup expected_imbalance_window a).buy_ticks_num = a.buy_ticks_num) := by
  have hs : RunCounts (run_final [iovec.flatten.take k] num_prev_bars
      expected_imbalance_window expected_num_ticks constraints ema_bars) := by
    unfold run_final
    rw [run_loop_flatten]
    unfold run_bin
    exact foldl_preserves RunCounts _
      (fun s x hx => run_tick_counts _ _ _ _ _ s x hx) _ _ (run_init_counts _)
  have ha := run_accumulate_safe _ v hs
  refine ⟨ha, ?_, fun a => run_warmup_steps_counts _ a⟩
  have hc : (0 : ℚ) < ((run_accumulate (run_final [iovec.flatten.take k] num_prev_bars
      expected_imbalance_window expected_num_ticks constraints ema_bars) v).cum_ticks : ℚ) := by
    exact_mod_cast (by omega : (0 : Int) < (run_accumulate (run_final [iovec.flatten.take k]
      num_prev_bars expected_imbalance_window expected_num_ticks constraints
      ema_bars) v).cum_ticks)
  constructor
  · exact div_nonneg (by exact_mod_cast ha.2.1) (le_of_lt hc)
  · rw [div_le_one hc]
    exact_mod_cast ha.2.2

/-! ## Imbalance bars on a constant stream -/

/-- The conversion yields a value of the 32-bit `int` range. -/
theorem int_of_double_range (x : ℚ) :
    -2 ^ 31 ≤ int_of_double x ∧ int_of_double x < 2 ^ 31 := by
  unfold int_of_double
  dsimp only
  generalize (if 0 ≤ x then ⌊x⌋ else ⌈x⌉ : Int) = t
  split_ifs with h
  · exact h
  · exact ⟨le_refl _, by norm_num⟩

/-- Within the range of `int` the conversion is truncation: downward for `x ≥ 0`. -/
theorem int_of_double_of_lt (x : ℚ) (h0 : 0 ≤ x) (h1 : x < 2 ^ 31) :
    int_of_double x = ⌊x⌋ := by
  have hf0 : (0 : Int) ≤ ⌊x⌋ := Int.floor_nonneg.mpr h0
  have hf1 : ⌊x⌋ < 2 ^ 31 := Int.floor_lt.mpr (by exact_mod_cast h1)
  unfold int_of_double
  simp only [if_pos h0]
  rw [if_pos ⟨by omega, hf1⟩]

/-- A window beyond the range of `int` is converted to `INT_MIN`, hence to the
`size_t` `2^64 - 2^31`: the whole history is used, as with any window that exceeds
the history.  Evaluated on eight ticks of value 3 with `expected_num_ticks = 2`. -/
theorem compute_imbalance_bars_window_beyond_int :
    int_of_double (2 ^ 64) = -2 ^ 31 ∧
    size_t_of_int (int_of_double (2 ^ 64)) = 2 ^ 64 - 2 ^ 31 ∧
    get_expected_imbalance [3, 3] 2 (int_of_double (2 ^ 64)) = 3 ∧
    compute_imbalance_bars [[3, 3, 3], [3, 3, 3, 3, 3]] 3 (2 ^ 64) 2 (1, 10) false
      = [0, 0, 0, 1, 1, 1, 2, 2] ∧
    compute_imbalance_bars [[3, 3, 3], [3, 3, 3, 3, 3]] 3 18000000000000000000 2
      (1, 10) false = [0, 0, 0, 1, 1, 1, 2, 2] := by
  refine ⟨by decide!, by decide!, by decide!, by decide!, by decide!⟩

end FinancialDataPreparation
